import Mathlib

/-!
# OpenLara: controller and camera core

A shallow embedding of `src/controller.h` and `src/camera.h`:

* `Controller::getOverlap`  (navigation-box height delta),
* `Controller::activateNext`, `Controller::activate`, `Camera::activate`
  (trigger-chain dispatch),
* `Camera::update` (per-tick camera state).

Conventions.  C `int` values are `Int`; `float` values are exact rationals
(`ℚ`), so rounding is not part of the model.  The box and overlap tables read
by `getOverlap` are lists, and a read outside a list is the result `none`.
Controller objects and chain records are identified by an address (`Nat`);
`NULL` is `none`.  The chain records form an immutable store, which the
dispatch only reads; the tables `level->secrets` and `level->entities` are
total maps.  Code that the two headers call but that is defined elsewhere
(`format.h`, `level.h`, `utils.h`, `lara.h`) enters as a field or a parameter.
-/

namespace OpenLara

/-! ## Level tables used by `getOverlap` -/

/-- The sentinel `#define NO_OVERLAP 0x7FFFFFFF`. -/
def NO_OVERLAP : Int := 0x7FFFFFFF

/-- The record `TR::Box`, as far as `getOverlap` reads it.  The struct is declared in
`format.h`, which is not among the sources; its method `contains(x, z)` is
therefore carried as a field. -/
structure Box where
  floor : Int
  overlap : Nat
  contains : Int → Int → Bool

/-- The record `TR::Overlap`: a box index and the flag that closes a run of the
overlap table (`end` in the source). -/
structure Overlap where
  boxIndex : Nat
  endFlag : Bool

/-- The record `TR::Room::Sector`, as far as `getOverlap` reads it. -/
structure Sector where
  boxIndex : Nat

/-- The level tables read by `getOverlap`.  The lookup `level->getSector` lives in
`level.h`/`format.h` (not among the sources) and is a field. -/
structure Level where
  boxes : List Box
  overlaps : List Overlap
  getSector : Int → Int → Int → Sector

/-- The body of the loop of `getOverlap` for one listed box `ob`: the pair
`(floor, delta)` after the `// get min delta` block. -/
def visit (b : Box) (toX toZ : Int) (acc : Int × Int) (ob : Box) : Int × Int :=
  if ob.contains toX toZ then
    let d := |b.floor - ob.floor|
    if d < acc.2 then (ob.floor, d) else acc
  else acc

/-- The loop `do { ... } while (!(o++)->end)` of `getOverlap`, run over the overlap
table from the entry `o` points at.  The accumulator is the pair
`(floor, delta)`.  Reading past the table, or a box index outside `boxes`,
is `none`. -/
def scanOverlaps (boxes : List Box) (b : Box) (toX toZ : Int) :
    List Overlap → Int × Int → Option (Int × Int)
  | [], _ => none
  | o :: rest, acc =>
    match boxes[o.boxIndex]? with
    | none => none
    | some ob =>
      if o.endFlag then some (visit b toX toZ acc ob)
      else scanOverlaps boxes b toX toZ rest (visit b toX toZ acc ob)

/-- The method `Controller::getOverlap(fromX, fromY, fromZ, toX, toZ)`; `room` is
`getEntity().room`. -/
def getOverlap (level : Level) (room : Int) (fromX _fromY fromZ toX toZ : Int) : Option Int :=
  let s := level.getSector room fromX fromZ
  if s.boxIndex = 0xFFFF then some NO_OVERLAP
  else
    match level.boxes[s.boxIndex]? with
    | none => none
    | some b =>
      if b.contains toX toZ then some 0
      else
        match scanOverlaps level.boxes b toX toZ
            (level.overlaps.drop (b.overlap &&& 0x7FFF)) (NO_OVERLAP, NO_OVERLAP) with
        | none => none
        | some (floor, _) =>
          if floor = NO_OVERLAP then some NO_OVERLAP else some (b.floor - floor)

/-! ### Specification vocabulary for `getOverlap` -/

/-- A run of the overlap table: the entries from the head up to and including the
first one whose end flag is set; `none` when no entry has the flag. -/
def overlapRun : List Overlap → Option (List Overlap)
  | [] => none
  | o :: rest =>
    if o.endFlag then some [o]
    else (overlapRun rest).map (fun r => o :: r)

/-- The boxes named by a list of overlap entries, in order; `none` when an index
is outside the box table. -/
def boxesOf (boxes : List Box) : List Overlap → Option (List Box)
  | [] => some []
  | o :: rest =>
    match boxes[o.boxIndex]?, boxesOf boxes rest with
    | some ob, some obs => some (ob :: obs)
    | _, _ => none

/-- The overlap list of box `b`: the boxes of the run that starts at index
`b.overlap & 0x7FFF`. -/
def listedBoxes (level : Level) (b : Box) : Option (List Box) :=
  (overlapRun (level.overlaps.drop (b.overlap &&& 0x7FFF))).bind (boxesOf level.boxes)

/-- The listed boxes that contain the destination column, in list order. -/
def candidates (obs : List Box) (toX toZ : Int) : List Box :=
  obs.filter (fun ob => ob.contains toX toZ)

/-- A real floor height: its magnitude is below `2^30`, so that a difference of two
heights fits a C `int` and stays below the sentinel. -/
def RealHeight (h : Int) : Prop := -(2 ^ 30) < h ∧ h < 2 ^ 30

instance (h : Int) : Decidable (RealHeight h) := by
  unfold RealHeight; infer_instance

/-- A box of the given floor height and overlap index that contains the columns
with `lo ≤ x ≤ hi`. -/
def columnBox (floor : Int) (overlap : Nat) (lo hi : Int) : Box :=
  ⟨floor, overlap, fun x _ => decide (lo ≤ x ∧ x ≤ hi)⟩

/-- A small level: the source box (index 0, floor 100) covers the columns
`0 ≤ x ≤ 1023`; its overlap list names two boxes of floors `f1` and `f2`, in
this order, which both cover the columns `1024 ≤ x ≤ 2047`. -/
def twoNeighbours (f1 f2 : Int) : Level where
  boxes := [columnBox 100 0 0 1023, columnBox f1 0 1024 2047, columnBox f2 0 1024 2047]
  overlaps := [⟨1, false⟩, ⟨2, true⟩]
  getSector := fun _ _ _ => ⟨0⟩

/-! ## Vectors and the state of controllers -/

/-- The type `vec2` of `utils.h`: two `float` components. -/
structure vec2 where
  x : ℚ
  y : ℚ
  deriving DecidableEq

/-- The type `vec3` of `utils.h`: three `float` components. -/
structure vec3 where
  x : ℚ
  y : ℚ
  z : ℚ
  deriving DecidableEq

/-- The values of `TR::Action` that the `switch` of `activateNext` names. -/
inductive Action where
  | ACTIVATE | CAMERA_SWITCH | CAMERA_TARGET | SECRET
  | FLOW | FLIP_MAP | FLIP_ON | FLIP_OFF | END | SOUNDTRACK
  | HARDCODE | CLEAR | CAMERA_FLYBY | CUTSCENE
  deriving DecidableEq

/-- The record `Controller::ActionCommand`.  `next` is the address of the following
record, `none` for `NULL`. -/
structure ActionCommand where
  emitter : Int
  action : Action
  value : Int
  timer : ℚ
  next : Option Nat

/-- The dynamic type of a controller object, which selects the body of the virtual
`activate`: the base `Controller`, the `Camera` of `camera.h`, or a class
derived elsewhere (its `activate` is not among the sources). -/
inductive Kind where
  | controller | camera | derived
  deriving DecidableEq

/-- The sound identifiers used by `controller.h`. -/
inductive SoundId where
  | SND_BUBBLE | SND_SECRET
  deriving DecidableEq

/-- One call of `playSound(id, pos, flags)`, with the controller that made it. -/
structure SoundRequest where
  source : Nat
  id : SoundId
  pos : vec3
  flags : Int
  deriving DecidableEq

/-- The fields of a controller object that the chain dispatch and the camera tick
read or write.  The fields after `angle` are those of the derived struct
`Camera`; they are carried by every object and only used by the camera. -/
structure Controller where
  kind : Kind
  actionCommand : Option Nat
  pos : vec3
  angle : vec3
  target : vec3
  destPos : vec3
  lastDest : vec3
  angleAdv : vec3
  room : Int
  timer : ℚ
  actTargetEntity : Int
  actCamera : Int

/-- The mutable state the chain dispatch works on: the controller objects by
address, `level->entities[i].controller`, `level->cameraController`,
`level->secrets` and the log of `playSound` calls (oldest first). -/
structure World where
  controllers : Nat → Controller
  entityController : Int → Option Nat
  cameraController : Option Nat
  secrets : Int → Bool
  sounds : List SoundRequest

/-- Replaces the object at address `i` by `f` of it. -/
def World.modify (w : World) (i : Nat) (f : Controller → Controller) : World :=
  { w with controllers := Function.update w.controllers i (f (w.controllers i)) }

/-- The assignment `actionCommand = p` inside the object at address `i`. -/
def World.setActionCommand (w : World) (i : Nat) (p : Option Nat) : World :=
  w.modify i (fun c => { c with actionCommand := p })

/-- The call `playSound(id, pos, flags)` made by the object at address `self`.  The
call is recorded; whether a sample then starts depends on `soundsMap`, the
chance field and `rand()`, which lie outside this model. -/
def playSound (w : World) (self : Nat) (id : SoundId) (pos : vec3) (flags : Int) : World :=
  { w with sounds := w.sounds ++ [⟨self, id, pos, flags⟩] }

/-- The override of `activate` of a class derived outside the sources: from the
address of the object, the address of the command and the world, the world it
leaves and the value it returns. -/
abbrev Handler := Nat → Nat → World → World × Bool

/-! ## Trigger-chain dispatch -/

/-- The base method `Controller::activate(cmd)`:
`{ actionCommand = cmd; return true; }`. -/
def Controller.activate (w : World) (self cmd : Nat) : World × Bool :=
  (w.setActionCommand self (some cmd), true)

/-- Lines 45-53 of `camera.h`: what `Camera::activate(cmd)` assigns before it calls
`activateNext()`: the base `Controller::activate(cmd)`, the timer override and
the recorded target or camera index. -/
def Camera.applyCommand (cmds : Nat → ActionCommand) (w : World) (self cmd : Nat) : World :=
  let w := (Controller.activate w self cmd).1
  let c := cmds cmd
  let w := if c.timer ≠ 0 then w.modify self (fun k => { k with timer := c.timer }) else w
  let w := if c.action = Action.CAMERA_TARGET then
      w.modify self (fun k => { k with actTargetEntity := c.value }) else w
  let w := if c.action = Action.CAMERA_SWITCH then
      w.modify self (fun k => { k with actCamera := c.value, lastDest := k.pos }) else w
  w

/-- The override `Camera::activate(cmd)`.  `reenter` is the call `activateNext()` on
the camera itself; the method then returns `true`. -/
def Camera.activate (cmds : Nat → ActionCommand) (reenter : World → Nat → Option World)
    (w : World) (self cmd : Nat) : Option (World × Bool) :=
  (reenter (Camera.applyCommand cmds w self cmd) self).map (fun w => (w, true))

/-- The virtual call `controller->activate(cmd)`, resolved on the dynamic type of
the object at address `controller`. -/
def dispatchActivate (cmds : Nat → ActionCommand) (ext : Handler)
    (reenter : World → Nat → Option World) (w : World) (controller cmd : Nat) :
    Option (World × Bool) :=
  match (w.controllers controller).kind with
  | Kind.controller => some (Controller.activate w controller cmd)
  | Kind.camera => Camera.activate cmds reenter w controller cmd
  | Kind.derived => some (ext controller cmd w)

/-- The value of the local `controller` after the `switch` of `activateNext`, for
the cases that leave the `switch` by `break`. -/
def handlerOf (w : World) (next : ActionCommand) : Option Nat :=
  match next.action with
  | Action.ACTIVATE => w.entityController next.value
  | Action.CAMERA_SWITCH => w.cameraController
  | Action.CAMERA_TARGET => w.cameraController
  | _ => none

/-- The body of `Controller::activateNext()` run on the object at address `self`;
`reenter` stands for every nested call of `activateNext` (the one of the
`SECRET` case and the one inside `Camera::activate`). -/
def activateNextBody (cmds : Nat → ActionCommand) (ext : Handler)
    (reenter : World → Nat → Option World) (w : World) (self : Nat) : Option World :=
  match (w.controllers self).actionCommand with
  | none => some (w.setActionCommand self none)
  | some p =>
    match (cmds p).next with
    | none => some (w.setActionCommand self none)
    | some q =>
      let next := cmds q
      if next.action = Action.SECRET then
        let w := if w.secrets next.value = false then
            playSound { w with secrets := Function.update w.secrets next.value true }
              self SoundId.SND_SECRET (w.controllers self).pos 0
          else w
        reenter (w.setActionCommand self (some q)) self
      else
        match handlerOf w next with
        | some controller =>
          match dispatchActivate cmds ext reenter w controller q with
          | none => none
          | some (w, true) => some (w.setActionCommand self none)
          | some (w, false) => some w
        | none => some (w.setActionCommand self none)

/-- The method `Controller::activateNext()` with a bound on the depth of nested
calls: `fuel` is the number of invocations that may be open at once, and
`none` means the bound was reached. -/
def activateNext (cmds : Nat → ActionCommand) (ext : Handler) : Nat → World → Nat → Option World
  | 0 => fun _ _ => none
  | fuel + 1 => activateNextBody cmds ext (activateNext cmds ext fuel)

/-- The chain that starts at record `p` has exactly `n` links after `p`: following
`next` from `p` reaches `NULL` after `n` records.  A chain has such an `n`
exactly when it is finite and acyclic. -/
inductive LinksAfter (cmds : Nat → ActionCommand) : Nat → Nat → Prop where
  | last (p : Nat) : (cmds p).next = none → LinksAfter cmds p 0
  | link (p q n : Nat) : (cmds p).next = some q → LinksAfter cmds q n →
      LinksAfter cmds p (n + 1)

/-- Record `r` is `p` itself or lies after `p` on the chain. -/
inductive AtOrAfter (cmds : Nat → ActionCommand) : Nat → Nat → Prop where
  | here (p : Nat) : AtOrAfter cmds p p
  | later (p q r : Nat) : (cmds p).next = some q → AtOrAfter cmds q r → AtOrAfter cmds p r

/-! ### A small chain and world for evaluation -/

/-- The origin, used as the position of the example objects. -/
def vec3.zero : vec3 := ⟨0, 0, 0⟩

/-- An example store of chain records: record 0 is the head of a chain, followed
by a secret link (index 5), a camera switch (camera 7, timer 2), and the
activation of entity 4; record 4 is a camera switch (camera 7, timer 2) with no
following link. -/
def demoChain : Nat → ActionCommand
  | 0 => ⟨0, Action.ACTIVATE, 0, 0, some 1⟩
  | 1 => ⟨0, Action.SECRET, 5, 0, some 2⟩
  | 2 => ⟨0, Action.CAMERA_SWITCH, 7, 2, some 3⟩
  | 3 => ⟨0, Action.ACTIVATE, 4, 0, none⟩
  | 4 => ⟨0, Action.CAMERA_SWITCH, 7, 2, none⟩
  | _ => ⟨0, Action.END, 0, 0, none⟩

/-- An example object of the given dynamic type with the given cursor. -/
def demoObject (kind : Kind) (cursor : Option Nat) : Controller where
  kind := kind
  actionCommand := cursor
  pos := ⟨1000, 0, 1000⟩
  angle := vec3.zero
  target := vec3.zero
  destPos := vec3.zero
  lastDest := vec3.zero
  angleAdv := vec3.zero
  room := 3
  timer := 0
  actTargetEntity := -1
  actCamera := -1

/-- An example world: object 0 is a base controller with the given cursor,
object 1 is the camera of the level, object 2 belongs to entity 4 and is of a
class derived elsewhere; no secret has been found and no sound requested. -/
def demoWorld (cursor : Option Nat) : World where
  controllers := fun i =>
    if i = 0 then demoObject Kind.controller cursor
    else if i = 1 then demoObject Kind.camera none
    else demoObject Kind.derived none
  entityController := fun e => if e = 4 then some 2 else none
  cameraController := some 1
  secrets := fun _ => false
  sounds := []

/-- An example handler of a derived class: it changes nothing and reports that it
has not completed. -/
def demoHandler : Handler := fun _ _ w => (w, false)

/-- A chain that is a cycle: every record is a secret link whose `next` is record
0. -/
def cyclicChain : Nat → ActionCommand := fun _ => ⟨0, Action.SECRET, 0, 0, some 0⟩

/-! ## The camera tick -/

/-- The offset `#define CAMERA_OFFSET (1024.0f + 256.0f)`. -/
def CAMERA_OFFSET : ℚ := 1024 + 256

/-- The conversion `(int)f` of a `float`: truncation toward zero, here without the
bounds of `int`; `toInt32` is the conversion with its range. -/
def toInt (f : ℚ) : Int := if 0 ≤ f then ⌊f⌋ else ⌈f⌉

/-- The owner `Lara *owner`, as far as `Camera::update` reads or writes it.
`viewPoint` is the value `owner->getViewPoint()` has during the tick and
`roomIndex` the value of `owner->getRoomIndex()`; `lara.h` is not among the
sources. -/
structure Lara where
  target : Int
  viewTarget : Int
  angle : vec3
  viewPoint : vec3
  emptyHands : Bool
  state : Int
  roomIndex : Int

/-- The part of the global `Input` that `Camera::update` reads or writes. -/
structure Input where
  downMouseR : Bool
  mousePos : vec2
  mouseStartR : vec2
  joyL : vec2

/-- The record `TR::Level::FloorInfo`, as far as the camera reads it. -/
structure FloorInfo where
  floor : Int
  ceiling : Int
  roomFloor : Int
  roomCeiling : Int
  roomNext : Int
  roomBelow : Int
  roomAbove : Int

/-- An entry of `level->cameras`. -/
structure LevelCamera where
  x : Int
  y : Int
  z : Int
  room : Int

/-- Everything `Camera::update` calls that is defined outside `camera.h`: the vector
operations of `utils.h` (`+`, `-`, `* float`, `cross`, `normal`, `lerp`, the
constructor `vec3(angleX, angleY)`), the level tables and queries, the position
of the controller of an entity, the constant `Lara::STATE_BACK_JUMP`, and
`Controller::trace`, which enters the tick only through the point and room it
returns for `(fromRoom, from, to, isCamera)`. -/
structure Scene where
  add : vec3 → vec3 → vec3
  sub : vec3 → vec3 → vec3
  scale : vec3 → ℚ → vec3
  cross : vec3 → vec3 → vec3
  normal : vec3 → vec3
  lerp : vec3 → vec3 → ℚ → vec3
  ofAngles : ℚ → ℚ → vec3
  sub2 : vec2 → vec2 → vec2
  cameras : Int → LevelCamera
  entityPos : Int → vec3
  getFloorInfo : Int → Int → Int → Int → FloorInfo
  trace : Int → vec3 → vec3 → Bool → vec3 × Int
  STATE_BACK_JUMP : Int

/-- What one call of `Camera::update` finds outside the camera object:
`Core::deltaTime`, the owner, the input state and the scene. -/
structure Frame where
  deltaTime : ℚ
  owner : Lara
  input : Input
  scene : Scene

/-- The override `Camera::getRoomIndex()`. -/
def Camera.getRoomIndex (sc : Scene) (cam : Controller) : Int :=
  if cam.actCamera > -1 then (sc.cameras cam.actCamera).room else cam.room

/-- Lines 59-61 of `camera.h`: the look-at entity resolved by `Camera::update`. -/
def Camera.lookAt (owner : Lara) (cam : Controller) : Int :=
  let lookAt : Int := -1
  let lookAt := if cam.actTargetEntity > -1 then cam.actTargetEntity else lookAt
  let lookAt := if owner.target > -1 then owner.target else lookAt
  lookAt

/-- Lines 65-74 of `camera.h`: the countdown block of `Camera::update`.  The
subtraction is exact here; `Camera.updateTimerF` is the block with the
subtraction rounded. -/
def Camera.updateTimer (f : Frame) (cam : Controller) : Controller :=
  if cam.timer > 0 then
    let cam := { cam with timer := cam.timer - f.deltaTime }
    if cam.timer ≤ 0 then
      let cam := { cam with timer := 0 }
      let cam := if cam.room ≠ Camera.getRoomIndex f.scene cam then
          { cam with pos := cam.lastDest } else cam
      let cam := { cam with actTargetEntity := -1, actCamera := -1 }
      { cam with target := f.owner.viewPoint }
    else cam
  else cam

/-- Lines 85-96 of `camera.h`: mouse and stick input turned into `angleAdv` and
`angle` (the `FREE_CAMERA` block is compiled out, see `game.h`). -/
def Camera.updateAngle (f : Frame) (cam : Controller) : Controller × Input :=
  let sc := f.scene
  let r : Controller × Input :=
    if f.input.downMouseR then
      let delta := sc.sub2 f.input.mousePos f.input.mouseStartR
      let adv := cam.angleAdv
      let adv := { adv with x := adv.x - delta.y * (1 / 100) }
      let adv := { adv with y := adv.y + delta.x * (1 / 100) }
      ({ cam with angleAdv := adv }, { f.input with mouseStartR := f.input.mousePos })
    else (cam, f.input)
  let cam := r.1
  let adv := cam.angleAdv
  let adv := { adv with x := adv.x - f.input.joyL.y * 2 * f.deltaTime }
  let adv := { adv with y := adv.y + f.input.joyL.x * 2 * f.deltaTime }
  let cam := { cam with angleAdv := adv }
  let angle := sc.add f.owner.angle cam.angleAdv
  ({ cam with angle := { angle with z := 0 } }, r.2)

/-- Lines 99-129 of `camera.h`: the look point is blended toward the view point of
the owner, then the destination of the eye is taken from the active level
camera or from `trace`. -/
def Camera.updateDest (f : Frame) (lookAt : Int) (cam : Controller) : Controller :=
  let sc := f.scene
  let lerpFactor : ℚ := if lookAt = -1 then 6 else 10
  let cam := { cam with target := sc.lerp cam.target f.owner.viewPoint (lerpFactor * f.deltaTime) }
  if cam.actCamera > -1 then
    let c := sc.cameras cam.actCamera
    let cam := { cam with destPos := ⟨c.x, c.y, c.z⟩ }
    let cam := if cam.room ≠ Camera.getRoomIndex sc cam then { cam with pos := cam.destPos } else cam
    if lookAt > -1 then { cam with target := sc.entityPos lookAt } else cam
  else
    let dir : vec3 :=
      if lookAt > -1 then sc.normal (sc.sub (sc.entityPos lookAt) cam.target)
      else sc.ofAngles cam.angle.x cam.angle.y
    if (!f.owner.emptyHands || f.owner.state != sc.STATE_BACK_JUMP) || decide (lookAt > -1) then
      let eye := sc.sub cam.target (sc.scale dir CAMERA_OFFSET)
      let r := sc.trace f.owner.roomIndex cam.target eye true
      { cam with destPos := r.1, lastDest := r.1, room := r.2 }
    else
      let eye := sc.sub (sc.add cam.lastDest (sc.scale (sc.normal (sc.cross dir ⟨0, 1, 0⟩)) 2048))
        ⟨0, 512, 0⟩
      let r := sc.trace f.owner.roomIndex cam.target eye true
      { cam with destPos := r.1, room := r.2 }

/-- Lines 142-148 of `camera.h`: an eye above the ceiling of its room moves to the
room above or, when there is none, is put on the ceiling.  The comparison of
the `int` bound with the unsigned literal `0xffff8100` is made modulo `2^32`. -/
def Camera.clampCeiling (info : FloorInfo) (cam : Controller) : Controller :=
  if cam.pos.y < (info.roomCeiling : ℚ) then
    if info.roomAbove ≠ 255 then { cam with room := info.roomAbove }
    else if info.roomCeiling % 2 ^ 32 ≠ 0xffff8100 then
      { cam with pos := { cam.pos with y := info.roomCeiling } }
    else cam
  else cam

/-- Lines 150-156 of `camera.h`: an eye below the floor of its room moves to the
room below or, when there is none, is put on the floor. -/
def Camera.clampFloor (info : FloorInfo) (cam : Controller) : Controller :=
  if cam.pos.y > (info.roomFloor : ℚ) then
    if info.roomBelow ≠ 255 then { cam with room := info.roomBelow }
    else if info.roomFloor % 2 ^ 32 ≠ 0xffff8100 then
      { cam with pos := { cam.pos with y := info.roomFloor } }
    else cam
  else cam

/-- Lines 131-161 of `camera.h`: the eye is blended toward the destination and,
while no level camera is active, the floor info at the eye is queried, the room
follows `roomNext`, and the eye is clamped against ceiling and floor. -/
def Camera.updateEye (f : Frame) (lookAt : Int) (cam : Controller) : Controller :=
  let sc := f.scene
  let lerpFactor : ℚ := if lookAt = -1 then 6 else 10
  let cam := { cam with pos := sc.lerp cam.pos cam.destPos (f.deltaTime * lerpFactor) }
  if cam.actCamera ≤ -1 then
    let info := sc.getFloorInfo cam.room (toInt cam.pos.x) (toInt cam.pos.y) (toInt cam.pos.z)
    let cam := if info.roomNext ≠ 255 then { cam with room := info.roomNext } else cam
    Camera.clampFloor info (Camera.clampCeiling info cam)
  else cam

/-- The method `Camera::update()`: the camera after the tick, the owner with the
`viewTarget` written by line 63, and the input state after line 89.  The view
matrix built from `pos` and `target` at the end is not part of the model. -/
def Camera.update (f : Frame) (cam : Controller) : Controller × Lara × Input :=
  let lookAt := Camera.lookAt f.owner cam
  let owner := { f.owner with viewTarget := lookAt }
  let cam := Camera.updateTimer f cam
  let r := Camera.updateAngle f cam
  let cam := Camera.updateDest f lookAt r.1
  let cam := Camera.updateEye f lookAt cam
  (cam, owner, r.2)

/-- The camera after a sequence of ticks with nothing else acting on it. -/
def Camera.run (cam : Controller) (frames : List Frame) : Controller :=
  frames.foldl (fun c f => (Camera.update f c).1) cam

/-- The time elapsed over a sequence of ticks. -/
def elapsed (frames : List Frame) : ℚ :=
  (frames.map (fun f => f.deltaTime)).sum

/-! ### A small scene for evaluation -/

/-- An example scene: the vector operators act componentwise, `lerp a b t` is
`a + (b - a) * t`, `normal` is the identity, `trace` returns its target point
in the room it started from, every column has its floor at 0 and its ceiling
at -4096 with no neighbouring room. -/
def demoScene : Scene where
  add := fun a b => ⟨a.x + b.x, a.y + b.y, a.z + b.z⟩
  sub := fun a b => ⟨a.x - b.x, a.y - b.y, a.z - b.z⟩
  scale := fun a t => ⟨a.x * t, a.y * t, a.z * t⟩
  cross := fun a b => ⟨a.y * b.z - a.z * b.y, a.z * b.x - a.x * b.z, a.x * b.y - a.y * b.x⟩
  normal := fun a => a
  lerp := fun a b t => ⟨a.x + (b.x - a.x) * t, a.y + (b.y - a.y) * t, a.z + (b.z - a.z) * t⟩
  ofAngles := fun _ _ => ⟨0, 0, 1⟩
  sub2 := fun a b => ⟨a.x - b.x, a.y - b.y⟩
  cameras := fun _ => ⟨2000, -1000, 2000, 3⟩
  entityPos := fun _ => ⟨3000, 0, 3000⟩
  getFloorInfo := fun _ _ _ _ => ⟨0, -4096, 0, -4096, 255, 255, 255⟩
  trace := fun room _ dest _ => (dest, room)
  STATE_BACK_JUMP := 25

/-- An example tick of the given length: the owner stands in room 3 with no target
and its view point at `(1000, -700, 1000)`; no input is held. -/
def demoFrame (dt : ℚ) : Frame where
  deltaTime := dt
  owner := ⟨-1, -1, vec3.zero, ⟨1000, -700, 1000⟩, true, 0, 3⟩
  input := ⟨false, ⟨0, 0⟩, ⟨0, 0⟩, ⟨0, 0⟩⟩
  scene := demoScene

/-- An example camera in room 3 at `(1000, 0, 1000)` on which a camera switch with
value 7 and timer 2 has been activated. -/
def demoCamera : Controller :=
  { demoObject Kind.camera none with timer := 2, actCamera := 7, lastDest := ⟨1000, 0, 1000⟩ }

/-! ### A tick with two competing look-at targets -/

/-- An example tick in which the owner has its own target, entity 9. -/
def demoFrameTargeting : Frame :=
  { demoFrame (1 / 2) with owner := { (demoFrame (1 / 2)).owner with target := 9 } }

/-- An example camera on which a camera-target command for entity 5 has been
activated. -/
def demoCameraForced : Controller :=
  { demoObject Kind.camera none with actTargetEntity := 5 }

/-! ## Bubbles -/

/-- The method `Controller::doBubbles()` run on the object at address `self`; `r` is
the value `rand()` returns (an `int` from 0 to `RAND_MAX`) and `pan` the flag
`Sound::Flags::PAN` of `sound.h`. -/
def doBubbles (w : World) (self : Nat) (r : Nat) (pan : Int) : World :=
  if r % 10 ≤ 6 then w
  else playSound w self SoundId.SND_BUBBLE (w.controllers self).pos pan

/-- Whether a call of `doBubbles` with the draw `r` requests a sound. -/
def bubbles (w : World) (self : Nat) (pan : Int) (r : Nat) : Bool :=
  decide ((doBubbles w self r pan).sounds = w.sounds ++
    [⟨self, SoundId.SND_BUBBLE, (w.controllers self).pos, pan⟩])

/-! ## Runs of camera links -/

/-- The countdown after the commands `cs` have been taken in order, starting from
`t`: the timer of the last command whose timer is non-zero. -/
def Camera.lastTimer (cmds : Nat → ActionCommand) (t : ℚ) (cs : List Nat) : ℚ :=
  cs.foldl (fun t c => if (cmds c).timer ≠ 0 then (cmds c).timer else t) t

/-- The active-camera index after the commands `cs`, starting from `a`: the value
of the last `CAMERA_SWITCH` among them. -/
def Camera.lastSwitch (cmds : Nat → ActionCommand) (a : Int) (cs : List Nat) : Int :=
  cs.foldl (fun a c => if (cmds c).action = Action.CAMERA_SWITCH then (cmds c).value else a) a

/-- The forced look-at entity after the commands `cs`, starting from `a`: the value
of the last `CAMERA_TARGET` among them. -/
def Camera.lastTarget (cmds : Nat → ActionCommand) (a : Int) (cs : List Nat) : Int :=
  cs.foldl (fun a c => if (cmds c).action = Action.CAMERA_TARGET then (cmds c).value else a) a

/-- The records `run` are the run of camera links that follows record `c`: each is
the `next` of the one before and of kind `CAMERA_SWITCH` or `CAMERA_TARGET`;
after the last of them the chain ends, or goes on with a link that is not a
secret and has no handler controller or one that is a base controller other
than the camera. -/
inductive CameraRun (cmds : Nat → ActionCommand) (w : World) (cam : Nat) :
    Nat → List Nat → Prop where
  | done (c : Nat) : (cmds c).next = none → CameraRun cmds w cam c []
  | other (c q : Nat) : (cmds c).next = some q → (cmds q).action ≠ Action.SECRET →
      (handlerOf w (cmds q) = none ∨
        ∃ k, handlerOf w (cmds q) = some k ∧ k ≠ cam ∧
          (w.controllers k).kind = Kind.controller) →
      CameraRun cmds w cam c []
  | link (c q : Nat) (rest : List Nat) : (cmds c).next = some q →
      ((cmds q).action = Action.CAMERA_SWITCH ∨ (cmds q).action = Action.CAMERA_TARGET) →
      CameraRun cmds w cam q rest → CameraRun cmds w cam c (q :: rest)

/-- An example chain of camera links: a switch to camera 3 with timer 5, a switch
to camera 7 without timer, a camera target on entity 4 with timer 2. -/
def cameraChain : Nat → ActionCommand
  | 0 => ⟨0, Action.CAMERA_SWITCH, 3, 5, some 1⟩
  | 1 => ⟨0, Action.CAMERA_SWITCH, 7, 0, some 2⟩
  | 2 => ⟨0, Action.CAMERA_TARGET, 4, 2, none⟩
  | _ => ⟨0, Action.END, 0, 0, none⟩

/-! ## The mesh-override table -/

/-- The record `TR::Model`, as far as the mesh table reads it: the index of the first
mesh of the model and the number of its parts. -/
structure Model where
  mStart : Nat
  mCount : Nat
  deriving DecidableEq

/-- The fields `int *meshes` and `int mCount` of a controller: the override table
(`none` for `NULL`) and its length. -/
structure Meshes where
  meshes : Option (List Nat)
  mCount : Nat
  deriving DecidableEq

/-- The method `Controller::initMeshOverrides()`; `own` is `getModel()`, the model
of the entity. -/
def initMeshOverrides (own : Model) : Meshes where
  mCount := own.mCount
  meshes := if own.mCount ≠ 0 then some ((List.range own.mCount).map (fun i => own.mStart + i))
    else none

/-- The condition `((1 << i) & mask) && level->meshOffsets[index]` of `meshSwap`;
`mask` is the bit pattern of the `int` argument (the default `0xFFFFFFFF` has
all 32 bits set) and `meshOffsets` the table of the level. -/
def swapsPart (meshOffsets : Nat → Nat) (model : Model) (mask : Nat) (i : Nat) : Bool :=
  decide ((1 <<< i) &&& mask ≠ 0) && decide (meshOffsets (model.mStart + i) ≠ 0)

/-- One pass of the loop of `meshSwap`.  The assignment `meshes[i] = index` through
a `NULL` table or past the end of the table is undefined in the source and is
the result `none`. -/
def meshSwapStep (meshOffsets : Nat → Nat) (model : Model) (mask : Nat)
    (t : Option (List Nat)) (i : Nat) : Option (Option (List Nat)) :=
  let index := model.mStart + i
  if swapsPart meshOffsets model mask i then
    match t with
    | none => none
    | some l => if i < l.length then some (some (l.set i index)) else none
  else some t

/-- The method `Controller::meshSwap(model, mask)` on a controller whose entity has
the model `own`. -/
def meshSwap (meshOffsets : Nat → Nat) (own : Model) (st : Meshes) (model : Model)
    (mask : Nat) : Option Meshes :=
  let st := if st.meshes.isNone then initMeshOverrides own else st
  ((List.range model.mCount).foldlM (meshSwapStep meshOffsets model mask) st.meshes).map
    (fun t => { st with meshes := t })

/-- The mesh index `render` passes to `renderMesh` for part `i`:
`meshes ? meshes[i] : (model->mStart + i)`; a read past the table is `none`. -/
def renderIndex (own : Model) (st : Meshes) (i : Nat) : Option Nat :=
  match st.meshes with
  | some l => l[i]?
  | none => some (own.mStart + i)

/-- Part `i` is overridden by `meshSwap(model, mask)`: it is a part of the swap
model, bit `i` of the mask is set and the mesh `model.mStart + i` has a mesh
offset. -/
def overrides (meshOffsets : Nat → Nat) (model : Model) (mask : Nat) (i : Nat) : Bool :=
  decide (i < model.mCount) && mask.testBit i && decide (meshOffsets (model.mStart + i) ≠ 0)

/-- An example table of mesh offsets: every mesh has an offset except mesh 202. -/
def demoOffsets : Nat → Nat := fun index => if index = 202 then 0 else 1

/-! ## Animation update -/

/-- The fields of `struct Animation` (`animation.h`, not among the sources) that
`updateAnimation` reads or writes, together with the fields of the current
`TR::Animation` record it reads through `anim`. -/
structure Animation where
  index : Int
  frameIndex : Int
  framePrev : Int
  isEnded : Bool
  offset : vec3
  jump : vec3
  animCommand : Nat
  acCount : Nat
  frameStart : Int

/-- The controller as `updateAnimation` sees it. -/
structure Actor where
  animation : Animation
  pos : vec3
  angle : vec3

/-- A call made by `updateAnimation`, with its arguments. -/
inductive Call where
  | animationUpdate
  | cmdEmpty
  | cmdKill
  | doBubbles
  | playSound (id : Int) (pos : vec3) (flags : Int)
  | log (fx : Int) (index : Int)
  | doCustomCommand (curFrame prevFrame : Int)
  | cmdOffset (offset : vec3)
  | cmdJump (vel : vec3)
  | playNext
  | activateNext
  deriving DecidableEq

/-- Everything `updateAnimation` uses that is defined outside `controller.h` or is
virtual: the effect on the controller of the methods of `Animation`, of the
virtual hooks and of `activateNext`, the table `level->commands`, and the
constants of `format.h`, `sound.h` and `utils.h`. -/
structure AnimEnv where
  update : Actor → Actor
  isFrameActive : Actor → Int → Bool
  playNext : Actor → Actor
  activateNext : Actor → Actor
  cmdOffset : Actor → vec3 → Actor
  cmdJump : Actor → vec3 → Actor
  cmdEmpty : Actor → Actor
  cmdKill : Actor → Actor
  doCustomCommand : Actor → Int → Int → Actor
  commands : Nat → Int
  ANIM_CMD_OFFSET : Int
  ANIM_CMD_JUMP : Int
  ANIM_CMD_EMPTY : Int
  ANIM_CMD_KILL : Int
  ANIM_CMD_SOUND : Int
  ANIM_CMD_EFFECT : Int
  EFFECT_ROTATE_180 : Int
  EFFECT_LARA_BUBBLES : Int
  EFFECT_LARA_HANDSFREE : Int
  PI : ℚ
  PAN : Int

/-- The controller during `updateAnimation` and the calls made so far, oldest
first. -/
structure AnimRun where
  actor : Actor
  calls : List Call

/-- A call is made: it is recorded and its effect applied to the controller. -/
def AnimRun.invoke (r : AnimRun) (c : Call) (effect : Actor → Actor) : AnimRun :=
  { actor := effect r.actor, calls := r.calls ++ [c] }

/-- The comparison `v != 0.0f` of a `vec3` with a scalar (`utils.h`): `v` is not the
zero vector. -/
def vec3.nonZero (v : vec3) : Bool := decide (v ≠ vec3.zero)

/-- Lines 360-370 of `controller.h`: a sound or effect command whose frame is
active. -/
def applyEffect (E : AnimEnv) (cmd fx : Int) (r : AnimRun) : AnimRun :=
  if cmd = E.ANIM_CMD_EFFECT then
    if fx = E.EFFECT_ROTATE_180 then
      { r with actor := { r.actor with angle := { r.actor.angle with y := r.actor.angle.y + E.PI } } }
    else if fx = E.EFFECT_LARA_BUBBLES then r.invoke Call.doBubbles id
    else if fx = E.EFFECT_LARA_HANDSFREE then r
    else r.invoke (Call.log fx r.actor.animation.index) id
  else r.invoke (Call.playSound fx r.actor.pos E.PAN) id

/-- Lines 351-374 of `controller.h`: the loop over the `count` commands of the
animation that remain, `ptr` being the index into `level->commands`;
`frameStart` is `anim->frameStart`. -/
def applyCommands (E : AnimEnv) (frameStart : Int) : Nat → Nat → AnimRun → AnimRun
  | 0, _, r => r
  | count + 1, ptr, r =>
    let cmd := E.commands ptr
    let ptr := ptr + 1
    if cmd = E.ANIM_CMD_OFFSET then applyCommands E frameStart count (ptr + 3) r
    else if cmd = E.ANIM_CMD_JUMP then applyCommands E frameStart count (ptr + 2) r
    else if cmd = E.ANIM_CMD_EMPTY then
      applyCommands E frameStart count ptr (r.invoke Call.cmdEmpty E.cmdEmpty)
    else if cmd = E.ANIM_CMD_KILL then
      applyCommands E frameStart count ptr (r.invoke Call.cmdKill E.cmdKill)
    else if cmd = E.ANIM_CMD_SOUND ∨ cmd = E.ANIM_CMD_EFFECT then
      let frame := E.commands ptr - frameStart
      let fx := E.commands (ptr + 1) % 0x4000
      let r := if E.isFrameActive r.actor frame then applyEffect E cmd fx r else r
      applyCommands E frameStart count (ptr + 2) r
    else applyCommands E frameStart count ptr r

/-- Lines 343-378 of `controller.h`: `updateAnimation` up to the test of
`animation.isEnded`. -/
def Controller.updateAnimationHead (E : AnimEnv) (commands : Bool) (a : Actor) : AnimRun :=
  let r := AnimRun.invoke ⟨a, []⟩ Call.animationUpdate E.update
  let anim := r.actor.animation
  let r := if commands then applyCommands E anim.frameStart anim.acCount anim.animCommand r else r
  if r.actor.animation.frameIndex ≠ r.actor.animation.framePrev then
    r.invoke (Call.doCustomCommand r.actor.animation.frameIndex r.actor.animation.framePrev)
      (fun x => E.doCustomCommand x r.actor.animation.frameIndex r.actor.animation.framePrev)
  else r

/-- Lines 380-389 of `controller.h`: the end of the animation. -/
def Controller.updateAnimationEnd (E : AnimEnv) (r : AnimRun) : AnimRun :=
  if r.actor.animation.isEnded then
    let r := if r.actor.animation.offset.nonZero then
        r.invoke (Call.cmdOffset r.actor.animation.offset)
          (fun x => E.cmdOffset x r.actor.animation.offset)
      else r
    let r := if r.actor.animation.jump.nonZero then
        r.invoke (Call.cmdJump r.actor.animation.jump)
          (fun x => E.cmdJump x r.actor.animation.jump)
      else r
    let r := r.invoke Call.playNext E.playNext
    r.invoke Call.activateNext E.activateNext
  else
    { r with actor := { r.actor with
        animation := { r.actor.animation with framePrev := r.actor.animation.frameIndex } } }

/-- The method `Controller::updateAnimation(commands)`. -/
def Controller.updateAnimation (E : AnimEnv) (commands : Bool) (a : Actor) : AnimRun :=
  Controller.updateAnimationEnd E (Controller.updateAnimationHead E commands a)

/-- An example environment: the methods of `Animation` and the hooks leave the
controller as it is, and the animation has no commands. -/
def demoAnimEnv : AnimEnv where
  update := id
  isFrameActive := fun _ _ => false
  playNext := id
  activateNext := id
  cmdOffset := fun a _ => a
  cmdJump := fun a _ => a
  cmdEmpty := id
  cmdKill := id
  doCustomCommand := fun a _ _ => a
  commands := fun _ => 0
  ANIM_CMD_OFFSET := 1
  ANIM_CMD_JUMP := 2
  ANIM_CMD_EMPTY := 3
  ANIM_CMD_KILL := 4
  ANIM_CMD_SOUND := 5
  ANIM_CMD_EFFECT := 6
  EFFECT_ROTATE_180 := 0
  EFFECT_LARA_BUBBLES := 3
  EFFECT_LARA_HANDSFREE := 12
  PI := 355 / 113
  PAN := 2

/-- An example controller whose animation has the given end flag, pending offset
and pending jump; its frame index 7 equals the previous one. -/
def demoActor (isEnded : Bool) (offset jump : vec3) : Actor where
  animation := ⟨0, 7, 7, isEnded, offset, jump, 0, 0, 0⟩
  pos := vec3.zero
  angle := vec3.zero

/-! ## The ray march `trace` -/

/-- The functions of `utils.h` that `trace` uses beyond those of `Scene`: the length
of a vector, the normal of the face of a 1024-unit cell nearest to a column, and
`clamp(x, a, b)`. -/
structure Geometry where
  length : vec3 → ℚ
  boxNormal : Int → Int → vec3
  clamp : Int → Int → Int → Int

/-- The local variables of `Controller::trace` that live across the iterations of
its loop. -/
structure March where
  room : Int
  pos : vec3
  dir : vec3
  px : Int
  py : Int
  pz : Int
  dist : ℚ
  lr : Int
  lx : Int
  lz : Int
  info : FloorInfo

/-- Lines 214-223 of `controller.h`: the state of the march before the loop.  The
local `info` is not initialised in the source; it is first read after the
query of the first iteration has assigned it.  The division is exact here;
`marchInitF` has it rounded. -/
def marchInit (sc : Scene) (g : Geometry) (fromRoom : Int) (origin target : vec3) : March where
  room := fromRoom
  pos := origin
  dir := sc.scale (sc.sub target origin) (1 / g.length (sc.sub target origin))
  px := toInt origin.x
  py := toInt origin.y
  pz := toInt origin.z
  dist := g.length (sc.sub target origin)
  lr := -1
  lx := -1
  lz := -1
  info := ⟨0, 0, 0, 0, 0, 0, 0⟩

/-- Lines 225-237 of `controller.h`: the floor info is queried again when the room
or the 1024-unit cell has changed, and the room follows `roomNext`.  The
integer division is the truncating one of C. -/
def marchQuery (sc : Scene) (s : March) : March :=
  let sx := Int.tdiv s.px 1024 * 1024 + 512
  let sz := Int.tdiv s.pz 1024 * 1024 + 512
  if s.lr ≠ s.room ∨ s.lx ≠ sx ∨ s.lz ≠ sz then
    let first := sc.getFloorInfo s.room sx s.py sz
    let room := if first.roomNext ≠ 0xFF then first.roomNext else s.room
    let info := if first.roomNext ≠ 0xFF then sc.getFloorInfo first.roomNext sx s.py sz
      else first
    { s with room := room, info := info, lr := room, lx := sx, lz := sz }
  else s

/-- Lines 240-252 of `controller.h`: the camera branch.  The room follows the room
below or above; failing that, a point beyond the floor or the ceiling is put on
its cell, pushed off along the face normal, and the direction is turned to
lead from `origin` (the parameter `from`) to the corrected point. -/
def marchCamera (sc : Scene) (g : Geometry) (origin : vec3) (s : March) : March :=
  if s.py > s.info.roomFloor ∧ s.info.roomBelow ≠ 0xFF then
    { s with room := s.info.roomBelow }
  else if s.py < s.info.roomCeiling ∧ s.info.roomAbove ≠ 0xFF then
    { s with room := s.info.roomAbove }
  else if s.py > s.info.floor ∨ s.py < s.info.ceiling then
    let minX := Int.tdiv s.px 1024 * 1024
    let minZ := Int.tdiv s.pz 1024 * 1024
    let maxX := minX + 1024
    let maxZ := minZ + 1024
    let pos := sc.add ⟨(g.clamp s.px minX maxX : Int), s.pos.y, (g.clamp s.pz minZ maxZ : Int)⟩
      (sc.scale (g.boxNormal s.px s.pz) 256)
    { s with pos := pos, dir := sc.normal (sc.sub pos origin) }
  else s

/-- Lines 254-266 of `controller.h`: the branch for sight checks.  The second
component is `true` when the branch leaves the loop by `break`. -/
def marchSight (s : March) : March × Bool :=
  let below : March × Bool :=
    if s.py > s.info.roomFloor then
      if s.info.roomBelow ≠ 0xFF then ({ s with room := s.info.roomBelow }, false)
      else (s, true)
    else (s, false)
  if below.2 then below
  else
    let s := below.1
    if s.py < s.info.roomCeiling then
      if s.info.roomAbove ≠ 0xFF then ({ s with room := s.info.roomAbove }, false)
      else (s, true)
    else (s, false)

/-- Lines 269-273 of `controller.h`: one step of at most 32 units along the current
direction.  The subtraction is exact here; `marchAdvanceF` has it rounded. -/
def marchAdvance (sc : Scene) (s : March) : March :=
  let d := min s.dist 32
  let pos := sc.add s.pos (sc.scale s.dir d)
  { s with
    dist := s.dist - d
    pos := pos
    px := toInt pos.x
    py := toInt pos.y
    pz := toInt pos.z }

/-- One pass through the body of the loop of `trace`; the second component is
`true` when the pass ends with `break`. -/
def marchBody (sc : Scene) (g : Geometry) (isCamera : Bool) (origin : vec3) (s : March) :
    March × Bool :=
  let s := marchQuery sc s
  if isCamera then (marchAdvance sc (marchCamera sc g origin s), false)
  else
    let r := marchSight s
    if r.2 then r else (marchAdvance sc r.1, false)

/-- The loop `while (dist > 1.0f)` of `trace`, allowed at most `fuel` passes through
its body; `none` means that more passes were needed.  The flag of the result
tells whether the loop was left by `break`. -/
def marchLoop (sc : Scene) (g : Geometry) (isCamera : Bool) (origin : vec3) :
    Nat → March → Option (March × Bool)
  | 0, s => if s.dist > 1 then none else some (s, false)
  | fuel + 1, s =>
    if s.dist > 1 then
      let r := marchBody sc g isCamera origin s
      if r.2 then some r else marchLoop sc g isCamera origin fuel r.1
    else some (s, false)

/-- The method `Controller::trace(fromRoom, from, to, room, isCamera)`: the point
returned and the room written to `room`. -/
def trace (sc : Scene) (g : Geometry) (fuel : Nat) (fromRoom : Int) (origin target : vec3)
    (isCamera : Bool) : Option (vec3 × Int) :=
  (marchLoop sc g isCamera origin fuel (marchInit sc g fromRoom origin target)).map
    (fun r => (r.1.pos, r.1.room))

/-! ### A scene with a floor for evaluation -/

/-- An example of the functions of `utils.h`: the length is the sum of the absolute
values of the components, which on a vector along one axis is its Euclidean
length; the face normal points along `-z`; `clamp` is the usual one. -/
def demoGeometry : Geometry where
  length := fun v => |v.x| + |v.y| + |v.z|
  boxNormal := fun _ _ => ⟨0, 0, -1⟩
  clamp := fun x a b => if x < a then a else if x > b then b else x

/-- An example scene like `demoScene` in which every column of every room has its
room floor at height 20 (`y` grows downwards) and its ceiling at -4096, with
the room `below` under it (255 for none). -/
def floorScene (below : Int) : Scene :=
  { demoScene with getFloorInfo := fun _ _ _ _ => ⟨1000, -4096, 20, -4096, 255, below, 255⟩ }

/-! ### Camera links without a positive countdown -/

/-- An example store of camera links without a positive countdown: record 0 is a
switch to camera 7 with timer 0, record 1 a camera target on entity 4 with
timer -1; neither has a following link. -/
def untimedChain : Nat → ActionCommand
  | 0 => ⟨0, Action.CAMERA_SWITCH, 7, 0, none⟩
  | 1 => ⟨0, Action.CAMERA_TARGET, 4, -1, none⟩
  | _ => ⟨0, Action.END, 0, 0, none⟩

/-- An example camera with no countdown running on which a switch to camera 7 is
active: the state `Camera::activate` leaves on an idle camera for record 0 of
`untimedChain`. -/
def demoCameraUntimed : Controller :=
  { demoObject Kind.camera none with actCamera := 7, lastDest := ⟨1000, 0, 1000⟩ }

/-! ## Writing the controller back to its entity -/

/-- The record `TR::Entity`, as far as `updateEntity` writes it.  The type of the
field `rotation` is declared in `format.h`; it is the parameter `Angle`. -/
structure Entity (Angle : Type) where
  x : Int
  y : Int
  z : Int
  rotation : Angle

/-- The loop `while (angle.y < 0.0f) angle.y += 2 * PI;`, allowed at most `fuel`
passes through its body; `none` means that more passes were needed.  The
numbers are those of an ordered field `K`: the rationals in `updateEntity`,
and the loop can be read over the reals as well. -/
def wrapUp {K : Type} [LinearOrderedField K] (PI : K) : Nat → K → Option K
  | 0, y => if y < 0 then none else some y
  | fuel + 1, y => if y < 0 then wrapUp PI fuel (y + 2 * PI) else some y

/-- The loop `while (angle.y > 2 * PI) angle.y -= 2 * PI;`, allowed at most `fuel`
passes through its body; `none` means that more passes were needed. -/
def wrapDown {K : Type} [LinearOrderedField K] (PI : K) : Nat → K → Option K
  | 0, y => if y > 2 * PI then none else some y
  | fuel + 1, y => if y > 2 * PI then wrapDown PI fuel (y - 2 * PI) else some y

/-- The conversion `int(f)` of a `float` to the 32-bit `int`.  It truncates toward
zero when the truncated value fits, that is for `-2^31 - 1 < f < 2^31`; for
any other `f` the conversion is undefined in C++, and `wild f` stands for the
value the platform then leaves (`INT_MIN` on x86). -/
def toInt32 (wild : ℚ → Int) (f : ℚ) : Int :=
  if -2 ^ 31 - 1 < f ∧ f < 2 ^ 31 then toInt f else wild f

/-- The method `Controller::updateEntity()`: the controller and its entity after
the call.  `PI` is the constant of `utils.h`, `ofFloat` the conversion that the
assignment `e.rotation = angle.y` applies to the `float`, `wild` the outcome of
an `int(...)` conversion that is out of range, and each of the two loops may
take `fuel` passes.  The yaw is computed exactly. -/
def updateEntity {Angle : Type} (PI : ℚ) (ofFloat : ℚ → Angle) (wild : ℚ → Int) (fuel : Nat)
    (c : Controller) (e : Entity Angle) : Option (Controller × Entity Angle) :=
  let e := { e with x := toInt32 wild c.pos.x }
  let e := { e with y := toInt32 wild c.pos.y }
  let e := { e with z := toInt32 wild c.pos.z }
  match wrapUp PI fuel c.angle.y with
  | none => none
  | some y1 =>
    match wrapDown PI fuel y1 with
    | none => none
    | some y2 =>
      let c := { c with angle := { c.angle with y := y2 } }
      some (c, { e with rotation := ofFloat c.angle.y })

/-- An example controller at `(1000.75, -300.5, 0.25)` with the yaw `-1`. -/
def demoTurned : Controller :=
  { demoObject Kind.controller none with
    pos := ⟨4003 / 4, -601 / 2, 1 / 4⟩
    angle := ⟨1 / 2, -1, 3⟩ }

/-- The float arithmetic of the platform: `rnd` rounds the exact result of an
operation to a `float`, and `wild` is what a conversion `(int)f` leaves when
`f` is out of the range of `int` (see `toInt32`). -/
structure FloatOps where
  rnd : ℚ → ℚ
  wild : ℚ → Int

/-- The conversion `(int)f` under the float arithmetic `F`. -/
def FloatOps.toInt (F : FloatOps) (f : ℚ) : Int :=
  toInt32 F.wild f

/-- Exact arithmetic: nothing is rounded and the integers are unbounded. -/
def exactOps : FloatOps where
  rnd := fun q => q
  wild := toInt

/-- The nearest integer to `x`, the even one of the two when `x` lies half-way. -/
def roundEven (x : ℚ) : Int :=
  if x - ⌊x⌋ < 1 / 2 then ⌊x⌋
  else if 1 / 2 < x - ⌊x⌋ then ⌊x⌋ + 1
  else if ⌊x⌋ % 2 = 0 then ⌊x⌋ else ⌊x⌋ + 1

/-- The exponent of the spacing of the binary32 numbers around `q`: the numbers
from `2^e` up to `2^(e+1)` are the multiples of `2^(e-23)`, and those below
`2^(-126)` the multiples of `2^(-149)`. -/
def ulpExp (q : ℚ) : Int :=
  max (Int.log 2 |q|) (-126) - 23

/-- Rounding to IEEE 754 binary32, to nearest with ties to even.  The exponent is
not bounded above: a result of magnitude `2^128` or more, which the format
replaces by an infinity, does not occur in this development. -/
def binary32 (q : ℚ) : ℚ :=
  roundEven (q / 2 ^ ulpExp q) * 2 ^ ulpExp q

/-- The number `q` is one that binary32 holds: an integer of magnitude below `2^24`
times a power of two not below `2^(-149)`. -/
def IsBinary32 (q : ℚ) : Prop :=
  ∃ (m j : Int), |m| < 2 ^ 24 ∧ -149 ≤ j ∧ q = m * 2 ^ j

/-- The arithmetic of binary32 on x86: results are rounded to nearest, ties to
even, and a conversion to `int` that is out of range leaves `INT_MIN`. -/
def binary32Ops : FloatOps where
  rnd := binary32
  wild := fun _ => -2 ^ 31

/-! ### The countdown of the camera in float arithmetic -/

/-- Lines 65-74 of `camera.h`, the countdown block of `Camera::update`, with the
subtraction `timer -= Core::deltaTime` rounded. -/
def Camera.updateTimerF (F : FloatOps) (f : Frame) (cam : Controller) : Controller :=
  if cam.timer > 0 then
    let cam := { cam with timer := F.rnd (cam.timer - f.deltaTime) }
    if cam.timer ≤ 0 then
      let cam := { cam with timer := 0 }
      let cam := if cam.room ≠ Camera.getRoomIndex f.scene cam then
          { cam with pos := cam.lastDest } else cam
      let cam := { cam with actTargetEntity := -1, actCamera := -1 }
      { cam with target := f.owner.viewPoint }
    else cam
  else cam

/-- The method `Camera::update()` with the countdown in float arithmetic.  The
phases after the countdown block are those of `Camera.update`; none of them
writes `timer`, `actCamera` or `actTargetEntity`. -/
def Camera.updateF (F : FloatOps) (f : Frame) (cam : Controller) : Controller × Lara × Input :=
  let lookAt := Camera.lookAt f.owner cam
  let owner := { f.owner with viewTarget := lookAt }
  let cam := Camera.updateTimerF F f cam
  let r := Camera.updateAngle f cam
  let cam := Camera.updateDest f lookAt r.1
  let cam := Camera.updateEye f lookAt cam
  (cam, owner, r.2)

/-- The camera after a sequence of ticks in float arithmetic with nothing else
acting on it. -/
def Camera.runF (F : FloatOps) (cam : Controller) (frames : List Frame) : Controller :=
  frames.foldl (fun c f => (Camera.updateF F f c).1) cam

/-- The running countdown: the value `t` after `timer -= Core::deltaTime` has been
done, in float arithmetic, once for each of the ticks. -/
def countdown (F : FloatOps) (t : ℚ) (frames : List Frame) : ℚ :=
  frames.foldl (fun t f => F.rnd (t - f.deltaTime)) t

/-- The `float` nearest to 0.4, the literal `0.4f`. -/
def tick04 : ℚ := 13421773 / 33554432

/-! ### The ray march in float arithmetic -/

/-- Lines 214-223 of `controller.h` with the division `1.0f / dist` rounded; the
vector operations and `length` are those of the scene and the geometry.  For a
distance of 0 the quotient is not a number of the model; the loop then does
not run and the direction is not used. -/
def marchInitF (F : FloatOps) (sc : Scene) (g : Geometry) (fromRoom : Int)
    (origin target : vec3) : March where
  room := fromRoom
  pos := origin
  dir := sc.scale (sc.sub target origin) (F.rnd (1 / g.length (sc.sub target origin)))
  px := F.toInt origin.x
  py := F.toInt origin.y
  pz := F.toInt origin.z
  dist := g.length (sc.sub target origin)
  lr := -1
  lx := -1
  lz := -1
  info := ⟨0, 0, 0, 0, 0, 0, 0⟩

/-- Lines 240-252 of `controller.h`, the camera branch, with the conversions
`float(clamp(...))` rounded. -/
def marchCameraF (F : FloatOps) (sc : Scene) (g : Geometry) (origin : vec3) (s : March) :
    March :=
  if s.py > s.info.roomFloor ∧ s.info.roomBelow ≠ 0xFF then
    { s with room := s.info.roomBelow }
  else if s.py < s.info.roomCeiling ∧ s.info.roomAbove ≠ 0xFF then
    { s with room := s.info.roomAbove }
  else if s.py > s.info.floor ∨ s.py < s.info.ceiling then
    let minX := Int.tdiv s.px 1024 * 1024
    let minZ := Int.tdiv s.pz 1024 * 1024
    let maxX := minX + 1024
    let maxZ := minZ + 1024
    let pos := sc.add
      ⟨F.rnd (g.clamp s.px minX maxX : Int), s.pos.y, F.rnd (g.clamp s.pz minZ maxZ : Int)⟩
      (sc.scale (g.boxNormal s.px s.pz) 256)
    { s with pos := pos, dir := sc.normal (sc.sub pos origin) }
  else s

/-- Lines 269-273 of `controller.h` with the subtraction `dist -= d` rounded and
the conversions to `int` those of the platform. -/
def marchAdvanceF (F : FloatOps) (sc : Scene) (s : March) : March :=
  let d := min s.dist 32
  let pos := sc.add s.pos (sc.scale s.dir d)
  { s with
    dist := F.rnd (s.dist - d)
    pos := pos
    px := F.toInt pos.x
    py := F.toInt pos.y
    pz := F.toInt pos.z }

/-- One pass through the body of the loop of `trace` in float arithmetic; the second
component is `true` when the pass ends with `break`. -/
def marchBodyF (F : FloatOps) (sc : Scene) (g : Geometry) (isCamera : Bool) (origin : vec3)
    (s : March) : March × Bool :=
  let s := marchQuery sc s
  if isCamera then (marchAdvanceF F sc (marchCameraF F sc g origin s), false)
  else
    let r := marchSight s
    if r.2 then r else (marchAdvanceF F sc r.1, false)

/-- The loop `while (dist > 1.0f)` of `trace` in float arithmetic, allowed at most
`fuel` passes through its body; `none` means that more passes were needed. -/
def marchLoopF (F : FloatOps) (sc : Scene) (g : Geometry) (isCamera : Bool) (origin : vec3) :
    Nat → March → Option (March × Bool)
  | 0, s => if s.dist > 1 then none else some (s, false)
  | fuel + 1, s =>
    if s.dist > 1 then
      let r := marchBodyF F sc g isCamera origin s
      if r.2 then some r else marchLoopF F sc g isCamera origin fuel r.1
    else some (s, false)

/-- The method `Controller::trace` in float arithmetic: the point returned and the
room written to `room`. -/
def traceF (F : FloatOps) (sc : Scene) (g : Geometry) (fuel : Nat) (fromRoom : Int)
    (origin target : vec3) (isCamera : Bool) : Option (vec3 × Int) :=
  (marchLoopF F sc g isCamera origin fuel (marchInitF F sc g fromRoom origin target)).map
    (fun r => (r.1.pos, r.1.room))

/-- The scene `floorScene 255` with the vector operations of `utils.h` computed
component by component in the float arithmetic `F`. -/
def roundedScene (F : FloatOps) : Scene :=
  { floorScene 255 with
    add := fun a b => ⟨F.rnd (a.x + b.x), F.rnd (a.y + b.y), F.rnd (a.z + b.z)⟩
    sub := fun a b => ⟨F.rnd (a.x - b.x), F.rnd (a.y - b.y), F.rnd (a.z - b.z)⟩
    scale := fun a t => ⟨F.rnd (a.x * t), F.rnd (a.y * t), F.rnd (a.z * t)⟩ }

/-! ## `getOverlap`: the loop computes the first listed candidate of least delta -/

theorem scanOverlaps_eq_foldl (boxes : List Box) (b : Box) (toX toZ : Int) :
    ∀ (os run : List Overlap) (obs : List Box) (acc : Int × Int),
      overlapRun os = some run → boxesOf boxes run = some obs →
      scanOverlaps boxes b toX toZ os acc = some (obs.foldl (visit b toX toZ) acc) := by
  intro os
  induction os with
  | nil => intro run obs acc h; simp [overlapRun] at h
  | cons o rest ih =>
    intro run obs acc hrun hobs
    by_cases he : o.endFlag = true
    · simp [overlapRun, he] at hrun
      subst hrun
      cases hb : boxes[o.boxIndex]? with
      | none => simp [boxesOf, hb] at hobs
      | some ob =>
        simp [boxesOf, hb] at hobs
        subst hobs
        simp [scanOverlaps, hb, he]
    · simp [overlapRun, he] at hrun
      obtain ⟨run', hrun', rfl⟩ := hrun
      cases hb : boxes[o.boxIndex]? with
      | none => simp [boxesOf, hb] at hobs
      | some ob =>
        cases hr : boxesOf boxes run' with
        | none => simp [boxesOf, hb, hr] at hobs
        | some obs' =>
          simp [boxesOf, hb, hr] at hobs
          subst hobs
          simp [scanOverlaps, hb, he, ih run' obs' _ hrun' hr]

theorem foldl_visit_candidates (b : Box) (toX toZ : Int) :
    ∀ (obs : List Box) (acc : Int × Int),
      obs.foldl (visit b toX toZ) acc = (candidates obs toX toZ).foldl (visit b toX toZ) acc := by
  intro obs
  induction obs with
  | nil => intro acc; rfl
  | cons ob obs ih =>
    intro acc
    by_cases hc : ob.contains toX toZ = true
    · simp [candidates, List.filter_cons, hc, ih]
    · have hv : visit b toX toZ acc ob = acc := by simp [visit, hc]
      simp [candidates, List.filter_cons, hc, hv, ih]

theorem foldl_visit_keep (b : Box) (toX toZ : Int) :
    ∀ (cs : List Box) (acc : Int × Int),
      (∀ c ∈ cs, acc.2 ≤ |b.floor - c.floor|) →
      cs.foldl (visit b toX toZ) acc = acc := by
  intro cs
  induction cs with
  | nil => intro acc _; rfl
  | cons c cs ih =>
    intro acc h
    have hc : acc.2 ≤ |b.floor - c.floor| := h c (List.mem_cons_self _ _)
    have hv : visit b toX toZ acc c = acc := by
      unfold visit
      split
      · simp [not_lt.mpr hc]
      · rfl
    simp only [List.foldl_cons, hv]
    exact ih acc (fun c' hc' => h c' (List.mem_cons_of_mem _ hc'))

theorem foldl_visit_first_min (b : Box) (toX toZ : Int) (c : Box) (post : List Box)
    (hc : c.contains toX toZ = true)
    (hpost : ∀ x ∈ post, |b.floor - c.floor| ≤ |b.floor - x.floor|) :
    ∀ (pre : List Box) (acc : Int × Int),
      (∀ x ∈ pre, |b.floor - c.floor| < |b.floor - x.floor|) →
      |b.floor - c.floor| < acc.2 →
      (pre ++ c :: post).foldl (visit b toX toZ) acc = (c.floor, |b.floor - c.floor|) := by
  intro pre
  induction pre with
  | nil =>
    intro acc _ hacc
    have hv : visit b toX toZ acc c = (c.floor, |b.floor - c.floor|) := by
      simp [visit, hc, hacc]
    simp only [List.nil_append, List.foldl_cons, hv]
    exact foldl_visit_keep b toX toZ post _ hpost
  | cons p pre ih =>
    intro acc hpre hacc
    simp only [List.cons_append, List.foldl_cons]
    apply ih
    · exact fun x hx => hpre x (List.mem_cons_of_mem _ hx)
    · have hp := hpre p (List.mem_cons_self _ _)
      unfold visit
      by_cases h1 : p.contains toX toZ = true
      · by_cases h2 : |b.floor - p.floor| < acc.2
        · simpa [h1, h2] using hp
        · simpa [h1, h2] using hacc
      · simpa [h1] using hacc

theorem exists_first_min (b : Box) :
    ∀ (cs : List Box), cs ≠ [] →
      ∃ pre c post, cs = pre ++ c :: post ∧
        (∀ x ∈ pre, |b.floor - c.floor| < |b.floor - x.floor|) ∧
        (∀ x ∈ post, |b.floor - c.floor| ≤ |b.floor - x.floor|) := by
  intro cs
  induction cs with
  | nil => intro h; exact absurd rfl h
  | cons a cs ih =>
    intro _
    by_cases hcs : cs = []
    · subst hcs
      exact ⟨[], a, [], rfl, by simp, by simp⟩
    · obtain ⟨pre, c, post, hdec, hpre, hpost⟩ := ih hcs
      by_cases hac : |b.floor - a.floor| ≤ |b.floor - c.floor|
      · refine ⟨[], a, cs, rfl, by simp, ?_⟩
        intro x hx
        rw [hdec] at hx
        rcases List.mem_append.mp hx with hx | hx
        · exact le_of_lt (lt_of_le_of_lt hac (hpre x hx))
        · rcases List.mem_cons.mp hx with hx | hx
          · subst hx; exact hac
          · exact le_trans hac (hpost x hx)
      · refine ⟨a :: pre, c, post, by simp [hdec], ?_, hpost⟩
        intro x hx
        rcases List.mem_cons.mp hx with hx | hx
        · subst hx; exact not_le.mp hac
        · exact hpre x hx

theorem mem_candidates {obs : List Box} {toX toZ : Int} {c : Box}
    (h : c ∈ candidates obs toX toZ) : c ∈ obs ∧ c.contains toX toZ = true := by
  simpa [candidates, List.mem_filter] using h

theorem abs_sub_lt_sentinel {a c : Int} (ha : RealHeight a) (hc : RealHeight c) :
    |a - c| < NO_OVERLAP ∧ c ≠ NO_OVERLAP ∧ a - c ≠ NO_OVERLAP := by
  unfold RealHeight at ha hc
  unfold NO_OVERLAP
  refine ⟨?_, ?_, ?_⟩
  · rw [abs_lt]; constructor <;> omega
  · omega
  · omega

/-- The loop of `getOverlap` on a well-formed overlap list is a left fold of `visit`
over the candidates. -/
theorem getOverlap_eq_fold (level : Level) (room fromX fromY fromZ toX toZ : Int)
    (b : Box) (obs : List Box)
    (hbox : (level.getSector room fromX fromZ).boxIndex ≠ 0xFFFF)
    (hb : level.boxes[(level.getSector room fromX fromZ).boxIndex]? = some b)
    (hnot : b.contains toX toZ = false)
    (hlist : listedBoxes level b = some obs) :
    getOverlap level room fromX fromY fromZ toX toZ =
      (if ((candidates obs toX toZ).foldl (visit b toX toZ) (NO_OVERLAP, NO_OVERLAP)).1 = NO_OVERLAP
       then some NO_OVERLAP
       else some (b.floor -
         ((candidates obs toX toZ).foldl (visit b toX toZ) (NO_OVERLAP, NO_OVERLAP)).1)) := by
  unfold listedBoxes at hlist
  cases hrun : overlapRun (level.overlaps.drop (b.overlap &&& 0x7FFF)) with
  | none => simp [hrun] at hlist
  | some run =>
    simp [hrun] at hlist
    have hscan := scanOverlaps_eq_foldl level.boxes b toX toZ _ run obs
      (NO_OVERLAP, NO_OVERLAP) hrun hlist
    rw [foldl_visit_candidates] at hscan
    unfold getOverlap
    simp only [hbox, if_false, hb, hnot, hscan]
    simp

theorem getOverlap_of_first_min (level : Level) (room fromX fromY fromZ toX toZ : Int)
    (b : Box) (obs pre : List Box) (c : Box) (post : List Box)
    (hbox : (level.getSector room fromX fromZ).boxIndex ≠ 0xFFFF)
    (hb : level.boxes[(level.getSector room fromX fromZ).boxIndex]? = some b)
    (hnot : b.contains toX toZ = false)
    (hlist : listedBoxes level b = some obs)
    (hdec : candidates obs toX toZ = pre ++ c :: post)
    (hpre : ∀ x ∈ pre, |b.floor - c.floor| < |b.floor - x.floor|)
    (hpost : ∀ x ∈ post, |b.floor - c.floor| ≤ |b.floor - x.floor|)
    (hrb : RealHeight b.floor) (hrc : RealHeight c.floor) :
    getOverlap level room fromX fromY fromZ toX toZ = some (b.floor - c.floor) := by
  have hcin : c ∈ candidates obs toX toZ := by rw [hdec]; simp
  have hcc := (mem_candidates hcin).2
  obtain ⟨h1, h2, _⟩ := abs_sub_lt_sentinel hrb hrc
  rw [getOverlap_eq_fold level room fromX fromY fromZ toX toZ b obs hbox hb hnot hlist, hdec,
    foldl_visit_first_min b toX toZ c post hcc hpost pre _ hpre h1]
  simp [h2]

theorem getOverlap_of_no_candidate (level : Level) (room fromX fromY fromZ toX toZ : Int)
    (b : Box) (obs : List Box)
    (hbox : (level.getSector room fromX fromZ).boxIndex ≠ 0xFFFF)
    (hb : level.boxes[(level.getSector room fromX fromZ).boxIndex]? = some b)
    (hnot : b.contains toX toZ = false)
    (hlist : listedBoxes level b = some obs)
    (hnone : candidates obs toX toZ = []) :
    getOverlap level room fromX fromY fromZ toX toZ = some NO_OVERLAP := by
  rw [getOverlap_eq_fold level room fromX fromY fromZ toX toZ b obs hbox hb hnot hlist, hnone]
  simp

/-- C1. If the source sector has a box `b` that does not contain the destination
column and some box of its overlap list does, `getOverlap` returns
`b.floor - c.floor` for a listed box `c` that contains the destination and
whose `|b.floor - c.floor|` is least among the listed boxes containing the
destination (floor heights being real heights). -/
theorem getOverlap_min_delta (level : Level) (room fromX fromY fromZ toX toZ : Int)
    (b : Box) (obs : List Box)
    (hbox : (level.getSector room fromX fromZ).boxIndex ≠ 0xFFFF)
    (hb : level.boxes[(level.getSector room fromX fromZ).boxIndex]? = some b)
    (hnot : b.contains toX toZ = false)
    (hlist : listedBoxes level b = some obs)
    (hsome : candidates obs toX toZ ≠ [])
    (hrb : RealHeight b.floor)
    (hro : ∀ x ∈ candidates obs toX toZ, RealHeight x.floor) :
    ∃ c ∈ candidates obs toX toZ,
      (∀ x ∈ candidates obs toX toZ, |b.floor - c.floor| ≤ |b.floor - x.floor|) ∧
      getOverlap level room fromX fromY fromZ toX toZ = some (b.floor - c.floor) := by
  obtain ⟨pre, c, post, hdec, hpre, hpost⟩ := exists_first_min b _ hsome
  have hcin : c ∈ candidates obs toX toZ := by rw [hdec]; simp
  refine ⟨c, hcin, ?_, ?_⟩
  · intro x hx
    rw [hdec] at hx
    rcases List.mem_append.mp hx with hx | hx
    · exact le_of_lt (hpre x hx)
    · rcases List.mem_cons.mp hx with hx | hx
      · subst hx; exact le_refl _
      · exact hpost x hx
  · exact getOverlap_of_first_min level room fromX fromY fromZ toX toZ b obs pre c post
      hbox hb hnot hlist hdec hpre hpost hrb (hro c hcin)

theorem getOverlap_min_delta_witness :
    ∃ c ∈ candidates [columnBox 80 0 1024 2047, columnBox 130 0 1024 2047] 1500 0,
      (∀ x ∈ candidates [columnBox 80 0 1024 2047, columnBox 130 0 1024 2047] 1500 0,
        |(columnBox 100 0 0 1023).floor - c.floor| ≤ |(columnBox 100 0 0 1023).floor - x.floor|) ∧
      getOverlap (twoNeighbours 80 130) 0 0 0 0 1500 0 =
        some ((columnBox 100 0 0 1023).floor - c.floor) :=
  getOverlap_min_delta (twoNeighbours 80 130) 0 0 0 0 1500 0 (columnBox 100 0 0 1023)
    [columnBox 80 0 1024 2047, columnBox 130 0 1024 2047]
    (by decide) (by rfl) (by decide) (by rfl) (by simp [candidates, columnBox])
    (by decide) (by decide)

/-- C2. Tie-break of `getOverlap`: when two listed boxes `c1` and `c2` both contain
the destination column, `c1` comes before `c2` in the overlap list, both have
the same absolute floor delta to the source box, no listed candidate has a
smaller one and no candidate before `c1` has the same one, the result is
computed from the earlier box `c1`. -/
theorem getOverlap_tie_break (level : Level) (room fromX fromY fromZ toX toZ : Int)
    (b : Box) (obs pre mid post : List Box) (c1 c2 : Box)
    (hbox : (level.getSector room fromX fromZ).boxIndex ≠ 0xFFFF)
    (hb : level.boxes[(level.getSector room fromX fromZ).boxIndex]? = some b)
    (hnot : b.contains toX toZ = false)
    (hlist : listedBoxes level b = some obs)
    (hdec : candidates obs toX toZ = pre ++ c1 :: (mid ++ c2 :: post))
    (htie : |b.floor - c1.floor| = |b.floor - c2.floor|)
    (hmin : ∀ x ∈ candidates obs toX toZ, |b.floor - c1.floor| ≤ |b.floor - x.floor|)
    (hfirst : ∀ x ∈ pre, |b.floor - x.floor| ≠ |b.floor - c1.floor|)
    (hrb : RealHeight b.floor) (hrc : RealHeight c1.floor) :
    getOverlap level room fromX fromY fromZ toX toZ = some (b.floor - c1.floor) := by
  have _ := htie
  apply getOverlap_of_first_min level room fromX fromY fromZ toX toZ b obs pre c1
    (mid ++ c2 :: post) hbox hb hnot hlist hdec _ _ hrb hrc
  · intro x hx
    have hx' : x ∈ candidates obs toX toZ := by rw [hdec]; simp [hx]
    exact lt_of_le_of_ne (hmin x hx') (fun h => hfirst x hx h.symm)
  · intro x hx
    have hx' : x ∈ candidates obs toX toZ := by
      rw [hdec]; exact List.mem_append_right _ (List.mem_cons_of_mem _ hx)
    exact hmin x hx'

theorem getOverlap_tie_break_witness :
    getOverlap (twoNeighbours 130 70) 0 0 0 0 1500 0 = some (-30) ∧
    getOverlap (twoNeighbours 70 130) 0 0 0 0 1500 0 = some 30 :=
  ⟨getOverlap_tie_break (twoNeighbours 130 70) 0 0 0 0 1500 0 (columnBox 100 0 0 1023)
      [columnBox 130 0 1024 2047, columnBox 70 0 1024 2047] [] [] []
      (columnBox 130 0 1024 2047) (columnBox 70 0 1024 2047)
      (by decide) (by rfl) (by decide) (by rfl) (by simp [candidates, columnBox])
      (by decide) (by simp [candidates, columnBox]) (by simp) (by decide) (by decide),
   getOverlap_tie_break (twoNeighbours 70 130) 0 0 0 0 1500 0 (columnBox 100 0 0 1023)
      [columnBox 70 0 1024 2047, columnBox 130 0 1024 2047] [] [] []
      (columnBox 70 0 1024 2047) (columnBox 130 0 1024 2047)
      (by decide) (by rfl) (by decide) (by rfl) (by simp [candidates, columnBox])
      (by decide) (by simp [candidates, columnBox]) (by simp) (by decide) (by decide)⟩

/-- C3, as stated, fails: with source floor 100 and the two listed candidates of
floors 80 and 130 the result is 20 (the delta to the box of floor 80), not -30,
in either list order. -/
theorem getOverlap_scenario_counterexample :
    getOverlap (twoNeighbours 80 130) 0 0 0 0 1500 0 = some 20 ∧
    getOverlap (twoNeighbours 130 80) 0 0 0 0 1500 0 = some 20 ∧
    getOverlap (twoNeighbours 80 130) 0 0 0 0 1500 0 ≠ some (-30) ∧
    getOverlap (twoNeighbours 130 80) 0 0 0 0 1500 0 ≠ some (-30) := by
  decide

/-- C3, amended. With a source box of floor 100 that does not contain the
destination column and exactly two listed boxes containing it, of floors 80 and
130 in either order, `getOverlap` returns 20: the delta to the box of floor 80,
which is the closer one, with sign source floor minus chosen floor. -/
theorem getOverlap_scenario (level : Level) (room fromX fromY fromZ toX toZ : Int)
    (b : Box) (obs : List Box) (c1 c2 : Box)
    (hbox : (level.getSector room fromX fromZ).boxIndex ≠ 0xFFFF)
    (hb : level.boxes[(level.getSector room fromX fromZ).boxIndex]? = some b)
    (hnot : b.contains toX toZ = false)
    (hlist : listedBoxes level b = some obs)
    (hdec : candidates obs toX toZ = [c1, c2])
    (hsrc : b.floor = 100)
    (hfl : (c1.floor = 80 ∧ c2.floor = 130) ∨ (c1.floor = 130 ∧ c2.floor = 80)) :
    getOverlap level room fromX fromY fromZ toX toZ = some 20 := by
  have hrb : RealHeight b.floor := by rw [hsrc]; decide
  rcases hfl with ⟨h1, h2⟩ | ⟨h1, h2⟩
  · have h := getOverlap_of_first_min level room fromX fromY fromZ toX toZ b obs [] c1 [c2]
      hbox hb hnot hlist (by simpa using hdec) (by simp)
      (by intro x hx; simp at hx; subst hx; rw [hsrc, h1, h2]; decide)
      hrb (by rw [h1]; decide)
    rw [h, hsrc, h1]; rfl
  · have h := getOverlap_of_first_min level room fromX fromY fromZ toX toZ b obs [c1] c2 []
      hbox hb hnot hlist (by simpa using hdec)
      (by intro x hx; simp at hx; subst hx; rw [hsrc, h1, h2]; decide)
      (by simp) hrb (by rw [h2]; decide)
    rw [h, hsrc, h2]; rfl

theorem getOverlap_scenario_witness :
    getOverlap (twoNeighbours 130 80) 0 0 0 0 1500 0 = some 20 :=
  getOverlap_scenario (twoNeighbours 130 80) 0 0 0 0 1500 0 (columnBox 100 0 0 1023)
    [columnBox 130 0 1024 2047, columnBox 80 0 1024 2047]
    (columnBox 130 0 1024 2047) (columnBox 80 0 1024 2047)
    (by decide) (by rfl) (by decide) (by rfl) (by simp [candidates, columnBox])
    (by rfl) (by decide)

/-- C4. `getOverlap` returns the sentinel `NO_OVERLAP` exactly when the source sector
has no box (`boxIndex == 0xFFFF`), or the source box does not contain the
destination column and no box of its overlap list does; and it returns 0 when
the source box contains the destination column (floor heights being real
heights). -/
theorem getOverlap_sentinel_iff (level : Level) (room fromX fromY fromZ toX toZ : Int)
    (b : Box) (obs : List Box)
    (hb : (level.getSector room fromX fromZ).boxIndex ≠ 0xFFFF →
      level.boxes[(level.getSector room fromX fromZ).boxIndex]? = some b)
    (hlist : (level.getSector room fromX fromZ).boxIndex ≠ 0xFFFF →
      b.contains toX toZ = false → listedBoxes level b = some obs)
    (hrb : RealHeight b.floor)
    (hro : ∀ x ∈ candidates obs toX toZ, RealHeight x.floor) :
    (getOverlap level room fromX fromY fromZ toX toZ = some NO_OVERLAP ↔
      ((level.getSector room fromX fromZ).boxIndex = 0xFFFF ∨
        (b.contains toX toZ = false ∧ candidates obs toX toZ = []))) ∧
    ((level.getSector room fromX fromZ).boxIndex ≠ 0xFFFF → b.contains toX toZ = true →
      getOverlap level room fromX fromY fromZ toX toZ = some 0) := by
  by_cases hbox : (level.getSector room fromX fromZ).boxIndex = 0xFFFF
  · refine ⟨⟨fun _ => Or.inl hbox, fun _ => ?_⟩, fun h => absurd hbox h⟩
    simp [getOverlap, hbox]
  · have hb' := hb hbox
    by_cases hc : b.contains toX toZ = true
    · have h0 : getOverlap level room fromX fromY fromZ toX toZ = some 0 := by
        simp [getOverlap, hbox, hb', hc]
      refine ⟨⟨fun h => ?_, fun h => ?_⟩, fun _ _ => h0⟩
      · rw [h0] at h; simp [NO_OVERLAP] at h
      · rcases h with h | ⟨h, _⟩
        · exact absurd h hbox
        · rw [hc] at h; cases h
    · have hnot : b.contains toX toZ = false := by simpa using hc
      have hl := hlist hbox hnot
      refine ⟨⟨fun h => Or.inr ⟨hnot, ?_⟩, fun h => ?_⟩, fun _ h => absurd h hc⟩
      · by_contra hne
        obtain ⟨pre, c, post, hdec, hpre, hpost⟩ := exists_first_min b _ hne
        have hcin : c ∈ candidates obs toX toZ := by rw [hdec]; simp
        have hres := getOverlap_of_first_min level room fromX fromY fromZ toX toZ b obs pre c
          post hbox hb' hnot hl hdec hpre hpost hrb (hro c hcin)
        rw [hres] at h
        exact (abs_sub_lt_sentinel hrb (hro c hcin)).2.2 (by simpa using h)
      · rcases h with h | ⟨_, h⟩
        · exact absurd h hbox
        · exact getOverlap_of_no_candidate level room fromX fromY fromZ toX toZ b obs
            hbox hb' hnot hl h

theorem getOverlap_sentinel_iff_witness :
    (getOverlap (twoNeighbours 80 130) 0 0 0 0 5000 0 = some NO_OVERLAP ↔
      (((twoNeighbours 80 130).getSector 0 0 0).boxIndex = 0xFFFF ∨
        ((columnBox 100 0 0 1023).contains 5000 0 = false ∧
          candidates [columnBox 80 0 1024 2047, columnBox 130 0 1024 2047] 5000 0 = []))) ∧
    (((twoNeighbours 80 130).getSector 0 0 0).boxIndex ≠ 0xFFFF →
      (columnBox 100 0 0 1023).contains 5000 0 = true →
      getOverlap (twoNeighbours 80 130) 0 0 0 0 5000 0 = some 0) :=
  getOverlap_sentinel_iff (twoNeighbours 80 130) 0 0 0 0 5000 0 (columnBox 100 0 0 1023)
    [columnBox 80 0 1024 2047, columnBox 130 0 1024 2047]
    (fun _ => rfl) (fun _ _ => rfl) (by decide) (by simp [candidates, columnBox])

/-! ## Trigger chain: frame lemmas -/

@[simp] theorem World.modify_controllers_self (w : World) (i : Nat) (f : Controller → Controller) :
    (w.modify i f).controllers i = f (w.controllers i) := by
  simp [World.modify]

theorem World.modify_controllers_of_ne (w : World) (i k : Nat) (f : Controller → Controller)
    (h : k ≠ i) : (w.modify i f).controllers k = w.controllers k := by
  simp [World.modify, Function.update, h]

@[simp] theorem World.modify_secrets (w : World) (i : Nat) (f : Controller → Controller) :
    (w.modify i f).secrets = w.secrets := rfl

@[simp] theorem World.modify_sounds (w : World) (i : Nat) (f : Controller → Controller) :
    (w.modify i f).sounds = w.sounds := rfl

@[simp] theorem World.modify_entityController (w : World) (i : Nat) (f : Controller → Controller) :
    (w.modify i f).entityController = w.entityController := rfl

@[simp] theorem World.modify_cameraController (w : World) (i : Nat) (f : Controller → Controller) :
    (w.modify i f).cameraController = w.cameraController := rfl

@[simp] theorem World.setActionCommand_self (w : World) (i : Nat) (p : Option Nat) :
    ((w.setActionCommand i p).controllers i).actionCommand = p := by
  simp [World.setActionCommand]

theorem World.setActionCommand_of_ne (w : World) (i k : Nat) (p : Option Nat) (h : k ≠ i) :
    (w.setActionCommand i p).controllers k = w.controllers k := by
  simp [World.setActionCommand, World.modify_controllers_of_ne _ _ _ _ h]

@[simp] theorem World.setActionCommand_secrets (w : World) (i : Nat) (p : Option Nat) :
    (w.setActionCommand i p).secrets = w.secrets := rfl

@[simp] theorem World.setActionCommand_sounds (w : World) (i : Nat) (p : Option Nat) :
    (w.setActionCommand i p).sounds = w.sounds := rfl

@[simp] theorem World.setActionCommand_entityController (w : World) (i : Nat) (p : Option Nat) :
    (w.setActionCommand i p).entityController = w.entityController := rfl

@[simp] theorem World.setActionCommand_cameraController (w : World) (i : Nat) (p : Option Nat) :
    (w.setActionCommand i p).cameraController = w.cameraController := rfl

/-- What `Camera::activate` has assigned when it calls `activateNext()`: the fields
of the camera object, all other objects and the rest of the world. -/
theorem Camera.applyCommand_spec (cmds : Nat → ActionCommand) (w : World) (self cmd : Nat) :
    (Camera.applyCommand cmds w self cmd).controllers self =
      { w.controllers self with
        actionCommand := some cmd
        timer := if (cmds cmd).timer ≠ 0 then (cmds cmd).timer else (w.controllers self).timer
        actTargetEntity := if (cmds cmd).action = Action.CAMERA_TARGET then (cmds cmd).value
          else (w.controllers self).actTargetEntity
        actCamera := if (cmds cmd).action = Action.CAMERA_SWITCH then (cmds cmd).value
          else (w.controllers self).actCamera
        lastDest := if (cmds cmd).action = Action.CAMERA_SWITCH then (w.controllers self).pos
          else (w.controllers self).lastDest } ∧
    (∀ k, k ≠ self → (Camera.applyCommand cmds w self cmd).controllers k = w.controllers k) ∧
    (Camera.applyCommand cmds w self cmd).secrets = w.secrets ∧
    (Camera.applyCommand cmds w self cmd).sounds = w.sounds ∧
    (Camera.applyCommand cmds w self cmd).entityController = w.entityController ∧
    (Camera.applyCommand cmds w self cmd).cameraController = w.cameraController := by
  unfold Camera.applyCommand Controller.activate
  refine ⟨?_, ?_, ?_, ?_, ?_, ?_⟩
  · by_cases h1 : (cmds cmd).timer = 0 <;>
      by_cases h2 : (cmds cmd).action = Action.CAMERA_TARGET <;>
      by_cases h3 : (cmds cmd).action = Action.CAMERA_SWITCH <;>
      simp [h1, h2, h3, World.setActionCommand]
  · intro k hk
    by_cases h1 : (cmds cmd).timer = 0 <;>
      by_cases h2 : (cmds cmd).action = Action.CAMERA_TARGET <;>
      by_cases h3 : (cmds cmd).action = Action.CAMERA_SWITCH <;>
      simp [h1, h2, h3, World.setActionCommand, World.modify_controllers_of_ne _ _ _ _ hk]
  all_goals
    by_cases h1 : (cmds cmd).timer = 0 <;>
      by_cases h2 : (cmds cmd).action = Action.CAMERA_TARGET <;>
      by_cases h3 : (cmds cmd).action = Action.CAMERA_SWITCH <;>
      simp [h1, h2, h3]

/-! ## Trigger chain: the cases of `activateNext` -/

theorem activateNextBody_null (cmds : Nat → ActionCommand) (ext : Handler)
    (reenter : World → Nat → Option World) (w : World) (self : Nat)
    (hcur : (w.controllers self).actionCommand = none) :
    activateNextBody cmds ext reenter w self = some (w.setActionCommand self none) := by
  simp [activateNextBody, hcur]

theorem activateNextBody_last (cmds : Nat → ActionCommand) (ext : Handler)
    (reenter : World → Nat → Option World) (w : World) (self p : Nat)
    (hcur : (w.controllers self).actionCommand = some p) (hnext : (cmds p).next = none) :
    activateNextBody cmds ext reenter w self = some (w.setActionCommand self none) := by
  simp [activateNextBody, hcur, hnext]

theorem activateNextBody_secret (cmds : Nat → ActionCommand) (ext : Handler)
    (reenter : World → Nat → Option World) (w : World) (self p q : Nat)
    (hcur : (w.controllers self).actionCommand = some p) (hnext : (cmds p).next = some q)
    (hsec : (cmds q).action = Action.SECRET) :
    activateNextBody cmds ext reenter w self =
      reenter
        { controllers := Function.update w.controllers self
            { w.controllers self with actionCommand := some q }
          entityController := w.entityController
          cameraController := w.cameraController
          secrets := Function.update w.secrets (cmds q).value true
          sounds := w.sounds ++
            (if w.secrets (cmds q).value = true then []
             else [⟨self, SoundId.SND_SECRET, (w.controllers self).pos, 0⟩]) } self := by
  by_cases hs : w.secrets (cmds q).value = true
  · have hupd : Function.update w.secrets (cmds q).value true = w.secrets := by
      rw [← hs]; exact Function.update_eq_self _ _
    simp [activateNextBody, hcur, hnext, hsec, hs, hupd, World.setActionCommand, World.modify]
  · have hs' : w.secrets (cmds q).value = false := by simpa using hs
    simp [activateNextBody, hcur, hnext, hsec, hs', World.setActionCommand, World.modify,
      playSound]

/-- The secret case of `activateNext`, with the world handed to the nested call
described field by field. -/
theorem activateNextBody_secret_world (cmds : Nat → ActionCommand) (ext : Handler)
    (reenter : World → Nat → Option World) (w : World) (self p q : Nat)
    (hcur : (w.controllers self).actionCommand = some p) (hnext : (cmds p).next = some q)
    (hsec : (cmds q).action = Action.SECRET) :
    ∃ w1, activateNextBody cmds ext reenter w self = reenter w1 self ∧
      w1.controllers = Function.update w.controllers self
        { w.controllers self with actionCommand := some q } ∧
      w1.entityController = w.entityController ∧
      w1.cameraController = w.cameraController ∧
      w1.secrets = Function.update w.secrets (cmds q).value true ∧
      w1.sounds = w.sounds ++
        (if w.secrets (cmds q).value = true then []
         else [⟨self, SoundId.SND_SECRET, (w.controllers self).pos, 0⟩]) :=
  ⟨_, activateNextBody_secret cmds ext reenter w self p q hcur hnext hsec, rfl, rfl, rfl, rfl, rfl⟩

theorem activateNextBody_no_handler (cmds : Nat → ActionCommand) (ext : Handler)
    (reenter : World → Nat → Option World) (w : World) (self p q : Nat)
    (hcur : (w.controllers self).actionCommand = some p) (hnext : (cmds p).next = some q)
    (hsec : (cmds q).action ≠ Action.SECRET) (hh : handlerOf w (cmds q) = none) :
    activateNextBody cmds ext reenter w self = some (w.setActionCommand self none) := by
  simp [activateNextBody, hcur, hnext, hsec, hh]

theorem activateNextBody_handler (cmds : Nat → ActionCommand) (ext : Handler)
    (reenter : World → Nat → Option World) (w : World) (self p q c : Nat)
    (hcur : (w.controllers self).actionCommand = some p) (hnext : (cmds p).next = some q)
    (hsec : (cmds q).action ≠ Action.SECRET) (hh : handlerOf w (cmds q) = some c) :
    activateNextBody cmds ext reenter w self =
      (dispatchActivate cmds ext reenter w c q).map
        (fun r => if r.2 = true then r.1.setActionCommand self none else r.1) := by
  simp only [activateNextBody, hcur, hnext, hsec, hh, if_false]
  cases hd : dispatchActivate cmds ext reenter w c q with
  | none => rfl
  | some r =>
    obtain ⟨w2, b⟩ := r
    cases b <;> simp

theorem activateNext_succ (cmds : Nat → ActionCommand) (ext : Handler) (fuel : Nat) :
    activateNext cmds ext (fuel + 1) = activateNextBody cmds ext (activateNext cmds ext fuel) :=
  rfl

theorem dispatchActivate_controller (cmds : Nat → ActionCommand) (ext : Handler)
    (reenter : World → Nat → Option World) (w : World) (c q : Nat)
    (hk : (w.controllers c).kind = Kind.controller) :
    dispatchActivate cmds ext reenter w c q = some (w.setActionCommand c (some q), true) := by
  simp [dispatchActivate, hk, Controller.activate]

theorem dispatchActivate_camera (cmds : Nat → ActionCommand) (ext : Handler)
    (reenter : World → Nat → Option World) (w : World) (c q : Nat)
    (hk : (w.controllers c).kind = Kind.camera) :
    dispatchActivate cmds ext reenter w c q =
      (reenter (Camera.applyCommand cmds w c q) c).map (fun w => (w, true)) := by
  simp [dispatchActivate, hk, Camera.activate]

theorem dispatchActivate_derived (cmds : Nat → ActionCommand) (ext : Handler)
    (reenter : World → Nat → Option World) (w : World) (c q : Nat)
    (hk : (w.controllers c).kind = Kind.derived) :
    dispatchActivate cmds ext reenter w c q = some (ext c q w) := by
  simp [dispatchActivate, hk]

/-- With fuel for one invocation more than there are links after the cursor,
`activateNext` returns. -/
theorem activateNext_returns (cmds : Nat → ActionCommand) (ext : Handler) :
    ∀ (n : Nat) (w : World) (self p fuel : Nat),
      (w.controllers self).actionCommand = some p → LinksAfter cmds p n → n + 1 ≤ fuel →
      ∃ w', activateNext cmds ext fuel w self = some w' := by
  intro n
  induction n with
  | zero =>
    intro w self p fuel hcur hfin hfuel
    obtain ⟨k, rfl⟩ : ∃ k, fuel = k + 1 := ⟨fuel - 1, by omega⟩
    cases hfin with
    | last _ hnext =>
      exact ⟨_, by rw [activateNext_succ, activateNextBody_last _ _ _ _ _ _ hcur hnext]⟩
  | succ n ih =>
    intro w self p fuel hcur hfin hfuel
    obtain ⟨k, rfl⟩ : ∃ k, fuel = k + 1 := ⟨fuel - 1, by omega⟩
    have hk : n + 1 ≤ k := by omega
    cases hfin with
    | link _ q _ hnext hq =>
      rw [activateNext_succ]
      by_cases hsec : (cmds q).action = Action.SECRET
      · rw [activateNextBody_secret _ _ _ _ _ _ _ hcur hnext hsec]
        exact ih _ self q k (by simp) hq hk
      · cases hh : handlerOf w (cmds q) with
        | none => exact ⟨_, activateNextBody_no_handler _ _ _ _ _ _ _ hcur hnext hsec hh⟩
        | some c =>
          rw [activateNextBody_handler _ _ _ _ _ _ _ _ hcur hnext hsec hh]
          cases hkind : (w.controllers c).kind with
          | controller => simp [dispatchActivate_controller _ _ _ _ _ _ hkind]
          | derived => simp [dispatchActivate_derived _ _ _ _ _ _ hkind]
          | camera =>
            rw [dispatchActivate_camera _ _ _ _ _ _ hkind]
            obtain ⟨w5, h5⟩ := ih (Camera.applyCommand cmds w c q) c q k
              (by rw [(Camera.applyCommand_spec cmds w c q).1]) hq hk
            simp [h5]

/-- The body of `activateNext` is monotone in its nested calls: if every nested
call that returned still returns the same world, so does the body. -/
theorem activateNextBody_mono (cmds : Nat → ActionCommand) (ext : Handler)
    (re1 re2 : World → Nat → Option World)
    (hre : ∀ w s r, re1 w s = some r → re2 w s = some r)
    (w : World) (self : Nat) (w' : World)
    (h : activateNextBody cmds ext re1 w self = some w') :
    activateNextBody cmds ext re2 w self = some w' := by
  cases hcur : (w.controllers self).actionCommand with
  | none =>
    rw [activateNextBody_null _ _ _ _ _ hcur] at h ⊢
    exact h
  | some p =>
    cases hnext : (cmds p).next with
    | none =>
      rw [activateNextBody_last _ _ _ _ _ _ hcur hnext] at h ⊢
      exact h
    | some q =>
      by_cases hsec : (cmds q).action = Action.SECRET
      · rw [activateNextBody_secret _ _ _ _ _ _ _ hcur hnext hsec] at h ⊢
        exact hre _ _ _ h
      · cases hh : handlerOf w (cmds q) with
        | none =>
          rw [activateNextBody_no_handler _ _ _ _ _ _ _ hcur hnext hsec hh] at h ⊢
          exact h
        | some c =>
          rw [activateNextBody_handler _ _ _ _ _ _ _ _ hcur hnext hsec hh] at h ⊢
          cases hkind : (w.controllers c).kind with
          | controller =>
            rw [dispatchActivate_controller _ _ _ _ _ _ hkind] at h ⊢
            exact h
          | derived =>
            rw [dispatchActivate_derived _ _ _ _ _ _ hkind] at h ⊢
            exact h
          | camera =>
            rw [dispatchActivate_camera _ _ _ _ _ _ hkind] at h ⊢
            cases h5 : re1 (Camera.applyCommand cmds w c q) c with
            | none => simp [h5] at h
            | some w5 =>
              rw [h5] at h
              rw [hre _ _ _ h5]
              exact h

/-- A call of `activateNext` that returns within a bound returns the same world
within every larger bound. -/
theorem activateNext_mono (cmds : Nat → ActionCommand) (ext : Handler) :
    ∀ (fuel extra : Nat) (w : World) (self : Nat) (w' : World),
      activateNext cmds ext fuel w self = some w' →
      activateNext cmds ext (fuel + extra) w self = some w' := by
  intro fuel
  induction fuel with
  | zero => intro extra w self w' h; simp [activateNext] at h
  | succ k ih =>
    intro extra w self w' h
    have hk : k + 1 + extra = (k + extra) + 1 := by omega
    rw [hk, activateNext_succ]
    rw [activateNext_succ] at h
    exact activateNextBody_mono cmds ext _ _ (fun w0 s r h0 => ih extra w0 s r h0) w self w' h

/-- C8. On a finite, acyclic chain `activateNext` terminates: when `n` links remain
after the cursor, the call returns with at most `n` nested invocations open
besides itself, each nested invocation starting one link further along the
chain; the world it returns is the same under every bound of at least
`n + 1` open invocations. -/
theorem activateNext_terminates (cmds : Nat → ActionCommand) (ext : Handler)
    (w : World) (self p n : Nat)
    (hcur : (w.controllers self).actionCommand = some p)
    (hfin : LinksAfter cmds p n) :
    ∃ w', ∀ fuel, n + 1 ≤ fuel → activateNext cmds ext fuel w self = some w' := by
  obtain ⟨w', hw'⟩ := activateNext_returns cmds ext n w self p (n + 1) hcur hfin (le_refl _)
  refine ⟨w', fun fuel hfuel => ?_⟩
  obtain ⟨extra, rfl⟩ : ∃ extra, fuel = n + 1 + extra := ⟨fuel - (n + 1), by omega⟩
  exact activateNext_mono cmds ext (n + 1) extra w self w' hw'

theorem activateNext_terminates_witness :
    ∃ w', ∀ fuel, 3 + 1 ≤ fuel →
      activateNext demoChain demoHandler fuel (demoWorld (some 0)) 0 = some w' :=
  activateNext_terminates demoChain demoHandler (demoWorld (some 0)) 0 0 3 rfl
    (LinksAfter.link 0 1 2 rfl (LinksAfter.link 1 2 1 rfl (LinksAfter.link 2 3 0 rfl
      (LinksAfter.last 3 rfl))))

/-- On a cyclic chain of secret links no amount of fuel lets `activateNext`
return: the bound on nested calls is a real one. -/
theorem activateNext_cycle_diverges (ext : Handler) :
    ∀ (fuel : Nat) (w : World) (self : Nat),
      (w.controllers self).actionCommand = some 0 →
      activateNext cyclicChain ext fuel w self = none := by
  intro fuel
  induction fuel with
  | zero => intro w self _; rfl
  | succ k ih =>
    intro w self hcur
    rw [activateNext_succ, activateNextBody_secret cyclicChain ext _ w self 0 0 hcur rfl rfl]
    exact ih _ self (by simp)

/-- A secret flag that is set stays set through `activateNext`, provided the
handlers of derived classes do not clear it. -/
theorem activateNext_secret_stays (cmds : Nat → ActionCommand) (ext : Handler) (i : Int)
    (hext : ∀ c cmd w0, w0.secrets i = true → (ext c cmd w0).1.secrets i = true) :
    ∀ (fuel : Nat) (w : World) (self : Nat) (w' : World),
      activateNext cmds ext fuel w self = some w' → w.secrets i = true →
      w'.secrets i = true := by
  intro fuel
  induction fuel with
  | zero => intro w self w' h; simp [activateNext] at h
  | succ k ih =>
    intro w self w' h hi
    rw [activateNext_succ] at h
    cases hcur : (w.controllers self).actionCommand with
    | none =>
      rw [activateNextBody_null _ _ _ _ _ hcur] at h
      cases h; simpa using hi
    | some p =>
      cases hnext : (cmds p).next with
      | none =>
        rw [activateNextBody_last _ _ _ _ _ _ hcur hnext] at h
        cases h; simpa using hi
      | some q =>
        by_cases hsec : (cmds q).action = Action.SECRET
        · rw [activateNextBody_secret _ _ _ _ _ _ _ hcur hnext hsec] at h
          refine ih _ self w' h ?_
          show Function.update w.secrets (cmds q).value true i = true
          by_cases hiv : i = (cmds q).value
          · rw [hiv]; simp
          · rw [Function.update_noteq hiv]; exact hi
        · cases hh : handlerOf w (cmds q) with
          | none =>
            rw [activateNextBody_no_handler _ _ _ _ _ _ _ hcur hnext hsec hh] at h
            cases h; simpa using hi
          | some c =>
            rw [activateNextBody_handler _ _ _ _ _ _ _ _ hcur hnext hsec hh] at h
            cases hkind : (w.controllers c).kind with
            | controller =>
              rw [dispatchActivate_controller _ _ _ _ _ _ hkind] at h
              simp at h; subst h; simpa using hi
            | derived =>
              rw [dispatchActivate_derived _ _ _ _ _ _ hkind] at h
              have he := hext c q w hi
              by_cases hr : (ext c q w).2 = true
              · simp [hr] at h; subst h; simpa using he
              · simp [hr] at h; subst h; exact he
            | camera =>
              rw [dispatchActivate_camera _ _ _ _ _ _ hkind] at h
              cases h5 : activateNext cmds ext k (Camera.applyCommand cmds w c q) c with
              | none => simp [h5] at h
              | some w5 =>
                simp [h5] at h; subst h
                have := ih _ c w5 h5 (by rw [(Camera.applyCommand_spec cmds w c q).2.2.1]; exact hi)
                simpa using this

/-- After `activateNext` the cursor of the calling object is `NULL` or on a record at
or after the one it started on, provided a handler of a derived class that
reports `false` leaves that cursor alone. -/
theorem activateNext_cursor_after (cmds : Nat → ActionCommand) (ext : Handler) (self : Nat)
    (hhold : ∀ c cmd w0, (ext c cmd w0).2 = false →
      ((ext c cmd w0).1.controllers self).actionCommand = (w0.controllers self).actionCommand) :
    ∀ (fuel : Nat) (w : World) (p : Nat) (w' : World),
      (w.controllers self).actionCommand = some p →
      activateNext cmds ext fuel w self = some w' →
      (w'.controllers self).actionCommand = none ∨
        ∃ r, (w'.controllers self).actionCommand = some r ∧ AtOrAfter cmds p r := by
  intro fuel
  induction fuel with
  | zero => intro w p w' _ h; simp [activateNext] at h
  | succ k ih =>
    intro w p w' hcur h
    rw [activateNext_succ] at h
    cases hnext : (cmds p).next with
    | none =>
      rw [activateNextBody_last _ _ _ _ _ _ hcur hnext] at h
      cases h; left; simp
    | some q =>
      by_cases hsec : (cmds q).action = Action.SECRET
      · rw [activateNextBody_secret _ _ _ _ _ _ _ hcur hnext hsec] at h
        rcases ih _ q w' (by simp) h with h0 | ⟨r, hr, hqr⟩
        · exact Or.inl h0
        · exact Or.inr ⟨r, hr, AtOrAfter.later p q r hnext hqr⟩
      · cases hh : handlerOf w (cmds q) with
        | none =>
          rw [activateNextBody_no_handler _ _ _ _ _ _ _ hcur hnext hsec hh] at h
          cases h; left; simp
        | some c =>
          rw [activateNextBody_handler _ _ _ _ _ _ _ _ hcur hnext hsec hh] at h
          cases hkind : (w.controllers c).kind with
          | controller =>
            rw [dispatchActivate_controller _ _ _ _ _ _ hkind] at h
            simp at h; subst h; left; simp
          | derived =>
            rw [dispatchActivate_derived _ _ _ _ _ _ hkind] at h
            by_cases hr : (ext c q w).2 = true
            · simp [hr] at h; subst h; left; simp
            · simp [hr] at h; subst h
              right
              refine ⟨p, ?_, AtOrAfter.here p⟩
              rw [hhold c q w (by simpa using hr), hcur]
          | camera =>
            rw [dispatchActivate_camera _ _ _ _ _ _ hkind] at h
            cases h5 : activateNext cmds ext k (Camera.applyCommand cmds w c q) c with
            | none => simp [h5] at h
            | some w5 => simp [h5] at h; subst h; left; simp

/-- C5. Dispatch of a secret link with index `i` is a one-shot.  The call continues,
in the same invocation, from the world `w1` in which flag `i` is set, every
other flag is as before, and the request log has grown by exactly one
`SND_SECRET` request if flag `i` was clear and by nothing if it was set, so
that a second dispatch of the link changes neither flags nor sounds; and when
the call has returned flag `i` is set (handlers of derived classes not clearing
it). -/
theorem activateNext_secret_one_shot (cmds : Nat → ActionCommand) (ext : Handler)
    (w : World) (self p q n fuel : Nat)
    (hcur : (w.controllers self).actionCommand = some p)
    (hnext : (cmds p).next = some q)
    (hsec : (cmds q).action = Action.SECRET)
    (hfin : LinksAfter cmds p n) (hfuel : n + 1 ≤ fuel)
    (hext : ∀ c cmd w0, w0.secrets (cmds q).value = true →
      (ext c cmd w0).1.secrets (cmds q).value = true) :
    ∃ w1 w',
      activateNext cmds ext fuel w self = activateNext cmds ext (fuel - 1) w1 self ∧
      activateNext cmds ext (fuel - 1) w1 self = some w' ∧
      w1.controllers = Function.update w.controllers self
        { w.controllers self with actionCommand := some q } ∧
      w1.secrets (cmds q).value = true ∧
      (∀ j, j ≠ (cmds q).value → w1.secrets j = w.secrets j) ∧
      w1.sounds = w.sounds ++
        (if w.secrets (cmds q).value = true then []
         else [⟨self, SoundId.SND_SECRET, (w.controllers self).pos, 0⟩]) ∧
      (w.secrets (cmds q).value = true → w1.secrets = w.secrets ∧ w1.sounds = w.sounds) ∧
      w'.secrets (cmds q).value = true := by
  obtain ⟨k, rfl⟩ : ∃ k, fuel = k + 1 := ⟨fuel - 1, by omega⟩
  obtain ⟨w', hw'⟩ := activateNext_returns cmds ext n w self p (k + 1) hcur hfin hfuel
  obtain ⟨w1, hstep, hctl, _, _, hsecr, hsnd⟩ := activateNextBody_secret_world cmds ext
    (activateNext cmds ext k) w self p q hcur hnext hsec
  rw [activateNext_succ, hstep] at hw'
  have hset : w1.secrets (cmds q).value = true := by rw [hsecr]; simp
  refine ⟨w1, w', ?_, hw', hctl, hset, ?_, hsnd, ?_, ?_⟩
  · rw [activateNext_succ, hstep]; rfl
  · intro j hj
    rw [hsecr]; exact Function.update_noteq hj _ _
  · intro hs
    refine ⟨?_, by rw [hsnd]; simp [hs]⟩
    rw [hsecr, ← hs]; exact Function.update_eq_self _ _
  · exact activateNext_secret_stays cmds ext _ hext k w1 self w' hw' hset

theorem activateNext_secret_one_shot_witness :
    ∃ w1 w',
      activateNext demoChain demoHandler 4 (demoWorld (some 0)) 0 =
        activateNext demoChain demoHandler (4 - 1) w1 0 ∧
      activateNext demoChain demoHandler (4 - 1) w1 0 = some w' ∧
      w1.controllers = Function.update (demoWorld (some 0)).controllers 0
        { (demoWorld (some 0)).controllers 0 with actionCommand := some 1 } ∧
      w1.secrets (demoChain 1).value = true ∧
      (∀ j, j ≠ (demoChain 1).value → w1.secrets j = (demoWorld (some 0)).secrets j) ∧
      w1.sounds = (demoWorld (some 0)).sounds ++
        (if (demoWorld (some 0)).secrets (demoChain 1).value = true then []
         else [⟨0, SoundId.SND_SECRET, ((demoWorld (some 0)).controllers 0).pos, 0⟩]) ∧
      ((demoWorld (some 0)).secrets (demoChain 1).value = true →
        w1.secrets = (demoWorld (some 0)).secrets ∧ w1.sounds = (demoWorld (some 0)).sounds) ∧
      w'.secrets (demoChain 1).value = true :=
  activateNext_secret_one_shot demoChain demoHandler (demoWorld (some 0)) 0 0 1 3 4 rfl rfl rfl
    (LinksAfter.link 0 1 2 rfl (LinksAfter.link 1 2 1 rfl (LinksAfter.link 2 3 0 rfl
      (LinksAfter.last 3 rfl)))) (by decide) (fun _ _ _ h => h)

/-- C6. A secret link never blocks the chain.  When the next link `q` is of kind
`SECRET`, the same call moves the cursor onto `q` (all other objects
untouched) and runs the dispatch again from there, set flag or not, so the link
after the secret is dispatched in this call; the call returns, and leaves the
cursor `NULL` or on a record at or after `q` (`NULL` when `q` is the last
record), provided a handler of a derived class that reports `false` leaves the
cursor of the caller alone. -/
theorem activateNext_secret_never_blocks (cmds : Nat → ActionCommand) (ext : Handler)
    (w : World) (self p q n fuel : Nat)
    (hcur : (w.controllers self).actionCommand = some p)
    (hnext : (cmds p).next = some q)
    (hsec : (cmds q).action = Action.SECRET)
    (hfin : LinksAfter cmds p n) (hfuel : n + 1 ≤ fuel)
    (hhold : ∀ c cmd w0, (ext c cmd w0).2 = false →
      ((ext c cmd w0).1.controllers self).actionCommand = (w0.controllers self).actionCommand) :
    ∃ w1 w',
      w1.controllers self = { w.controllers self with actionCommand := some q } ∧
      (∀ k, k ≠ self → w1.controllers k = w.controllers k) ∧
      w1.entityController = w.entityController ∧
      w1.cameraController = w.cameraController ∧
      activateNext cmds ext fuel w self = activateNext cmds ext (fuel - 1) w1 self ∧
      activateNext cmds ext (fuel - 1) w1 self = some w' ∧
      ((w'.controllers self).actionCommand = none ∨
        ∃ r, (w'.controllers self).actionCommand = some r ∧ AtOrAfter cmds q r) ∧
      ((cmds q).next = none → (w'.controllers self).actionCommand = none) := by
  obtain ⟨k, rfl⟩ : ∃ k, fuel = k + 1 := ⟨fuel - 1, by omega⟩
  obtain ⟨w', hw'⟩ := activateNext_returns cmds ext n w self p (k + 1) hcur hfin hfuel
  obtain ⟨w1, hstep, hctl, hent, hcam, _, _⟩ := activateNextBody_secret_world cmds ext
    (activateNext cmds ext k) w self p q hcur hnext hsec
  rw [activateNext_succ, hstep] at hw'
  have hself : w1.controllers self = { w.controllers self with actionCommand := some q } := by
    rw [hctl]; simp
  have hcur1 : (w1.controllers self).actionCommand = some q := by rw [hself]
  refine ⟨w1, w', hself, ?_, hent, hcam, ?_, hw', ?_, ?_⟩
  · intro j hj
    rw [hctl]; exact Function.update_noteq hj _ _
  · rw [activateNext_succ, hstep]; rfl
  · exact activateNext_cursor_after cmds ext self hhold k w1 q w' hcur1 hw'
  · intro hlast
    cases k with
    | zero => simp [activateNext] at hw'
    | succ k =>
      rw [activateNext_succ, activateNextBody_last _ _ _ _ _ q hcur1 hlast] at hw'
      cases hw'; simp

theorem activateNext_secret_never_blocks_witness :
    ∃ w1 w',
      w1.controllers 0 = { (demoWorld (some 0)).controllers 0 with actionCommand := some 1 } ∧
      (∀ k, k ≠ 0 → w1.controllers k = (demoWorld (some 0)).controllers k) ∧
      w1.entityController = (demoWorld (some 0)).entityController ∧
      w1.cameraController = (demoWorld (some 0)).cameraController ∧
      activateNext demoChain demoHandler 4 (demoWorld (some 0)) 0 =
        activateNext demoChain demoHandler (4 - 1) w1 0 ∧
      activateNext demoChain demoHandler (4 - 1) w1 0 = some w' ∧
      ((w'.controllers 0).actionCommand = none ∨
        ∃ r, (w'.controllers 0).actionCommand = some r ∧ AtOrAfter demoChain 1 r) ∧
      ((demoChain 1).next = none → (w'.controllers 0).actionCommand = none) :=
  activateNext_secret_never_blocks demoChain demoHandler (demoWorld (some 0)) 0 0 1 3 4
    rfl rfl rfl
    (LinksAfter.link 0 1 2 rfl (LinksAfter.link 1 2 1 rfl (LinksAfter.link 2 3 0 rfl
      (LinksAfter.last 3 rfl)))) (by decide) (fun _ _ _ _ => rfl)

theorem LinksAfter.of_next (cmds : Nat → ActionCommand) (p q n : Nat)
    (hnext : (cmds p).next = some q) (hfin : LinksAfter cmds p n) :
    ∃ m, n = m + 1 ∧ LinksAfter cmds q m := by
  cases hfin with
  | last _ h => rw [hnext] at h; cases h
  | link _ q' m h hq =>
    rw [hnext] at h
    cases h
    exact ⟨m, rfl, hq⟩

/-- The virtual call `controller->activate(next)` made by `activateNext` returns when
the fuel covers the links after the cursor; only a handler of a derived class
can report `false`. -/
theorem dispatchActivate_returns (cmds : Nat → ActionCommand) (ext : Handler)
    (w : World) (c q m k : Nat) (hq : LinksAfter cmds q m) (hk : m + 1 ≤ k) :
    ∃ w2 r, dispatchActivate cmds ext (activateNext cmds ext k) w c q = some (w2, r) ∧
      (r = false → (w.controllers c).kind = Kind.derived ∧ ext c q w = (w2, false)) := by
  cases hkind : (w.controllers c).kind with
  | controller =>
    exact ⟨_, true, dispatchActivate_controller _ _ _ _ _ _ hkind, by simp⟩
  | derived =>
    refine ⟨(ext c q w).1, (ext c q w).2, dispatchActivate_derived _ _ _ _ _ _ hkind, ?_⟩
    intro hr
    exact ⟨rfl, Prod.ext rfl hr⟩
  | camera =>
    obtain ⟨w5, h5⟩ := activateNext_returns cmds ext m (Camera.applyCommand cmds w c q) c q k
      (by rw [(Camera.applyCommand_spec cmds w c q).1]) hq hk
    exact ⟨w5, true, by rw [dispatchActivate_camera _ _ _ _ _ _ hkind, h5]; rfl, by simp⟩

/-- C7. Hold-or-clear rule of `activateNext` for a next link that is not a secret.
With an empty cursor, with no next link, and when the link has no handler
controller (a `NULL` controller, or one of the kinds the `switch` passes over),
the call only sets the cursor to `NULL`: the world is otherwise as before, so no
handler ran, no secret flag changed and no sound was requested.  When the link
has a handler controller (the controller of the activated entity for
`ACTIVATE`, the camera controller of the level for `CAMERA_SWITCH` and
`CAMERA_TARGET`), the call returns the world the handler left, with the cursor
set to `NULL` if the handler reported `true` and untouched, hence still on its
record, if it reported `false` (a handler that reports `false` leaving the
cursor of the caller alone). -/
theorem activateNext_hold_or_clear (cmds : Nat → ActionCommand) (ext : Handler)
    (w : World) (self fuel : Nat) (hfuel : 1 ≤ fuel)
    (hhold : ∀ c cmd w0, (ext c cmd w0).2 = false →
      ((ext c cmd w0).1.controllers self).actionCommand = (w0.controllers self).actionCommand) :
    ((w.controllers self).actionCommand = none →
      activateNext cmds ext fuel w self = some (w.setActionCommand self none)) ∧
    (∀ p, (w.controllers self).actionCommand = some p → (cmds p).next = none →
      activateNext cmds ext fuel w self = some (w.setActionCommand self none)) ∧
    (∀ p q, (w.controllers self).actionCommand = some p → (cmds p).next = some q →
      (cmds q).action ≠ Action.SECRET →
      (handlerOf w (cmds q) = none →
        activateNext cmds ext fuel w self = some (w.setActionCommand self none)) ∧
      (∀ c n, handlerOf w (cmds q) = some c → LinksAfter cmds p n → n + 1 ≤ fuel →
        ∃ w2 r w',
          dispatchActivate cmds ext (activateNext cmds ext (fuel - 1)) w c q = some (w2, r) ∧
          activateNext cmds ext fuel w self = some w' ∧
          (r = false → w' = w2 ∧ (w'.controllers self).actionCommand = some p) ∧
          (r = true → w' = w2.setActionCommand self none ∧
            (w'.controllers self).actionCommand = none))) ∧
    (∀ next : ActionCommand,
      (next.action = Action.ACTIVATE → handlerOf w next = w.entityController next.value) ∧
      (next.action = Action.CAMERA_SWITCH ∨ next.action = Action.CAMERA_TARGET →
        handlerOf w next = w.cameraController) ∧
      (next.action ∈ [Action.FLOW, Action.FLIP_MAP, Action.FLIP_ON, Action.FLIP_OFF,
          Action.END, Action.SOUNDTRACK, Action.HARDCODE, Action.CLEAR, Action.CAMERA_FLYBY,
          Action.CUTSCENE] → handlerOf w next = none)) := by
  obtain ⟨k, rfl⟩ : ∃ k, fuel = k + 1 := ⟨fuel - 1, by omega⟩
  refine ⟨?_, ?_, ?_, ?_⟩
  · intro hcur
    rw [activateNext_succ, activateNextBody_null _ _ _ _ _ hcur]
  · intro p hcur hnext
    rw [activateNext_succ, activateNextBody_last _ _ _ _ _ _ hcur hnext]
  · intro p q hcur hnext hsec
    refine ⟨?_, ?_⟩
    · intro hh
      rw [activateNext_succ, activateNextBody_no_handler _ _ _ _ _ _ _ hcur hnext hsec hh]
    · intro c n hh hfin hn
      obtain ⟨m, rfl, hq⟩ := LinksAfter.of_next cmds p q n hnext hfin
      obtain ⟨w2, r, hd, hfalse⟩ := dispatchActivate_returns cmds ext w c q m k hq (by omega)
      have hres : activateNext cmds ext (k + 1) w self =
          some (if r = true then w2.setActionCommand self none else w2) := by
        rw [activateNext_succ, activateNextBody_handler _ _ _ _ _ _ _ _ hcur hnext hsec hh, hd]
        rfl
      refine ⟨w2, r, _, hd, hres, ?_, ?_⟩
      · intro hr
        obtain ⟨_, he⟩ := hfalse hr
        refine ⟨by simp [hr], ?_⟩
        have h1 := hhold c q w (by rw [he])
        rw [he] at h1
        have h2 : (w2.controllers self).actionCommand = some p := by rw [← hcur]; exact h1
        simp [hr, h2]
      · intro hr
        exact ⟨by simp [hr], by simp [hr]⟩
  · intro next
    refine ⟨?_, ?_, ?_⟩
    · intro h; simp [handlerOf, h]
    · rintro (h | h) <;> simp [handlerOf, h]
    · intro h
      simp only [List.mem_cons, List.mem_singleton, List.not_mem_nil, or_false] at h
      rcases h with h | h | h | h | h | h | h | h | h | h <;> simp [handlerOf, h]

theorem activateNext_hold_or_clear_witness :
    ∃ w2 r w',
      dispatchActivate demoChain demoHandler (activateNext demoChain demoHandler (4 - 1))
        (demoWorld (some 2)) 2 3 = some (w2, r) ∧
      activateNext demoChain demoHandler 4 (demoWorld (some 2)) 0 = some w' ∧
      (r = false → w' = w2 ∧ (w'.controllers 0).actionCommand = some 2) ∧
      (r = true → w' = w2.setActionCommand 0 none ∧
        (w'.controllers 0).actionCommand = none) :=
  ((activateNext_hold_or_clear demoChain demoHandler (demoWorld (some 2)) 0 4 (by decide)
    (fun _ _ _ _ => rfl)).2.2.1 2 3 rfl rfl (by decide)).2 2 1 rfl
    (LinksAfter.link 2 3 0 rfl (LinksAfter.last 3 rfl)) (by decide)

/-- C9. `Camera::activate` on a command with no following link returns `true`,
leaves `pos` as it was and sets the countdown to the timer of the command when
that is non-zero (leaving it as it was otherwise).  For `CAMERA_SWITCH` with
value `v` it sets `actCamera = v` and `lastDest` to the position the camera
had before the call; for `CAMERA_TARGET` it sets `actTargetEntity = v` and
leaves `actCamera` and `lastDest` as they were. -/
theorem cameraActivate_records (cmds : Nat → ActionCommand) (ext : Handler)
    (w : World) (cam cmd fuel : Nat) (hfuel : 1 ≤ fuel)
    (hlast : (cmds cmd).next = none) :
    ∃ w', Camera.activate cmds (activateNext cmds ext fuel) w cam cmd = some (w', true) ∧
      (w'.controllers cam).pos = (w.controllers cam).pos ∧
      (w'.controllers cam).timer =
        (if (cmds cmd).timer ≠ 0 then (cmds cmd).timer else (w.controllers cam).timer) ∧
      ((cmds cmd).action = Action.CAMERA_SWITCH →
        (w'.controllers cam).actCamera = (cmds cmd).value ∧
        (w'.controllers cam).lastDest = (w.controllers cam).pos ∧
        (w'.controllers cam).actTargetEntity = (w.controllers cam).actTargetEntity) ∧
      ((cmds cmd).action = Action.CAMERA_TARGET →
        (w'.controllers cam).actTargetEntity = (cmds cmd).value ∧
        (w'.controllers cam).actCamera = (w.controllers cam).actCamera ∧
        (w'.controllers cam).lastDest = (w.controllers cam).lastDest) := by
  obtain ⟨k, rfl⟩ : ∃ k, fuel = k + 1 := ⟨fuel - 1, by omega⟩
  have hspec := (Camera.applyCommand_spec cmds w cam cmd).1
  have hcur : ((Camera.applyCommand cmds w cam cmd).controllers cam).actionCommand = some cmd := by
    rw [hspec]
  refine ⟨(Camera.applyCommand cmds w cam cmd).setActionCommand cam none, ?_, ?_, ?_, ?_, ?_⟩
  · simp [Camera.activate, activateNext_succ, activateNextBody_last _ _ _ _ _ _ hcur hlast]
  · simp [World.setActionCommand, hspec]
  · simp [World.setActionCommand, hspec]
  · intro ha
    simp [World.setActionCommand, hspec, ha]
  · intro ha
    simp [World.setActionCommand, hspec, ha]

theorem cameraActivate_records_witness :
    ∃ w', Camera.activate demoChain (activateNext demoChain demoHandler 1) (demoWorld none) 1 4 =
        some (w', true) ∧
      (w'.controllers 1).pos = ((demoWorld none).controllers 1).pos ∧
      (w'.controllers 1).timer =
        (if (demoChain 4).timer ≠ 0 then (demoChain 4).timer
         else ((demoWorld none).controllers 1).timer) ∧
      ((demoChain 4).action = Action.CAMERA_SWITCH →
        (w'.controllers 1).actCamera = (demoChain 4).value ∧
        (w'.controllers 1).lastDest = ((demoWorld none).controllers 1).pos ∧
        (w'.controllers 1).actTargetEntity = ((demoWorld none).controllers 1).actTargetEntity) ∧
      ((demoChain 4).action = Action.CAMERA_TARGET →
        (w'.controllers 1).actTargetEntity = (demoChain 4).value ∧
        (w'.controllers 1).actCamera = ((demoWorld none).controllers 1).actCamera ∧
        (w'.controllers 1).lastDest = ((demoWorld none).controllers 1).lastDest) :=
  cameraActivate_records demoChain demoHandler (demoWorld none) 1 4 1 (by decide) rfl

/-! ## The camera tick: which phase writes which field -/

theorem Camera.updateAngle_fields (f : Frame) (cam : Controller) :
    (Camera.updateAngle f cam).1.timer = cam.timer ∧
    (Camera.updateAngle f cam).1.actCamera = cam.actCamera ∧
    (Camera.updateAngle f cam).1.actTargetEntity = cam.actTargetEntity ∧
    (Camera.updateAngle f cam).1.target = cam.target := by
  unfold Camera.updateAngle
  by_cases h : f.input.downMouseR = true <;> simp [h]

theorem Camera.updateDest_fields (f : Frame) (lookAt : Int) (cam : Controller) :
    (Camera.updateDest f lookAt cam).timer = cam.timer ∧
    (Camera.updateDest f lookAt cam).actCamera = cam.actCamera ∧
    (Camera.updateDest f lookAt cam).actTargetEntity = cam.actTargetEntity ∧
    (¬ cam.actCamera > -1 → (Camera.updateDest f lookAt cam).target =
      f.scene.lerp cam.target f.owner.viewPoint ((if lookAt = -1 then 6 else 10) * f.deltaTime)) := by
  unfold Camera.updateDest
  refine ⟨?_, ?_, ?_, ?_⟩
  · simp only []; split_ifs <;> rfl
  · simp only []; split_ifs <;> rfl
  · simp only []; split_ifs <;> rfl
  · intro h
    simp only []
    rw [if_neg h]
    split_ifs <;> rfl

theorem Camera.clampCeiling_fields (info : FloorInfo) (cam : Controller) :
    (Camera.clampCeiling info cam).timer = cam.timer ∧
    (Camera.clampCeiling info cam).actCamera = cam.actCamera ∧
    (Camera.clampCeiling info cam).actTargetEntity = cam.actTargetEntity ∧
    (Camera.clampCeiling info cam).target = cam.target := by
  unfold Camera.clampCeiling
  split_ifs <;> exact ⟨rfl, rfl, rfl, rfl⟩

theorem Camera.clampFloor_fields (info : FloorInfo) (cam : Controller) :
    (Camera.clampFloor info cam).timer = cam.timer ∧
    (Camera.clampFloor info cam).actCamera = cam.actCamera ∧
    (Camera.clampFloor info cam).actTargetEntity = cam.actTargetEntity ∧
    (Camera.clampFloor info cam).target = cam.target := by
  unfold Camera.clampFloor
  split_ifs <;> exact ⟨rfl, rfl, rfl, rfl⟩

theorem Camera.updateEye_fields (f : Frame) (lookAt : Int) (cam : Controller) :
    (Camera.updateEye f lookAt cam).timer = cam.timer ∧
    (Camera.updateEye f lookAt cam).actCamera = cam.actCamera ∧
    (Camera.updateEye f lookAt cam).actTargetEntity = cam.actTargetEntity ∧
    (Camera.updateEye f lookAt cam).target = cam.target := by
  unfold Camera.updateEye
  by_cases h : cam.actCamera ≤ -1
  · simp only [h, if_true]
    refine ⟨?_, ?_, ?_, ?_⟩
    · rw [(Camera.clampFloor_fields _ _).1, (Camera.clampCeiling_fields _ _).1]
      split_ifs <;> rfl
    · rw [(Camera.clampFloor_fields _ _).2.1, (Camera.clampCeiling_fields _ _).2.1]
      split_ifs <;> rfl
    · rw [(Camera.clampFloor_fields _ _).2.2.1, (Camera.clampCeiling_fields _ _).2.2.1]
      split_ifs <;> rfl
    · rw [(Camera.clampFloor_fields _ _).2.2.2, (Camera.clampCeiling_fields _ _).2.2.2]
      split_ifs <;> rfl
  · simp only [h, if_false]
    refine ⟨?_, ?_, ?_, ?_⟩ <;> first | rfl | trivial

/-- The countdown, the two overrides and (with no level camera active) the look
point after a tick, in terms of the countdown block. -/
theorem Camera.update_fields (f : Frame) (cam : Controller) :
    (Camera.update f cam).1.timer = (Camera.updateTimer f cam).timer ∧
    (Camera.update f cam).1.actCamera = (Camera.updateTimer f cam).actCamera ∧
    (Camera.update f cam).1.actTargetEntity = (Camera.updateTimer f cam).actTargetEntity ∧
    (¬ (Camera.updateTimer f cam).actCamera > -1 → (Camera.update f cam).1.target =
      f.scene.lerp (Camera.updateTimer f cam).target f.owner.viewPoint
        ((if Camera.lookAt f.owner cam = -1 then 6 else 10) * f.deltaTime)) := by
  obtain ⟨a1, a2, a3, a4⟩ := Camera.updateAngle_fields f (Camera.updateTimer f cam)
  obtain ⟨d1, d2, d3, d4⟩ := Camera.updateDest_fields f (Camera.lookAt f.owner cam)
    (Camera.updateAngle f (Camera.updateTimer f cam)).1
  obtain ⟨e1, e2, e3, e4⟩ := Camera.updateEye_fields f (Camera.lookAt f.owner cam)
    (Camera.updateDest f (Camera.lookAt f.owner cam)
      (Camera.updateAngle f (Camera.updateTimer f cam)).1)
  refine ⟨?_, ?_, ?_, ?_⟩
  · show (Camera.updateEye f _ _).timer = _
    rw [e1, d1, a1]
  · show (Camera.updateEye f _ _).actCamera = _
    rw [e2, d2, a2]
  · show (Camera.updateEye f _ _).actTargetEntity = _
    rw [e3, d3, a3]
  · intro h
    show (Camera.updateEye f _ _).target = _
    rw [e4, d4 (by rw [a2]; exact h), a4]

/-- A tick that does not exhaust the countdown only decrements it. -/
theorem Camera.update_running (f : Frame) (cam : Controller)
    (h : f.deltaTime < cam.timer) (hdt : 0 < f.deltaTime) :
    (Camera.update f cam).1.timer = cam.timer - f.deltaTime ∧
    (Camera.update f cam).1.actCamera = cam.actCamera ∧
    (Camera.update f cam).1.actTargetEntity = cam.actTargetEntity := by
  obtain ⟨u1, u2, u3, _⟩ := Camera.update_fields f cam
  have hpos : cam.timer > 0 := lt_trans hdt h
  have hno : ¬ (cam.timer - f.deltaTime ≤ 0) := by linarith
  have ht : Camera.updateTimer f cam = { cam with timer := cam.timer - f.deltaTime } := by
    simp [Camera.updateTimer, hpos, hno]
  rw [u1, u2, u3, ht]
  exact ⟨rfl, rfl, rfl⟩

/-- A tick that exhausts the countdown releases both overrides and recentres the
look point. -/
theorem Camera.update_expiry (f : Frame) (cam : Controller)
    (hpos : 0 < cam.timer) (h : cam.timer ≤ f.deltaTime)
    (hlerp : ∀ a t, f.scene.lerp a a t = a) :
    (Camera.update f cam).1.timer = 0 ∧
    (Camera.update f cam).1.actCamera = -1 ∧
    (Camera.update f cam).1.actTargetEntity = -1 ∧
    (Camera.update f cam).1.target = f.owner.viewPoint := by
  obtain ⟨u1, u2, u3, u4⟩ := Camera.update_fields f cam
  have hex : cam.timer - f.deltaTime ≤ 0 := by linarith
  have ht : (Camera.updateTimer f cam).timer = 0 ∧ (Camera.updateTimer f cam).actCamera = -1 ∧
      (Camera.updateTimer f cam).actTargetEntity = -1 ∧
      (Camera.updateTimer f cam).target = f.owner.viewPoint := by
    unfold Camera.updateTimer
    simp only [gt_iff_lt, hpos, if_true, hex]
    split_ifs <;> refine ⟨?_, ?_, ?_, ?_⟩ <;> first | rfl | trivial
  obtain ⟨t1, t2, t3, t4⟩ := ht
  refine ⟨by rw [u1, t1], by rw [u2, t2], by rw [u3, t3], ?_⟩
  rw [u4 (by rw [t2]; decide), t4, hlerp]

theorem Camera.update_timer_nonneg (f : Frame) (cam : Controller) (h : 0 ≤ cam.timer) :
    0 ≤ (Camera.update f cam).1.timer := by
  rw [(Camera.update_fields f cam).1]
  unfold Camera.updateTimer
  by_cases hpos : cam.timer > 0
  · by_cases hex : cam.timer - f.deltaTime ≤ 0
    · simp only [hpos, if_true, hex]
      split_ifs <;> exact le_refl (0 : ℚ)
    · simp only [hpos, if_true, hex, if_false]; exact le_of_lt (not_le.mp hex)
  · simp only [hpos, if_false]; exact h

theorem elapsed_cons (g : Frame) (frames : List Frame) :
    elapsed (g :: frames) = g.deltaTime + elapsed frames := by
  simp [elapsed]

theorem elapsed_append (pre suf : List Frame) :
    elapsed (pre ++ suf) = elapsed pre + elapsed suf := by
  simp [elapsed]

theorem elapsed_nonneg (frames : List Frame) (hpos : ∀ g ∈ frames, 0 < g.deltaTime) :
    0 ≤ elapsed frames := by
  induction frames with
  | nil => simp [elapsed]
  | cons g rest ih =>
    rw [elapsed_cons]
    have h1 := hpos g (List.mem_cons_self _ _)
    have h2 := ih (fun x hx => hpos x (List.mem_cons_of_mem _ hx))
    linarith

theorem Camera.run_cons (cam : Controller) (g : Frame) (frames : List Frame) :
    Camera.run cam (g :: frames) = Camera.run (Camera.update g cam).1 frames := rfl

theorem Camera.run_append (cam : Controller) (pre suf : List Frame) :
    Camera.run cam (pre ++ suf) = Camera.run (Camera.run cam pre) suf := by
  simp [Camera.run, List.foldl_append]

/-- While the time elapsed stays below the countdown, ticking only decrements the
countdown. -/
theorem Camera.run_running :
    ∀ (frames : List Frame) (cam : Controller),
      (∀ g ∈ frames, 0 < g.deltaTime) → elapsed frames < cam.timer →
      (Camera.run cam frames).timer = cam.timer - elapsed frames ∧
      (Camera.run cam frames).actCamera = cam.actCamera ∧
      (Camera.run cam frames).actTargetEntity = cam.actTargetEntity := by
  intro frames
  induction frames with
  | nil => intro cam _ _; simp [Camera.run, elapsed]
  | cons g rest ih =>
    intro cam hpos hlt
    rw [elapsed_cons] at hlt
    have hg := hpos g (List.mem_cons_self _ _)
    have hrest : ∀ x ∈ rest, 0 < x.deltaTime := fun x hx => hpos x (List.mem_cons_of_mem _ hx)
    have hnn := elapsed_nonneg rest hrest
    obtain ⟨u1, u2, u3⟩ := Camera.update_running g cam (by linarith) hg
    obtain ⟨r1, r2, r3⟩ := ih (Camera.update g cam).1 hrest (by rw [u1]; linarith)
    rw [Camera.run_cons, elapsed_cons, r1, r2, r3, u1, u2, u3]
    exact ⟨by ring, rfl, rfl⟩

/-! ## The example chain and camera, evaluated -/

/-- The example chain run from its head: the secret link sets flag 5 and requests
one sound, the camera takes the switch to camera 7 with timer 2 and holds on
record 2 because the handler of entity 4 reports `false`, and the cursor of the
caller ends `NULL`. -/
theorem activateNext_demoChain :
    (activateNext demoChain demoHandler 4 (demoWorld (some 0)) 0).map
      (fun w => ((w.controllers 0).actionCommand, (w.controllers 1).actionCommand,
        (w.controllers 1).actCamera, w.secrets 5)) = some (none, some 2, 7, true) ∧
    (activateNext demoChain demoHandler 4 (demoWorld (some 0)) 0).map
      (fun w => ((w.controllers 1).timer, (w.controllers 1).lastDest)) =
        some (2, ⟨1000, 0, 1000⟩) ∧
    (activateNext demoChain demoHandler 4 (demoWorld (some 0)) 0).map (fun w => w.sounds) =
      some [⟨0, SoundId.SND_SECRET, ⟨1000, 0, 1000⟩, 0⟩] := by
  decide

/-- The example camera after two ticks of half a second: the countdown has gone
from 2 to 1 and the camera switch is still active. -/
theorem run_demoCamera :
    (Camera.run demoCamera [demoFrame (1 / 2), demoFrame (1 / 2)]).timer = 1 ∧
    (Camera.run demoCamera [demoFrame (1 / 2), demoFrame (1 / 2)]).actCamera = 7 := by
  simp [Camera.run, Camera.update, Camera.updateTimer, Camera.updateAngle, Camera.updateDest,
    Camera.updateEye, Camera.lookAt, Camera.getRoomIndex, demoCamera, demoFrame, demoScene,
    demoObject, vec3.zero]
  norm_num

/-! ## The camera tick: look-at priority and eye clamp -/

/-- C11, as stated, fails: with the forced target set to entity 5 and the owner
targeting entity 9, the value written to `owner->viewTarget` is 9, not the
forced target 5. -/
theorem lookAt_priority_counterexample :
    demoCameraForced.actTargetEntity = 5 ∧ demoFrameTargeting.owner.target = 9 ∧
    (Camera.update demoFrameTargeting demoCameraForced).2.1.viewTarget = 9 ∧
    (Camera.update demoFrameTargeting demoCameraForced).2.1.viewTarget ≠
      demoCameraForced.actTargetEntity := by
  decide

/-- C11, amended. The value `Camera::update` writes to `owner->viewTarget` is the
own target of the owner whenever that is set (`> -1`), otherwise the forced
target `actTargetEntity` when that is set, otherwise -1; when both are set the
own target of the owner wins. -/
theorem lookAt_priority (f : Frame) (cam : Controller) :
    (Camera.update f cam).2.1.viewTarget =
      (if f.owner.target > -1 then f.owner.target
       else if cam.actTargetEntity > -1 then cam.actTargetEntity else -1) := by
  show Camera.lookAt f.owner cam = _
  unfold Camera.lookAt
  rfl

/-- The clamp of lines 133-156 on an eye at `cam.pos` with floor info `info`, the
room already moved to `roomNext`: ceiling first, floor second. -/
theorem Camera.clamp_spec (info : FloorInfo) (cam : Controller)
    (hcf : info.roomCeiling ≤ info.roomFloor) :
    (info.roomAbove = 255 → info.roomCeiling % 2 ^ 32 ≠ 0xffff8100 →
      (info.roomCeiling : ℚ) ≤ (Camera.clampFloor info (Camera.clampCeiling info cam)).pos.y) ∧
    (info.roomBelow = 255 → info.roomFloor % 2 ^ 32 ≠ 0xffff8100 →
      (Camera.clampFloor info (Camera.clampCeiling info cam)).pos.y ≤ (info.roomFloor : ℚ)) ∧
    (info.roomAbove ≠ 255 → cam.pos.y < (info.roomCeiling : ℚ) →
      (Camera.clampFloor info (Camera.clampCeiling info cam)).room = info.roomAbove ∧
      (Camera.clampFloor info (Camera.clampCeiling info cam)).pos = cam.pos) ∧
    (info.roomBelow ≠ 255 → cam.pos.y > (info.roomFloor : ℚ) →
      (Camera.clampFloor info (Camera.clampCeiling info cam)).room = info.roomBelow ∧
      (Camera.clampFloor info (Camera.clampCeiling info cam)).pos = cam.pos) ∧
    (Camera.clampFloor info (Camera.clampCeiling info cam)).pos.x = cam.pos.x ∧
    (Camera.clampFloor info (Camera.clampCeiling info cam)).pos.z = cam.pos.z := by
  have hq : (info.roomCeiling : ℚ) ≤ (info.roomFloor : ℚ) := by exact_mod_cast hcf
  refine ⟨?_, ?_, ?_, ?_, ?_, ?_⟩
  · intro ha hs
    unfold Camera.clampFloor Camera.clampCeiling
    split_ifs <;> simp_all
  · intro hb hs
    unfold Camera.clampFloor Camera.clampCeiling
    split_ifs <;> simp_all
  · intro ha h1
    unfold Camera.clampFloor Camera.clampCeiling
    split_ifs <;> simp_all <;>
      (have hq' : (info.roomCeiling : ℚ) ≤ (info.roomFloor : ℚ) := by exact_mod_cast hcf
       linarith)
  · intro hb h1
    unfold Camera.clampFloor Camera.clampCeiling
    split_ifs <;> simp_all <;>
      (have hq' : (info.roomCeiling : ℚ) ≤ (info.roomFloor : ℚ) := by exact_mod_cast hcf
       linarith)
  · unfold Camera.clampFloor Camera.clampCeiling
    split_ifs <;> rfl
  · unfold Camera.clampFloor Camera.clampCeiling
    split_ifs <;> rfl

/-- C14. Eye clamp at the end of `Camera::update`.  Let `pre` be the camera before
line 131, `eye` the blended eye position and `info` the floor info queried at
it.  With no level camera active and `roomCeiling ≤ roomFloor`: with no room
above and a ceiling that is not the sentinel the final `pos.y` is at least
`roomCeiling`; with no room below and a floor that is not the sentinel it is
at most `roomFloor`; with a room above (below) and the eye above the ceiling
(below the floor) the room becomes that room and the eye is not clamped.  While
a level camera is active the room is left as it was and the eye is the blended
position. -/
theorem camera_eye_clamp (f : Frame) (cam pre : Controller) (eye : vec3) (info : FloorInfo)
    (hpre : pre = Camera.updateDest f (Camera.lookAt f.owner cam)
      (Camera.updateAngle f (Camera.updateTimer f cam)).1)
    (heye : eye = f.scene.lerp pre.pos pre.destPos
      (f.deltaTime * (if Camera.lookAt f.owner cam = -1 then 6 else 10)))
    (hinfo : info = f.scene.getFloorInfo pre.room (toInt eye.x) (toInt eye.y) (toInt eye.z)) :
    (pre.actCamera ≤ -1 → info.roomCeiling ≤ info.roomFloor →
      (info.roomAbove = 255 → info.roomCeiling % 2 ^ 32 ≠ 0xffff8100 →
        (info.roomCeiling : ℚ) ≤ (Camera.update f cam).1.pos.y) ∧
      (info.roomBelow = 255 → info.roomFloor % 2 ^ 32 ≠ 0xffff8100 →
        (Camera.update f cam).1.pos.y ≤ (info.roomFloor : ℚ)) ∧
      (info.roomAbove ≠ 255 → eye.y < (info.roomCeiling : ℚ) →
        (Camera.update f cam).1.room = info.roomAbove ∧ (Camera.update f cam).1.pos = eye) ∧
      (info.roomBelow ≠ 255 → eye.y > (info.roomFloor : ℚ) →
        (Camera.update f cam).1.room = info.roomBelow ∧ (Camera.update f cam).1.pos = eye)) ∧
    (pre.actCamera > -1 →
      (Camera.update f cam).1.room = pre.room ∧ (Camera.update f cam).1.pos = eye) := by
  have hupd : (Camera.update f cam).1 = Camera.updateEye f (Camera.lookAt f.owner cam) pre := by
    rw [hpre]; rfl
  rw [hupd]
  unfold Camera.updateEye
  refine ⟨?_, ?_⟩
  · intro hact hcf
    simp only [hact, if_true, ← heye, ← hinfo]
    obtain ⟨c1, c2, c3, c4, _, _⟩ := Camera.clamp_spec info
      (if info.roomNext ≠ 255 then
        { ({ pre with pos := eye } : Controller) with room := info.roomNext }
       else { pre with pos := eye }) hcf
    have hp : (if info.roomNext ≠ 255 then
        { ({ pre with pos := eye } : Controller) with room := info.roomNext }
       else { pre with pos := eye }).pos = eye := by
      split_ifs <;> rfl
    rw [hp] at c3 c4
    exact ⟨c1, c2, c3, c4⟩
  · intro hact
    have hno : ¬ pre.actCamera ≤ -1 := by omega
    simp only [hno, if_false, ← heye]
    refine ⟨?_, ?_⟩ <;> first | rfl | trivial

theorem camera_eye_clamp_witness :
    (-4096 : ℚ) ≤ (Camera.update (demoFrame (1 / 2)) (demoObject Kind.camera none)).1.pos.y ∧
    (Camera.update (demoFrame (1 / 2)) (demoObject Kind.camera none)).1.pos.y ≤ (0 : ℚ) := by
  have h := (camera_eye_clamp (demoFrame (1 / 2)) (demoObject Kind.camera none) _ _
    ⟨0, -4096, 0, -4096, 255, 255, 255⟩ rfl rfl rfl).1
    (by
      rw [(Camera.updateDest_fields _ _ _).2.1, (Camera.updateAngle_fields _ _).2.1]
      simp [Camera.updateTimer, demoObject])
    (by decide)
  have h1 := h.1 rfl (by decide)
  have h2 := h.2.1 rfl (by decide)
  norm_num at h1 h2
  exact ⟨h1, h2⟩

/-! ## Bubbles: three residues out of ten -/

theorem bubbles_eq (w : World) (self : Nat) (pan : Int) (r : Nat) :
    bubbles w self pan r = decide (7 ≤ r % 10) := by
  unfold bubbles doBubbles playSound
  by_cases h : r % 10 ≤ 6
  · have h7 : ¬ 7 ≤ r % 10 := by omega
    simp [h, h7]
  · have h7 : 7 ≤ r % 10 := by omega
    simp [h, h7]

theorem bubbles_add_ten (w : World) (self : Nat) (pan : Int) (r : Nat) :
    bubbles w self pan (r + 10) = bubbles w self pan r := by
  rw [bubbles_eq, bubbles_eq]
  simp

theorem bubbles_count (w : World) (self : Nat) (pan : Int) :
    ∀ m : Nat, ((List.range (10 * m)).filter (bubbles w self pan)).length = 3 * m := by
  intro m
  induction m with
  | zero => simp
  | succ m ih =>
    have hsplit : List.range (10 * (m + 1)) =
        List.range (10 * m) ++ (List.range 10).map (fun k => 10 * m + k) := by
      rw [show 10 * (m + 1) = 10 * m + 10 by ring, List.range_add]
    have hshift : ∀ k, bubbles w self pan (10 * m + k) = bubbles w self pan k := by
      intro k
      rw [bubbles_eq, bubbles_eq]
      congr 1
      have : (10 * m + k) % 10 = k % 10 := by omega
      rw [this]
    rw [hsplit, List.filter_append, List.length_append, ih, List.filter_map, List.length_map]
    have hfun : (bubbles w self pan ∘ fun k => 10 * m + k) = bubbles w self pan := by
      funext k; exact hshift k
    rw [hfun]
    have h10 : ((List.range 10).filter (bubbles w self pan)).length = 3 := by
      have hb : bubbles w self pan = fun r => decide (7 ≤ r % 10) := by
        funext r; exact bubbles_eq w self pan r
      rw [hb]
      decide
    rw [h10]
    ring

/-- C18. `doBubbles` requests `SND_BUBBLE` exactly when `rand() % 10` is 7, 8 or 9
and does nothing for the residues 0 to 6: 3 of the 10 residues request the
sound, and so do exactly `3 * m` of the draws `0, ..., 10 * m - 1`, which is
the frequency 3/10. -/
theorem doBubbles_three_in_ten (w : World) (self : Nat) (pan : Int) (r : Nat) :
    ((r % 10 = 7 ∨ r % 10 = 8 ∨ r % 10 = 9) →
      doBubbles w self r pan =
        playSound w self SoundId.SND_BUBBLE (w.controllers self).pos pan) ∧
    (r % 10 ≤ 6 → doBubbles w self r pan = w) ∧
    (bubbles w self pan r = true ↔ (r % 10 = 7 ∨ r % 10 = 8 ∨ r % 10 = 9)) ∧
    ((List.range 10).filter (bubbles w self pan)).length = 3 ∧
    (∀ m : Nat, ((List.range (10 * m)).filter (bubbles w self pan)).length = 3 * m) := by
  refine ⟨?_, ?_, ?_, ?_, bubbles_count w self pan⟩
  · intro h
    have h6 : ¬ r % 10 ≤ 6 := by omega
    simp [doBubbles, h6]
  · intro h
    simp [doBubbles, h]
  · rw [bubbles_eq]
    have hlt : r % 10 < 10 := Nat.mod_lt _ (by decide)
    simp only [decide_eq_true_eq]
    omega
  · simpa using bubbles_count w self pan 1

/-! ## `Camera::activate` over a run of camera links -/

/-- The nested `activateNext` of the camera walks a run of camera links to its end:
every link of the run is applied to the camera, in order, and the cursor of the
camera ends `NULL`. -/
theorem activateNext_cameraRun (cmds : Nat → ActionCommand) (ext : Handler) (w : World)
    (cam : Nat) (hcam : w.cameraController = some cam) :
    ∀ (c : Nat) (run : List Nat), CameraRun cmds w cam c run →
      ∀ (w1 : World) (fuel : Nat),
        w1.entityController = w.entityController → w1.cameraController = w.cameraController →
        (∀ k, k ≠ cam → w1.controllers k = w.controllers k) →
        (w1.controllers cam).kind = Kind.camera →
        (w1.controllers cam).actionCommand = some c → run.length + 1 ≤ fuel →
        ∃ w', activateNext cmds ext fuel w1 cam = some w' ∧
          (w'.controllers cam).actionCommand = none ∧
          (w'.controllers cam).pos = (w1.controllers cam).pos ∧
          (w'.controllers cam).timer = Camera.lastTimer cmds (w1.controllers cam).timer run ∧
          (w'.controllers cam).actCamera =
            Camera.lastSwitch cmds (w1.controllers cam).actCamera run ∧
          (w'.controllers cam).actTargetEntity =
            Camera.lastTarget cmds (w1.controllers cam).actTargetEntity run := by
  intro c run hrun
  induction hrun with
  | done c hnext =>
    intro w1 fuel _ _ _ _ hcur hfuel
    obtain ⟨k, rfl⟩ : ∃ k, fuel = k + 1 := ⟨fuel - 1, by omega⟩
    refine ⟨_, by rw [activateNext_succ, activateNextBody_last _ _ _ _ _ _ hcur hnext], ?_⟩
    simp [World.setActionCommand, Camera.lastTimer, Camera.lastSwitch, Camera.lastTarget]
  | other c q hnext hsec hh =>
    intro w1 fuel hent hcc hsame _ hcur hfuel
    obtain ⟨k, rfl⟩ : ∃ k, fuel = k + 1 := ⟨fuel - 1, by omega⟩
    have hh1 : handlerOf w1 (cmds q) = handlerOf w (cmds q) := by
      unfold handlerOf; rw [hent, hcc]
    rcases hh with hnone | ⟨j, hj, hne, hkind⟩
    · refine ⟨_, by rw [activateNext_succ, activateNextBody_no_handler _ _ _ _ _ _ _ hcur hnext
        hsec (hh1.trans hnone)], ?_⟩
      simp [World.setActionCommand, Camera.lastTimer, Camera.lastSwitch, Camera.lastTarget]
    · have hkind1 : (w1.controllers j).kind = Kind.controller := by rw [hsame j hne]; exact hkind
      refine ⟨_, by rw [activateNext_succ, activateNextBody_handler _ _ _ _ _ _ _ _ hcur hnext
        hsec (hh1.trans hj), dispatchActivate_controller _ _ _ _ _ _ hkind1]; rfl, ?_⟩
      have hcj : cam ≠ j := fun h => hne h.symm
      simp [World.setActionCommand, World.modify_controllers_of_ne _ _ _ _ hcj,
        Camera.lastTimer, Camera.lastSwitch, Camera.lastTarget]
  | link c q rest hnext hact _ ih =>
    intro w1 fuel hent hcc hsame hkind hcur hfuel
    obtain ⟨k, rfl⟩ : ∃ k, fuel = k + 1 := ⟨fuel - 1, by omega⟩
    have hsec : (cmds q).action ≠ Action.SECRET := by
      rcases hact with h | h <;> rw [h] <;> decide
    have hh : handlerOf w1 (cmds q) = some cam := by
      rw [← hcam, ← hcc]
      rcases hact with h | h <;> simp [handlerOf, h]
    obtain ⟨s1, s2, _, _, s5, s6⟩ := Camera.applyCommand_spec cmds w1 cam q
    obtain ⟨w5, h5, r1, r2, r3, r4, r5⟩ := ih (Camera.applyCommand cmds w1 cam q) k
      (s5.trans hent) (s6.trans hcc) (fun j hj => (s2 j hj).trans (hsame j hj))
      (by rw [s1]; exact hkind) (by rw [s1]) (by simpa using hfuel)
    refine ⟨w5.setActionCommand cam none, ?_, ?_, ?_, ?_, ?_, ?_⟩
    · rw [activateNext_succ, activateNextBody_handler _ _ _ _ _ _ _ _ hcur hnext hsec hh,
        dispatchActivate_camera _ _ _ _ _ _ hkind, h5]
      rfl
    · simp
    · simp [World.setActionCommand, r2, s1]
    · simp [World.setActionCommand, r3, s1, Camera.lastTimer]
    · simp [World.setActionCommand, r4, s1, Camera.lastSwitch]
    · simp [World.setActionCommand, r5, s1, Camera.lastTarget]

/-- C20. `Camera::activate` consumes the camera links that follow its command and
always reports completion.  On the camera controller of the level, with `run`
the run of camera links after `cmd`, the call returns `true` and leaves the
active-camera index at the value of the last `CAMERA_SWITCH` of `cmd :: run`,
the countdown at the last non-zero timer of `cmd :: run`, the forced target at
the value of the last `CAMERA_TARGET`, `pos` as it was and the cursor of the
camera `NULL`.  Whatever the command, a call that returns returns `true`; hence
a chain walk whose next link is a camera link never holds its position: its
cursor is `NULL` afterwards. -/
theorem cameraActivate_greedy (cmds : Nat → ActionCommand) (ext : Handler) (w : World)
    (cam cmd : Nat) (run : List Nat) (fuel : Nat)
    (hcam : w.cameraController = some cam)
    (hkind : (w.controllers cam).kind = Kind.camera)
    (hrun : CameraRun cmds w cam cmd run) (hfuel : run.length + 1 ≤ fuel) :
    (∃ w', Camera.activate cmds (activateNext cmds ext fuel) w cam cmd = some (w', true) ∧
      (w'.controllers cam).actionCommand = none ∧
      (w'.controllers cam).pos = (w.controllers cam).pos ∧
      (w'.controllers cam).timer =
        Camera.lastTimer cmds (w.controllers cam).timer (cmd :: run) ∧
      (w'.controllers cam).actCamera =
        Camera.lastSwitch cmds (w.controllers cam).actCamera (cmd :: run) ∧
      (w'.controllers cam).actTargetEntity =
        Camera.lastTarget cmds (w.controllers cam).actTargetEntity (cmd :: run)) ∧
    (∀ (reenter : World → Nat → Option World) (w0 : World) (c0 : Nat) (res : World × Bool),
      Camera.activate cmds reenter w0 cam c0 = some res → res.2 = true) ∧
    (∀ (self p q n fuel' : Nat), (w.controllers self).actionCommand = some p →
      (cmds p).next = some q →
      ((cmds q).action = Action.CAMERA_SWITCH ∨ (cmds q).action = Action.CAMERA_TARGET) →
      LinksAfter cmds p n → n + 1 ≤ fuel' →
      ∃ w', activateNext cmds ext fuel' w self = some w' ∧
        (w'.controllers self).actionCommand = none) := by
  refine ⟨?_, ?_, ?_⟩
  · obtain ⟨s1, s2, _, _, s5, s6⟩ := Camera.applyCommand_spec cmds w cam cmd
    obtain ⟨w5, h5, r1, r2, r3, r4, r5⟩ := activateNext_cameraRun cmds ext w cam hcam cmd run hrun
      (Camera.applyCommand cmds w cam cmd) fuel s5 s6 s2 (by rw [s1]; exact hkind)
      (by rw [s1]) hfuel
    refine ⟨w5, by simp [Camera.activate, h5], r1, ?_, ?_, ?_, ?_⟩
    · rw [r2, s1]
    · rw [r3, s1]; rfl
    · rw [r4, s1]; rfl
    · rw [r5, s1]; rfl
  · intro reenter w0 c0 res h
    unfold Camera.activate at h
    cases hr : reenter (Camera.applyCommand cmds w0 cam c0) cam with
    | none => simp [hr] at h
    | some w5 => simp [hr] at h; rw [← h]
  · intro self p q n fuel' hcur hnext hact hfin hfuel'
    obtain ⟨k, rfl⟩ : ∃ k, fuel' = k + 1 := ⟨fuel' - 1, by omega⟩
    have hsec : (cmds q).action ≠ Action.SECRET := by
      rcases hact with h | h <;> rw [h] <;> decide
    have hh : handlerOf w (cmds q) = some cam := by
      rw [← hcam]
      rcases hact with h | h <;> simp [handlerOf, h]
    obtain ⟨m, rfl, hq⟩ := LinksAfter.of_next cmds p q n hnext hfin
    obtain ⟨w2, r, hd, hfalse⟩ := dispatchActivate_returns cmds ext w cam q m k hq (by omega)
    have hr : r = true := by
      cases r with
      | true => rfl
      | false =>
        have := (hfalse rfl).1
        rw [hkind] at this
        cases this
    subst hr
    refine ⟨w2.setActionCommand self none, ?_, by simp⟩
    rw [activateNext_succ, activateNextBody_handler _ _ _ _ _ _ _ _ hcur hnext hsec hh, hd]
    rfl

theorem cameraActivate_greedy_witness :
    ∃ w', Camera.activate cameraChain (activateNext cameraChain demoHandler 3) (demoWorld none)
        1 0 = some (w', true) ∧
      (w'.controllers 1).actionCommand = none ∧
      (w'.controllers 1).actCamera = 7 ∧
      (w'.controllers 1).timer = 2 ∧
      (w'.controllers 1).actTargetEntity = 4 := by
  obtain ⟨w', h, h1, _, h3, h4, h5⟩ := (cameraActivate_greedy cameraChain demoHandler
    (demoWorld none) 1 0 [1, 2] 3 rfl rfl
    (CameraRun.link 0 1 [2] rfl (Or.inl rfl)
      (CameraRun.link 1 2 [] rfl (Or.inr rfl) (CameraRun.done 2 rfl))) (by decide)).1
  refine ⟨w', h, h1, ?_, ?_, ?_⟩
  · rw [h4]; decide
  · rw [h3]; simp [Camera.lastTimer, cameraChain, demoWorld, demoObject]
  · rw [h5]; decide

/-! ## The mesh-override table defaults to the own meshes of the model -/

theorem swapsPart_eq (meshOffsets : Nat → Nat) (model : Model) (mask i : Nat) :
    swapsPart meshOffsets model mask i =
      (mask.testBit i && decide (meshOffsets (model.mStart + i) ≠ 0)) := by
  unfold swapsPart
  congr 1
  rw [Nat.one_shiftLeft, Nat.and_comm, Nat.and_two_pow]
  cases h : mask.testBit i <;> simp

theorem overrides_eq (meshOffsets : Nat → Nat) (model : Model) (mask i : Nat) :
    overrides meshOffsets model mask i =
      (decide (i < model.mCount) && swapsPart meshOffsets model mask i) := by
  rw [swapsPart_eq]
  unfold overrides
  rw [Bool.and_assoc]

/-- The loop of `meshSwap` on a `NULL` table that is never written. -/
theorem meshSwap_loop_null (meshOffsets : Nat → Nat) (model : Model) (mask : Nat) :
    ∀ n : Nat, (∀ i, i < n → swapsPart meshOffsets model mask i = false) →
      (List.range n).foldlM (meshSwapStep meshOffsets model mask) none = some none := by
  intro n
  induction n with
  | zero => intro _; rfl
  | succ n ih =>
    intro h
    rw [List.range_succ, List.foldlM_append, ih (fun i hi => h i (Nat.lt_succ_of_lt hi))]
    simp [meshSwapStep, h n (Nat.lt_succ_self n)]

/-- The loop of `meshSwap` on a table whose writes stay inside it: the parts it
swaps get the mesh of the swap model, all others keep their entry. -/
theorem meshSwap_loop_table (meshOffsets : Nat → Nat) (model : Model) (mask : Nat)
    (l : List Nat) :
    ∀ n : Nat, (∀ i, i < n → swapsPart meshOffsets model mask i = true → i < l.length) →
      ∃ l', (List.range n).foldlM (meshSwapStep meshOffsets model mask) (some l) =
          some (some l') ∧
        l'.length = l.length ∧
        ∀ j, l'[j]? = if j < n ∧ swapsPart meshOffsets model mask j = true
          then some (model.mStart + j) else l[j]? := by
  intro n
  induction n with
  | zero => intro _; exact ⟨l, rfl, rfl, fun j => by simp⟩
  | succ n ih =>
    intro h
    obtain ⟨l1, h1, hlen, hget⟩ := ih (fun i hi => h i (Nat.lt_succ_of_lt hi))
    rw [List.range_succ, List.foldlM_append, h1]
    by_cases hs : swapsPart meshOffsets model mask n = true
    · have hn : n < l1.length := by rw [hlen]; exact h n (Nat.lt_succ_self n) hs
      refine ⟨l1.set n (model.mStart + n), by simp [meshSwapStep, hs, hn], ?_, ?_⟩
      · rw [List.length_set, hlen]
      · intro j
        rw [List.getElem?_set]
        by_cases hj : n = j
        · subst hj
          simp [hn, hs]
        · have hjn : j < n + 1 ↔ j < n := by omega
          simp only [hj, if_false, hget j, hjn]
    · have hs' : swapsPart meshOffsets model mask n = false := by simpa using hs
      refine ⟨l1, by simp [meshSwapStep, hs'], hlen, ?_⟩
      intro j
      rw [hget j]
      by_cases hj : j = n
      · subst hj; simp [hs']
      · have hjn : j < n + 1 ↔ j < n := by omega
        simp only [hjn]

theorem overrides_iff (meshOffsets : Nat → Nat) (model : Model) (mask i : Nat) :
    overrides meshOffsets model mask i = true ↔
      (i < model.mCount ∧ swapsPart meshOffsets model mask i = true) := by
  rw [overrides_eq]
  simp

theorem initMeshOverrides_get (own : Model) (i : Nat) (hi : i < own.mCount) :
    renderIndex own (initMeshOverrides own) i = some (own.mStart + i) := by
  have h0 : own.mCount ≠ 0 := by omega
  simp [renderIndex, initMeshOverrides, h0, List.getElem?_map, List.getElem?_range hi]

/-- What one call of `meshSwap` does to a controller whose table is `NULL` or has
the length of the own model, when the parts it overrides are parts of the own
model. -/
theorem meshSwap_spec (meshOffsets : Nat → Nat) (own : Model) (st : Meshes) (model : Model)
    (mask : Nat)
    (hst : st.meshes = none ∨ ∃ l, st.meshes = some l ∧ l.length = own.mCount ∧
      st.mCount = own.mCount)
    (hin : ∀ i, overrides meshOffsets model mask i = true → i < own.mCount) :
    ∃ st', meshSwap meshOffsets own st model mask = some st' ∧
      st'.mCount = own.mCount ∧
      (own.mCount ≠ 0 → ∃ l, st'.meshes = some l ∧ l.length = own.mCount) ∧
      (st'.meshes = none ∨ ∃ l, st'.meshes = some l ∧ l.length = own.mCount ∧
        st'.mCount = own.mCount) ∧
      ∀ i, i < own.mCount →
        renderIndex own st' i =
          if overrides meshOffsets model mask i = true then some (model.mStart + i)
          else renderIndex own st i := by
  have hsw : ∀ i, i < model.mCount → swapsPart meshOffsets model mask i = true →
      i < own.mCount := fun i hi hs => hin i ((overrides_iff _ _ _ _).mpr ⟨hi, hs⟩)
  -- the table the loop starts from
  have key : ∀ l : List Nat, l.length = own.mCount →
      ∃ l', (List.range model.mCount).foldlM (meshSwapStep meshOffsets model mask) (some l) =
          some (some l') ∧ l'.length = own.mCount ∧
        ∀ i, l'[i]? = if overrides meshOffsets model mask i = true
          then some (model.mStart + i) else l[i]? := by
    intro l hl
    obtain ⟨l', h1, h2, h3⟩ := meshSwap_loop_table meshOffsets model mask l model.mCount
      (fun i hi hs => by rw [hl]; exact hsw i hi hs)
    refine ⟨l', h1, h2.trans hl, fun i => ?_⟩
    rw [h3 i]
    by_cases ho : overrides meshOffsets model mask i = true
    · rw [if_pos ((overrides_iff _ _ _ _).mp ho), if_pos ho]
    · rw [if_neg (fun h => ho ((overrides_iff _ _ _ _).mpr h)), if_neg ho]
  rcases hst with hnone | ⟨l, hl, hlen, hcount⟩
  · by_cases h0 : own.mCount = 0
    · have hnull := meshSwap_loop_null meshOffsets model mask model.mCount (fun i hi => by
        by_contra hs
        have := hsw i hi (by simpa using hs)
        omega)
      refine ⟨{ initMeshOverrides own with meshes := none }, ?_, rfl, fun h => absurd h0 h,
        Or.inl rfl, fun i hi => by omega⟩
      simp [meshSwap, hnone, initMeshOverrides, h0, hnull]
    · obtain ⟨l', h1, h2, h3⟩ := key ((List.range own.mCount).map (fun i => own.mStart + i))
        (by simp)
      refine ⟨{ initMeshOverrides own with meshes := some l' }, ?_, rfl, fun _ => ⟨l', rfl, h2⟩,
        Or.inr ⟨l', rfl, h2, rfl⟩, fun i hi => ?_⟩
      · simp [meshSwap, hnone, initMeshOverrides, h0, h1]
      · have hst0 : renderIndex own st i = some (own.mStart + i) := by
          simp [renderIndex, hnone]
        have hinit := initMeshOverrides_get own i hi
        simp only [renderIndex, initMeshOverrides, h0, ne_eq, not_false_eq_true, if_true] at hinit
        rw [hst0]
        show l'[i]? = _
        rw [h3 i, hinit]
  · obtain ⟨l', h1, h2, h3⟩ := key l hlen
    refine ⟨{ st with meshes := some l' }, ?_, hcount, fun _ => ⟨l', rfl, h2⟩,
      Or.inr ⟨l', rfl, h2, hcount⟩, fun i _ => ?_⟩
    · simp [meshSwap, hl, h1]
    · show l'[i]? = _
      rw [h3 i]
      simp [renderIndex, hl]

/-- C15. The mesh-override table defaults to the identity mapping.  On a controller
with no table, the first `meshSwap(model, mask)` leaves a table of the part
count of the own model in which each part that is not overridden maps to the
own mesh `own.mStart + i`, the index `render` uses when there is no table,
and each overridden part maps to `model.mStart + i`; a later `meshSwap`
changes the parts it overrides and no others.  The parts overridden are taken
to be parts of the own model, so that every write stays inside the table. -/
theorem meshSwap_identity_default (meshOffsets : Nat → Nat) (own : Model) (st0 : Meshes)
    (model : Model) (mask : Nat)
    (hnone : st0.meshes = none)
    (hin : ∀ i, overrides meshOffsets model mask i = true → i < own.mCount) :
    ∃ st1, meshSwap meshOffsets own st0 model mask = some st1 ∧
      st1.mCount = own.mCount ∧
      (own.mCount ≠ 0 → ∃ l, st1.meshes = some l ∧ l.length = own.mCount) ∧
      (∀ i, i < own.mCount →
        renderIndex own st1 i =
          some (if overrides meshOffsets model mask i = true then model.mStart + i
                else own.mStart + i)) ∧
      (∀ i, i < own.mCount → overrides meshOffsets model mask i = false →
        renderIndex own st1 i = renderIndex own st0 i) ∧
      (∀ (model2 : Model) (mask2 : Nat),
        (∀ i, overrides meshOffsets model2 mask2 i = true → i < own.mCount) →
        ∃ st2, meshSwap meshOffsets own st1 model2 mask2 = some st2 ∧
          ∀ i, i < own.mCount →
            renderIndex own st2 i =
              if overrides meshOffsets model2 mask2 i = true then some (model2.mStart + i)
              else renderIndex own st1 i) := by
  obtain ⟨st1, h1, h2, h3, h4, h5⟩ := meshSwap_spec meshOffsets own st0 model mask
    (Or.inl hnone) hin
  have hst0 : ∀ i, renderIndex own st0 i = some (own.mStart + i) := fun i => by
    simp [renderIndex, hnone]
  refine ⟨st1, h1, h2, h3, ?_, ?_, ?_⟩
  · intro i hi
    rw [h5 i hi, hst0]
    split_ifs <;> rfl
  · intro i hi ho
    rw [h5 i hi, ho]
    simp
  · intro model2 mask2 hin2
    obtain ⟨st2, g1, _, _, _, g5⟩ := meshSwap_spec meshOffsets own st1 model2 mask2 h4 hin2
    exact ⟨st2, g1, g5⟩

theorem meshSwap_identity_default_witness :
    ∃ st1, meshSwap demoOffsets ⟨100, 4⟩ ⟨none, 0⟩ ⟨200, 3⟩ 5 = some st1 ∧
      st1.mCount = 4 ∧
      renderIndex ⟨100, 4⟩ st1 0 = some 200 ∧ renderIndex ⟨100, 4⟩ st1 1 = some 101 ∧
      renderIndex ⟨100, 4⟩ st1 2 = some 102 ∧ renderIndex ⟨100, 4⟩ st1 3 = some 103 := by
  obtain ⟨st1, h1, h2, _, h4, _⟩ := meshSwap_identity_default demoOffsets ⟨100, 4⟩ ⟨none, 0⟩
    ⟨200, 3⟩ 5 rfl (fun i h => by
      have := ((overrides_iff demoOffsets ⟨200, 3⟩ 5 i).mp h).1
      show i < 4
      have h3 : i < 3 := this
      omega)
  have e0 : overrides demoOffsets ⟨200, 3⟩ 5 0 = true := by decide
  have e1 : overrides demoOffsets ⟨200, 3⟩ 5 1 = false := by decide
  have e2 : overrides demoOffsets ⟨200, 3⟩ 5 2 = false := by decide
  have e3 : overrides demoOffsets ⟨200, 3⟩ 5 3 = false := by decide
  have g0 := h4 0 (by decide)
  have g1 := h4 1 (by decide)
  have g2 := h4 2 (by decide)
  have g3 := h4 3 (by decide)
  rw [e0] at g0
  rw [e1] at g1
  rw [e2] at g2
  rw [e3] at g3
  exact ⟨st1, h1, h2, g0, g1, g2, g3⟩

/-- The example swap evaluated: part 0 takes mesh 200 of the swap model, part 1 is
masked out, part 2 has no mesh offset, part 3 is no part of the swap model.  A
swap model with more overridden parts than the own model has parts writes past
the table. -/
theorem meshSwap_demo :
    meshSwap demoOffsets ⟨100, 4⟩ ⟨none, 0⟩ ⟨200, 3⟩ 5 = some ⟨some [200, 101, 102, 103], 4⟩ ∧
    meshSwap demoOffsets ⟨100, 2⟩ ⟨none, 0⟩ ⟨300, 3⟩ 7 = none := by
  decide

/-! ## Animation update: what happens at the end of an animation -/

/-- C17. Animation end handling in `updateAnimation`.  Let `r` be the state in
which the test of `animation.isEnded` is reached.  If the flag is set, the
calls made from there are, in this order, `cmdOffset(animation.offset)` if and
only if the pending offset is non-zero, `cmdJump(animation.jump)` if and only
if the jump pending at that moment is non-zero (the pending jump of `r` when
`cmdOffset` leaves it alone), `animation.playNext()` once and
`activateNext()` once.  If the flag is clear none of them is called and
`framePrev` becomes `frameIndex`, nothing else changing. -/
theorem updateAnimation_end_handling (E : AnimEnv) (commands : Bool) (a : Actor) (r : AnimRun) :
    Controller.updateAnimation E commands a =
      Controller.updateAnimationEnd E (Controller.updateAnimationHead E commands a) ∧
    (r.actor.animation.isEnded = true →
      ∃ mid : Actor,
        mid = (if r.actor.animation.offset.nonZero
          then E.cmdOffset r.actor r.actor.animation.offset else r.actor) ∧
        (Controller.updateAnimationEnd E r).calls =
          r.calls ++
            (if r.actor.animation.offset.nonZero
              then [Call.cmdOffset r.actor.animation.offset] else []) ++
            (if mid.animation.jump.nonZero then [Call.cmdJump mid.animation.jump] else []) ++
            [Call.playNext, Call.activateNext] ∧
        ((∀ x v, (E.cmdOffset x v).animation.jump = x.animation.jump) →
          mid.animation.jump = r.actor.animation.jump)) ∧
    (r.actor.animation.isEnded = false →
      (Controller.updateAnimationEnd E r).calls = r.calls ∧
      (Controller.updateAnimationEnd E r).actor.animation.framePrev =
        r.actor.animation.frameIndex ∧
      (Controller.updateAnimationEnd E r).actor =
        { r.actor with animation :=
            { r.actor.animation with framePrev := r.actor.animation.frameIndex } }) := by
  refine ⟨rfl, ?_, ?_⟩
  · intro hend
    refine ⟨_, rfl, ?_, ?_⟩
    · unfold Controller.updateAnimationEnd
      by_cases ho : r.actor.animation.offset.nonZero = true
      · by_cases hj : (E.cmdOffset r.actor r.actor.animation.offset).animation.jump.nonZero = true
        · simp [hend, ho, hj, AnimRun.invoke]
        · simp [hend, ho, hj, AnimRun.invoke]
      · by_cases hj : r.actor.animation.jump.nonZero = true
        · simp [hend, ho, hj, AnimRun.invoke]
        · simp [hend, ho, hj, AnimRun.invoke]
    · intro hkeep
      split_ifs
      · exact hkeep _ _
      · rfl
  · intro hend
    unfold Controller.updateAnimationEnd
    simp [hend]

/-- The end of the animation evaluated on the examples: with a pending offset and
no pending jump the calls are `cmdOffset`, `playNext`, `activateNext`; while
the animation runs there is no call after `animation.update()`. -/
theorem updateAnimation_demo :
    (Controller.updateAnimation demoAnimEnv true
        (demoActor true ⟨0, 0, 64⟩ vec3.zero)).calls =
      [Call.animationUpdate, Call.cmdOffset ⟨0, 0, 64⟩, Call.playNext, Call.activateNext] ∧
    (Controller.updateAnimation demoAnimEnv true
        (demoActor false ⟨0, 0, 64⟩ ⟨0, -50, 0⟩)).calls = [Call.animationUpdate] := by
  decide

/-! ## The ray march: what each part of the loop body touches -/

theorem marchQuery_fields (sc : Scene) (s : March) :
    (marchQuery sc s).pos = s.pos ∧ (marchQuery sc s).dir = s.dir ∧
    (marchQuery sc s).dist = s.dist ∧ (marchQuery sc s).px = s.px ∧
    (marchQuery sc s).py = s.py ∧ (marchQuery sc s).pz = s.pz := by
  unfold marchQuery
  simp only []
  split_ifs <;> exact ⟨rfl, rfl, rfl, rfl, rfl, rfl⟩

theorem marchSight_fields (s : March) :
    (marchSight s).1.pos = s.pos ∧ (marchSight s).1.dir = s.dir ∧
    (marchSight s).1.dist = s.dist ∧ (marchSight s).1.py = s.py ∧
    (marchSight s).1.info = s.info := by
  unfold marchSight
  simp only []
  split_ifs <;> exact ⟨rfl, rfl, rfl, rfl, rfl⟩

theorem marchCamera_fields (sc : Scene) (g : Geometry) (origin : vec3) (s : March) :
    (marchCamera sc g origin s).dist = s.dist ∧ (marchCamera sc g origin s).info = s.info ∧
    (marchCamera sc g origin s).py = s.py := by
  unfold marchCamera
  simp only []
  split_ifs <;> exact ⟨rfl, rfl, rfl⟩

theorem marchAdvance_fields (sc : Scene) (s : March) :
    (marchAdvance sc s).dist = s.dist - min s.dist 32 ∧
    (marchAdvance sc s).pos = sc.add s.pos (sc.scale s.dir (min s.dist 32)) ∧
    (marchAdvance sc s).dir = s.dir ∧ (marchAdvance sc s).room = s.room ∧
    (marchAdvance sc s).info = s.info ∧
    (marchAdvance sc s).py = toInt (marchAdvance sc s).pos.y :=
  ⟨rfl, rfl, rfl, rfl, rfl, rfl⟩

/-- One pass through the loop body: a pass that ends with `break` is a pass of the
sight branch and moves nothing; any other pass takes `min(dist, 32)` from the
remaining distance and advances by that much along the direction it ends
with, from the point the branch left. -/
theorem marchBody_spec (sc : Scene) (g : Geometry) (isCamera : Bool) (origin : vec3)
    (s : March) :
    ((marchBody sc g isCamera origin s).2 = true →
      isCamera = false ∧
      (marchBody sc g isCamera origin s).1 = (marchSight (marchQuery sc s)).1 ∧
      (marchSight (marchQuery sc s)).2 = true ∧
      (marchBody sc g isCamera origin s).1.dist = s.dist ∧
      (marchBody sc g isCamera origin s).1.pos = s.pos) ∧
    ((marchBody sc g isCamera origin s).2 = false →
      (marchBody sc g isCamera origin s).1.dist = s.dist - min s.dist 32 ∧
      (isCamera = false →
        (marchBody sc g isCamera origin s).1.dir = s.dir ∧
        (marchBody sc g isCamera origin s).1.pos =
          sc.add s.pos (sc.scale s.dir (min s.dist 32))) ∧
      (isCamera = true →
        (marchBody sc g isCamera origin s).1.pos =
          sc.add (marchCamera sc g origin (marchQuery sc s)).pos
            (sc.scale (marchBody sc g isCamera origin s).1.dir (min s.dist 32))) ∧
      (marchBody sc g isCamera origin s).1.py =
        toInt (marchBody sc g isCamera origin s).1.pos.y) := by
  obtain ⟨q1, q2, q3, _, _, _⟩ := marchQuery_fields sc s
  obtain ⟨t1, t2, t3, _, _⟩ := marchSight_fields (marchQuery sc s)
  obtain ⟨c1, _, _⟩ := marchCamera_fields sc g origin (marchQuery sc s)
  cases isCamera with
  | true =>
    have hbody : marchBody sc g true origin s =
        (marchAdvance sc (marchCamera sc g origin (marchQuery sc s)), false) := by
      simp [marchBody]
    rw [hbody]
    refine ⟨fun h => (by cases h), fun _ => ⟨?_, fun h => (by cases h), fun _ => ?_, rfl⟩⟩
    · rw [(marchAdvance_fields sc _).1, c1, q3]
    · show (marchAdvance sc _).pos = sc.add _ (sc.scale (marchAdvance sc _).dir _)
      rw [(marchAdvance_fields sc _).2.1, (marchAdvance_fields sc _).2.2.1, c1, q3]
  | false =>
    by_cases hb : (marchSight (marchQuery sc s)).2 = true
    · have hbody : marchBody sc g false origin s = marchSight (marchQuery sc s) := by
        simp [marchBody, hb]
      rw [hbody]
      refine ⟨fun _ => ⟨rfl, rfl, hb, by rw [t3, q3], by rw [t1, q1]⟩, fun h => ?_⟩
      rw [hb] at h; cases h
    · have hbody : marchBody sc g false origin s =
          (marchAdvance sc (marchSight (marchQuery sc s)).1, false) := by
        simp [marchBody, hb]
      rw [hbody]
      refine ⟨fun h => (by cases h), fun _ => ⟨?_, fun _ => ⟨?_, ?_⟩, fun h => (by cases h), rfl⟩⟩
      · rw [(marchAdvance_fields sc _).1, t3, q3]
      · rw [(marchAdvance_fields sc _).2.2.1, t2, q2]
      · rw [(marchAdvance_fields sc _).2.1, t1, q1, t2, q2, t3, q3]

/-! ## The ray march: one step of at most 32 units -/

theorem min_step_bounds (d : ℚ) (h : 1 < d) :
    0 ≤ d - min d 32 ∧ d - min d 32 < d ∧ (∀ n : Nat, d ≤ 32 * ((n + 1 : Nat) : ℚ) →
      d - min d 32 ≤ 32 * (n : ℚ)) := by
  rcases le_total d 32 with h32 | h32
  · rw [min_eq_left h32]
    refine ⟨by linarith, by linarith, fun n _ => ?_⟩
    have : (0 : ℚ) ≤ (n : ℚ) := Nat.cast_nonneg n
    linarith
  · rw [min_eq_right h32]
    refine ⟨by linarith, by linarith, fun n hn => ?_⟩
    push_cast at hn
    linarith

/-! ## The ray march in sight mode: where an early stop leaves the point -/

/-- C13, as stated, fails: marching in camera mode from `(0, 0, 0)` to
`(0, 32, 0)` in room 0, whose floor is at height 20 with room 1 below it, the
only point the loop examines is `(0, 0, 0)`; the returned point `(0, 32, 0)`
is beyond the room floor with a room below available, and the returned room is
still room 0. -/
theorem trace_camera_counterexample :
    trace (floorScene 1) demoGeometry 1 0 ⟨0, 0, 0⟩ ⟨0, 32, 0⟩ true = some (⟨0, 32, 0⟩, 0) ∧
    (32 : Int) > ((floorScene 1).getFloorInfo 0 512 32 512).roomFloor ∧
    ((floorScene 1).getFloorInfo 0 512 32 512).roomBelow ≠ 0xFF ∧
    ((floorScene 1).getFloorInfo 0 512 32 512).roomBelow ≠ 0 := by
  refine ⟨?_, by decide, by decide, by decide⟩
  simp [trace, marchLoop, marchInit, marchBody, marchQuery, marchCamera, marchAdvance,
    floorScene, demoScene, demoGeometry, toInt]

/-- C13, amended. In camera mode the loop of `trace` never stops early, and at each
step point it examines, with the floor info in force after the query: if the
point is beyond the room floor and there is a room below, the current room
becomes that room before the march advances; failing that, if the point is
above the room ceiling and there is a room above, the current room becomes
that room.  When the pass is the last one, the room so chosen is the room
returned.  The final returned point is not examined. -/
theorem trace_camera_room_switch (sc : Scene) (g : Geometry) (origin : vec3) (s : March) :
    (marchBody sc g true origin s).2 = false ∧
    ((marchQuery sc s).py > (marchQuery sc s).info.roomFloor ∧
        (marchQuery sc s).info.roomBelow ≠ 0xFF →
      (marchBody sc g true origin s).1.room = (marchQuery sc s).info.roomBelow) ∧
    (¬ ((marchQuery sc s).py > (marchQuery sc s).info.roomFloor ∧
          (marchQuery sc s).info.roomBelow ≠ 0xFF) →
      (marchQuery sc s).py < (marchQuery sc s).info.roomCeiling ∧
        (marchQuery sc s).info.roomAbove ≠ 0xFF →
      (marchBody sc g true origin s).1.room = (marchQuery sc s).info.roomAbove) ∧
    (∀ fuel : Nat, 1 < s.dist → s.dist ≤ 33 →
      marchLoop sc g true origin (fuel + 1) s = some ((marchBody sc g true origin s).1, false) ∧
      (marchBody sc g true origin s).1.room =
        (marchCamera sc g origin (marchQuery sc s)).room) := by
  have hbody : marchBody sc g true origin s =
      (marchAdvance sc (marchCamera sc g origin (marchQuery sc s)), false) := by
    simp [marchBody]
  refine ⟨by rw [hbody], ?_, ?_, ?_⟩
  · intro h
    rw [hbody]
    show (marchCamera sc g origin (marchQuery sc s)).room = _
    unfold marchCamera
    rw [if_pos h]
  · intro hn h
    rw [hbody]
    show (marchCamera sc g origin (marchQuery sc s)).room = _
    unfold marchCamera
    rw [if_neg hn, if_pos h]
  · intro fuel h1 h33
    have hd : (marchBody sc g true origin s).1.dist = s.dist - min s.dist 32 :=
      ((marchBody_spec sc g true origin s).2 (by rw [hbody])).1
    have hle : ¬ (marchBody sc g true origin s).1.dist > 1 := by
      rw [hd]
      rcases le_total s.dist 32 with h32 | h32
      · rw [min_eq_left h32]; intro h; linarith
      · rw [min_eq_right h32]; intro h; linarith
    refine ⟨?_, by rw [hbody]; rfl⟩
    have hgt : s.dist > 1 := h1
    have hflag : (marchBody sc g true origin s).2 = false := by rw [hbody]
    rw [marchLoop]
    simp only [hgt, if_true, hflag]
    cases fuel with
    | zero => simp [marchLoop, hle]
    | succ k => simp [marchLoop, hle]

/-! ## Overrides without a positive countdown -/

/-- The countdown block of `Camera::update`, case by case: it does nothing unless
the countdown is positive, only decrements a countdown that stays positive, and
resets countdown and overrides when the countdown reaches zero or less. -/
theorem Camera.updateTimer_cases (f : Frame) (cam : Controller) :
    (cam.timer ≤ 0 → Camera.updateTimer f cam = cam) ∧
    (0 < cam.timer → ¬ cam.timer - f.deltaTime ≤ 0 →
      Camera.updateTimer f cam = { cam with timer := cam.timer - f.deltaTime }) ∧
    (0 < cam.timer → cam.timer - f.deltaTime ≤ 0 →
      (Camera.updateTimer f cam).timer = 0 ∧ (Camera.updateTimer f cam).actCamera = -1 ∧
      (Camera.updateTimer f cam).actTargetEntity = -1) := by
  refine ⟨?_, ?_, ?_⟩
  · intro h
    have hno : ¬ cam.timer > 0 := not_lt.mpr h
    simp [Camera.updateTimer, hno]
  · intro hpos hno
    simp [Camera.updateTimer, hpos, hno]
  · intro hpos hex
    unfold Camera.updateTimer
    simp only [gt_iff_lt, hpos, if_true, hex]
    split_ifs <;> refine ⟨?_, ?_, ?_⟩ <;> first | rfl | trivial

/-- A tick on a camera whose countdown is not positive leaves the countdown and
both overrides as they are. -/
theorem Camera.update_idle (f : Frame) (cam : Controller) (h : cam.timer ≤ 0) :
    (Camera.update f cam).1.timer = cam.timer ∧
    (Camera.update f cam).1.actCamera = cam.actCamera ∧
    (Camera.update f cam).1.actTargetEntity = cam.actTargetEntity := by
  obtain ⟨u1, u2, u3, _⟩ := Camera.update_fields f cam
  rw [u1, u2, u3, (Camera.updateTimer_cases f cam).1 h]
  exact ⟨rfl, rfl, rfl⟩

/-- Any sequence of ticks on a camera whose countdown is not positive leaves the
countdown and both overrides as they are. -/
theorem Camera.run_idle :
    ∀ (frames : List Frame) (cam : Controller), cam.timer ≤ 0 →
      (Camera.run cam frames).timer = cam.timer ∧
      (Camera.run cam frames).actCamera = cam.actCamera ∧
      (Camera.run cam frames).actTargetEntity = cam.actTargetEntity := by
  intro frames
  induction frames with
  | nil => intro cam _; exact ⟨rfl, rfl, rfl⟩
  | cons g rest ih =>
    intro cam h
    obtain ⟨u1, u2, u3⟩ := Camera.update_idle g cam h
    obtain ⟨r1, r2, r3⟩ := ih (Camera.update g cam).1 (by rw [u1]; exact h)
    rw [Camera.run_cons, r1, r2, r3, u1, u2, u3]
    exact ⟨rfl, rfl, rfl⟩

/-- C21. An override without a positive countdown is never released by ticking.
If the countdown of the camera is `≤ 0`, then after any sequence of
`Camera::update` ticks, whatever their steps, `timer`, `actCamera` and
`actTargetEntity` are what they were.  A tick changes an override only if the
countdown is positive before it and `≤ 0` after its decrement, and such a tick
leaves the countdown 0 and both overrides -1.  `Camera::activate` reaches such
a state on the camera of the level whenever the last non-zero timer among its
command and the camera links after it is not positive (or none is non-zero on a
camera whose countdown is not positive): the overrides it records then outlive
every sequence of ticks; a command with no following link does so when its
timer is negative, or is 0 on a camera whose countdown is not positive. -/
theorem camera_override_without_countdown (cam : Controller) (frames : List Frame)
    (htimer : cam.timer ≤ 0) :
    ((Camera.run cam frames).timer = cam.timer ∧
      (Camera.run cam frames).actCamera = cam.actCamera ∧
      (Camera.run cam frames).actTargetEntity = cam.actTargetEntity) ∧
    (∀ (f : Frame) (c : Controller),
      ((Camera.update f c).1.actCamera ≠ c.actCamera ∨
        (Camera.update f c).1.actTargetEntity ≠ c.actTargetEntity) →
      0 < c.timer ∧ c.timer - f.deltaTime ≤ 0) ∧
    (∀ (f : Frame) (c : Controller), 0 < c.timer → c.timer - f.deltaTime ≤ 0 →
      (Camera.update f c).1.timer = 0 ∧ (Camera.update f c).1.actCamera = -1 ∧
      (Camera.update f c).1.actTargetEntity = -1) ∧
    (∀ (cmds : Nat → ActionCommand) (ext : Handler) (w : World) (a cmd : Nat) (run : List Nat)
        (fuel : Nat),
      w.cameraController = some a → (w.controllers a).kind = Kind.camera →
      CameraRun cmds w a cmd run → run.length + 1 ≤ fuel →
      Camera.lastTimer cmds (w.controllers a).timer (cmd :: run) ≤ 0 →
      ∃ w', Camera.activate cmds (activateNext cmds ext fuel) w a cmd = some (w', true) ∧
        (w'.controllers a).timer ≤ 0 ∧
        (w'.controllers a).actCamera =
          Camera.lastSwitch cmds (w.controllers a).actCamera (cmd :: run) ∧
        (w'.controllers a).actTargetEntity =
          Camera.lastTarget cmds (w.controllers a).actTargetEntity (cmd :: run) ∧
        ∀ later : List Frame,
          (Camera.run (w'.controllers a) later).timer = (w'.controllers a).timer ∧
          (Camera.run (w'.controllers a) later).actCamera = (w'.controllers a).actCamera ∧
          (Camera.run (w'.controllers a) later).actTargetEntity =
            (w'.controllers a).actTargetEntity) ∧
    (∀ (cmds : Nat → ActionCommand) (cmd : Nat) (t : ℚ),
      ((cmds cmd).timer < 0 ∨ ((cmds cmd).timer = 0 ∧ t ≤ 0)) →
      Camera.lastTimer cmds t [cmd] ≤ 0) := by
  refine ⟨Camera.run_idle frames cam htimer, ?_, ?_, ?_, ?_⟩
  · intro f c hch
    obtain ⟨_, u2, u3, _⟩ := Camera.update_fields f c
    obtain ⟨t1, t2, _⟩ := Camera.updateTimer_cases f c
    by_cases hpos : 0 < c.timer
    · by_cases hex : c.timer - f.deltaTime ≤ 0
      · exact ⟨hpos, hex⟩
      · exfalso
        rw [u2, u3, t2 hpos hex] at hch
        rcases hch with h | h <;> exact h rfl
    · exfalso
      rw [u2, u3, t1 (not_lt.mp hpos)] at hch
      rcases hch with h | h <;> exact h rfl
  · intro f c hpos hex
    obtain ⟨u1, u2, u3, _⟩ := Camera.update_fields f c
    obtain ⟨t1, t2, t3⟩ := (Camera.updateTimer_cases f c).2.2 hpos hex
    exact ⟨by rw [u1, t1], by rw [u2, t2], by rw [u3, t3]⟩
  · intro cmds ext w a cmd run fuel hcam hkind hrun hfuel hle
    obtain ⟨s1, s2, _, _, s5, s6⟩ := Camera.applyCommand_spec cmds w a cmd
    obtain ⟨w5, h5, _, _, r3, r4, r5⟩ := activateNext_cameraRun cmds ext w a hcam cmd run hrun
      (Camera.applyCommand cmds w a cmd) fuel s5 s6 s2 (by rw [s1]; exact hkind)
      (by rw [s1]) hfuel
    have h3 : (w5.controllers a).timer =
        Camera.lastTimer cmds (w.controllers a).timer (cmd :: run) := by
      rw [r3, s1]; rfl
    refine ⟨w5, by simp [Camera.activate, h5], by rw [h3]; exact hle, ?_, ?_, ?_⟩
    · rw [r4, s1]; rfl
    · rw [r5, s1]; rfl
    · intro later
      exact Camera.run_idle later (w5.controllers a) (by rw [h3]; exact hle)
  · intro cmds cmd t h
    show (if (cmds cmd).timer ≠ 0 then (cmds cmd).timer else t) ≤ 0
    rcases h with h | ⟨h0, ht⟩
    · rw [if_pos (ne_of_lt h)]; exact le_of_lt h
    · rw [if_neg (not_not.mpr h0)]; exact ht

theorem camera_override_without_countdown_witness :
    demoCameraUntimed.timer ≤ 0 ∧
    (Camera.run demoCameraUntimed [demoFrame (1 / 2), demoFrame 3, demoFrame 100]).timer = 0 ∧
    (Camera.run demoCameraUntimed [demoFrame (1 / 2), demoFrame 3, demoFrame 100]).actCamera = 7 ∧
    (Camera.run demoCameraUntimed
      [demoFrame (1 / 2), demoFrame 3, demoFrame 100]).actTargetEntity = -1 :=
  ⟨by decide,
    (camera_override_without_countdown demoCameraUntimed
      [demoFrame (1 / 2), demoFrame 3, demoFrame 100] (by decide)).1⟩

/-- The example links on the example camera: after `Camera::activate` on the switch
with timer 0 the camera is in the state `demoCameraUntimed`, and after `Camera::activate` on the target with timer -1 the countdown is -1
and the forced target 4. -/
theorem activate_untimed_demo :
    (Camera.activate untimedChain (activateNext untimedChain demoHandler 1) (demoWorld none)
        1 0).map (fun r => (r.1.controllers 1, r.2)) = some (demoCameraUntimed, true) ∧
    (Camera.activate untimedChain (activateNext untimedChain demoHandler 1) (demoWorld none)
        1 1).map (fun r => ((r.1.controllers 1).timer, (r.1.controllers 1).actTargetEntity,
          (r.1.controllers 1).actCamera, r.2)) = some (-1, 4, -1, true) := by
  constructor
  · simp [Camera.activate, Camera.applyCommand, Controller.activate, activateNext,
      activateNextBody, World.setActionCommand, World.modify, untimedChain, demoWorld,
      demoObject, demoCameraUntimed]
  · simp [Camera.activate, Camera.applyCommand, Controller.activate, activateNext,
      activateNextBody, World.setActionCommand, World.modify, untimedChain, demoWorld,
      demoObject]

/-! ## `updateEntity`: the yaw is brought into one turn -/

/-- The example controller written back: the entity gets `(1000, -300, 0)`, the yaw
`-1` becomes `-1 + 2 * PI` and is the rotation assigned; a yaw of 20 loses
three turns. -/
theorem updateEntity_demo :
    updateEntity (355 / 113) (fun y => y) (fun _ => -2 ^ 31) 1 demoTurned ⟨0, 0, 0, 0⟩ =
      some ({ demoTurned with angle := ⟨1 / 2, 597 / 113, 3⟩ }, ⟨1000, -300, 0, 597 / 113⟩) ∧
    updateEntity (355 / 113) (fun y => y) (fun _ => -2 ^ 31) 0 demoTurned
      (⟨0, 0, 0, 0⟩ : Entity ℚ) = none ∧
    wrapDown (355 / 113 : ℚ) 3 20 = some (130 / 113) ∧
    wrapDown (355 / 113 : ℚ) 2 20 = none := by
  refine ⟨?_, ?_, ?_, ?_⟩
  · simp [updateEntity, toInt32, wrapUp, wrapDown, demoTurned, demoObject, toInt]
    norm_num
    rw [Int.ceil_eq_iff]
    norm_num
  · simp [updateEntity, wrapUp, demoTurned]
  · simp [wrapDown]
    norm_num
  · simp [wrapDown]
    norm_num

/-! ## Float arithmetic: evaluating the rounding -/

theorem roundEven_of_near (x : ℚ) (m : Int) (h1 : (m : ℚ) - 1 / 2 < x) (h2 : x < m + 1 / 2) :
    roundEven x = m := by
  unfold roundEven
  by_cases hx : (m : ℚ) ≤ x
  · have hf : ⌊x⌋ = m := Int.floor_eq_iff.mpr ⟨hx, by linarith⟩
    rw [hf]
    have : x - m < 1 / 2 := by linarith
    rw [if_pos this]
  · have hf : ⌊x⌋ = m - 1 :=
      Int.floor_eq_iff.mpr ⟨by push_cast; linarith, by push_cast; linarith⟩
    rw [hf]
    have h3 : ¬ (x - ((m - 1 : Int) : ℚ) < 1 / 2) := by push_cast; linarith
    have h4 : 1 / 2 < x - ((m - 1 : Int) : ℚ) := by push_cast; linarith
    simp only [h3, h4, if_true, if_false]
    ring

theorem roundEven_of_tie (x : ℚ) (m : Int) (h : x = m + 1 / 2) :
    roundEven x = if m % 2 = 0 then m else m + 1 := by
  unfold roundEven
  have hf : ⌊x⌋ = m := Int.floor_eq_iff.mpr ⟨by linarith, by linarith⟩
  rw [hf]
  have h3 : ¬ (x - (m : ℚ) < 1 / 2) := by linarith
  have h4 : ¬ (1 / 2 < x - (m : ℚ)) := by linarith
  simp only [h3, h4, if_false]

theorem ulpExp_of_binade (q : ℚ) (e : Int) (he : -126 ≤ e) (hlo : (2 : ℚ) ^ e ≤ |q|)
    (hhi : |q| < (2 : ℚ) ^ (e + 1)) : ulpExp q = e - 23 := by
  have hpos : 0 < |q| := lt_of_lt_of_le (zpow_pos (by norm_num) e) hlo
  have h1 : e ≤ Int.log 2 |q| :=
    (Int.zpow_le_iff_le_log (by norm_num) hpos).mp (by exact_mod_cast hlo)
  have h2 : Int.log 2 |q| < e + 1 :=
    (Int.lt_zpow_iff_log_lt (by norm_num) hpos).mp (by exact_mod_cast hhi)
  have h3 : Int.log 2 |q| = e := by omega
  unfold ulpExp
  rw [h3, max_eq_left he]

/-- A number `q` of the binade `2^e ≤ |q| < 2^(e+1)` that lies less than half a
spacing from `m * 2^(e-23)` rounds to it. -/
theorem binary32_of_near (q : ℚ) (e m : Int) (he : -126 ≤ e) (hlo : (2 : ℚ) ^ e ≤ |q|)
    (hhi : |q| < (2 : ℚ) ^ (e + 1)) (h1 : ((m : ℚ) - 1 / 2) * 2 ^ (e - 23) < q)
    (h2 : q < ((m : ℚ) + 1 / 2) * 2 ^ (e - 23)) : binary32 q = m * 2 ^ (e - 23) := by
  have hp : (0 : ℚ) < 2 ^ (e - 23) := zpow_pos (by norm_num) _
  unfold binary32
  rw [ulpExp_of_binade q e he hlo hhi, roundEven_of_near _ m]
  · rw [lt_div_iff₀ hp]; exact h1
  · rw [div_lt_iff₀ hp]; exact h2

/-- A number `q` of the binade `2^e ≤ |q| < 2^(e+1)` that lies half-way between
two neighbours rounds to the one with the even multiplier. -/
theorem binary32_of_tie (q : ℚ) (e m : Int) (he : -126 ≤ e) (hlo : (2 : ℚ) ^ e ≤ |q|)
    (hhi : |q| < (2 : ℚ) ^ (e + 1)) (h : q = ((m : ℚ) + 1 / 2) * 2 ^ (e - 23)) :
    binary32 q = (if m % 2 = 0 then m else m + 1 : Int) * 2 ^ (e - 23) := by
  have hp : (0 : ℚ) < 2 ^ (e - 23) := zpow_pos (by norm_num) _
  unfold binary32
  rw [ulpExp_of_binade q e he hlo hhi, roundEven_of_tie _ m]
  rw [h]; field_simp; ring

theorem binary32_zero : binary32 0 = 0 := by
  simp [binary32, roundEven]

/-- Rounding leaves a number that binary32 holds as it is. -/
theorem binary32_of_isBinary32 (q : ℚ) (h : IsBinary32 q) : binary32 q = q := by
  obtain ⟨m, j, hm, hj, rfl⟩ := h
  by_cases hm0 : m = 0
  · subst hm0; simp [binary32_zero]
  have h2 : (0 : ℚ) < 2 := by norm_num
  have hpj : (0 : ℚ) < 2 ^ j := zpow_pos h2 j
  have habs : |(m : ℚ) * 2 ^ j| = |(m : ℚ)| * 2 ^ j := by
    rw [abs_mul, abs_of_pos hpj]
  have hmq : |(m : ℚ)| < 2 ^ 24 := by
    have : ((|m| : Int) : ℚ) < ((2 ^ 24 : Int) : ℚ) := by exact_mod_cast hm
    simpa using this
  have hpos : 0 < |(m : ℚ) * 2 ^ j| := by
    rw [habs]
    exact mul_pos (abs_pos.mpr (by exact_mod_cast hm0)) hpj
  have hlt : |(m : ℚ) * 2 ^ j| < (2 : ℚ) ^ (24 + j) := by
    rw [habs, zpow_add₀ (by norm_num : (2 : ℚ) ≠ 0)]
    have h24 : (2 : ℚ) ^ (24 : Int) = 2 ^ (24 : Nat) := by norm_num
    rw [h24]
    exact mul_lt_mul_of_pos_right hmq hpj
  have hlog : Int.log 2 |(m : ℚ) * 2 ^ j| < 24 + j :=
    (Int.lt_zpow_iff_log_lt (by norm_num) hpos).mp (by exact_mod_cast hlt)
  have hu : ulpExp ((m : ℚ) * 2 ^ j) ≤ j := by
    unfold ulpExp
    rcases max_cases (Int.log 2 |(m : ℚ) * 2 ^ j|) (-126) with ⟨h, _⟩ | ⟨h, _⟩ <;> rw [h] <;> omega
  obtain ⟨n, hn⟩ : ∃ n : Nat, j = ulpExp ((m : ℚ) * 2 ^ j) + n :=
    ⟨(j - ulpExp ((m : ℚ) * 2 ^ j)).toNat, by omega⟩
  have hpu : (0 : ℚ) < 2 ^ ulpExp ((m : ℚ) * 2 ^ j) := zpow_pos h2 _
  have hq : (m : ℚ) * 2 ^ j / 2 ^ ulpExp ((m : ℚ) * 2 ^ j) = ((m * 2 ^ n : Int) : ℚ) := by
    rw [div_eq_iff (ne_of_gt hpu)]
    conv_lhs => rw [hn]
    rw [zpow_add₀ (by norm_num : (2 : ℚ) ≠ 0), zpow_natCast]
    push_cast
    ring
  unfold binary32
  rw [hq, roundEven_of_near _ (m * 2 ^ n) (by linarith) (by linarith), ← hq]
  field_simp


/-- Taking 32 from a number of binary32 between 32 and `2^29` gives a number of
binary32: the subtraction is exact. -/
theorem isBinary32_sub_step (x : ℚ) (h : IsBinary32 x) (h32 : 32 ≤ x) (h29 : x < 2 ^ 29) :
    IsBinary32 (x - 32) := by
  obtain ⟨m, j, hm, hj, rfl⟩ := h
  have h2 : (0 : ℚ) < 2 := by norm_num
  have hpj : (0 : ℚ) < 2 ^ j := zpow_pos h2 j
  have hmpos : 0 < m := by
    have : (0 : ℚ) < m * 2 ^ j := by linarith
    have : (0 : ℚ) < m := by
      by_contra hc
      have := mul_nonpos_of_nonpos_of_nonneg (not_lt.mp hc) (le_of_lt hpj)
      linarith
    exact_mod_cast this
  have hm24 : m < 2 ^ 24 := lt_of_le_of_lt (le_abs_self m) hm
  rcases le_or_lt j 5 with hj5 | hj5
  · obtain ⟨n, hn⟩ : ∃ n : Nat, (5 : Int) = j + n := ⟨(5 - j).toNat, by omega⟩
    have e32 : (32 : ℚ) = ((2 ^ n : Int) : ℚ) * 2 ^ j := by
      have : (32 : ℚ) = 2 ^ (5 : Int) := by norm_num
      rw [this, hn, zpow_add₀ (by norm_num : (2 : ℚ) ≠ 0), zpow_natCast]
      push_cast
      ring
    have hge : (2 ^ n : Int) ≤ m := by
      have : ((2 ^ n : Int) : ℚ) * 2 ^ j ≤ m * 2 ^ j := by rw [← e32]; exact h32
      have := le_of_mul_le_mul_right this hpj
      exact_mod_cast this
    refine ⟨m - 2 ^ n, j, ?_, hj, ?_⟩
    · have hpow : (0 : Int) < 2 ^ n := by positivity
      rw [abs_of_nonneg (by omega)]
      omega
    · rw [e32]; push_cast; ring
  · obtain ⟨n, hn⟩ : ∃ n : Nat, j = 5 + n := ⟨(j - 5).toNat, by omega⟩
    have ex : (m : ℚ) * 2 ^ j = ((m * 2 ^ n : Int) : ℚ) * 32 := by
      rw [hn, zpow_add₀ (by norm_num : (2 : ℚ) ≠ 0), zpow_natCast]
      push_cast
      norm_num
      ring
    have hM : m * 2 ^ n < 2 ^ 24 := by
      have : ((m * 2 ^ n : Int) : ℚ) * 32 < 2 ^ 29 := by rw [← ex]; exact h29
      have h' : ((m * 2 ^ n : Int) : ℚ) < ((2 ^ 24 : Int) : ℚ) := by
        push_cast at this ⊢
        linarith
      exact_mod_cast h'
    have hM1 : 1 ≤ m * 2 ^ n := by
      have hpow : (1 : Int) ≤ 2 ^ n := one_le_pow₀ (by norm_num)
      nlinarith
    refine ⟨m * 2 ^ n - 1, 5, ?_, by norm_num, ?_⟩
    · rw [abs_of_nonneg (by omega)]
      omega
    · rw [ex]; push_cast; norm_num; ring

/-- From a distance `D` that binary32 holds, below `2^29`, every subtraction of the
march is exact in binary32. -/
theorem binary32_march_exact (D : ℚ) (hD : IsBinary32 D) (h29 : D < 2 ^ 29) :
    ∀ k : Nat, 32 * (k : ℚ) < D →
      binary32 (D - 32 * k - min (D - 32 * k) 32) = D - 32 * k - min (D - 32 * k) 32 := by
  have hrep : ∀ k : Nat, 32 * (k : ℚ) < D → IsBinary32 (D - 32 * k) := by
    intro k
    induction k with
    | zero => intro _; simpa using hD
    | succ n ih =>
      intro h
      push_cast at h
      have h1 := ih (by linarith)
      have h2 := isBinary32_sub_step (D - 32 * n) h1 (by linarith)
        (by have : (0 : ℚ) ≤ (n : ℚ) := Nat.cast_nonneg n
            linarith)
      have e : D - 32 * ((n + 1 : Nat) : ℚ) = D - 32 * n - 32 := by push_cast; ring
      rw [e]; exact h2
  intro k hk
  have hk' := hrep k hk
  have hn : (0 : ℚ) ≤ (k : ℚ) := Nat.cast_nonneg k
  rcases le_total (D - 32 * k) 32 with h | h
  · rw [min_eq_left h, sub_self, binary32_zero]
  · rw [min_eq_right h]
    exact binary32_of_isBinary32 _ (isBinary32_sub_step _ hk' h (by linarith))

/-- The literal `0.4f` is the number `tick04`. -/
theorem binary32_tick04 : binary32 (2 / 5) = tick04 := by
  rw [binary32_of_near (2 / 5) (-2) 13421773 (by norm_num) (by norm_num [abs_of_nonneg])
    (by norm_num [abs_of_nonneg]) (by norm_num) (by norm_num)]
  norm_num [tick04]

/-- The countdown from 2 in steps of `0.4f`, subtraction by subtraction: after
five steps it is `2^(-24)`, still positive, and after the sixth negative. -/
theorem binary32_countdown_steps :
    binary32 (2 - tick04) = 13421773 / 8388608 ∧
    binary32 (13421773 / 8388608 - tick04) = 5033165 / 4194304 ∧
    binary32 (5033165 / 4194304 - tick04) = 6710887 / 8388608 ∧
    binary32 (6710887 / 8388608 - tick04) = 13421775 / 33554432 ∧
    binary32 (13421775 / 33554432 - tick04) = 1 / 16777216 ∧
    binary32 (1 / 16777216 - tick04) = -(13421771 / 33554432) := by
  unfold tick04
  refine ⟨?_, ?_, ?_, ?_, ?_, ?_⟩
  · rw [binary32_of_near _ 0 13421773 (by norm_num) (by norm_num [abs_of_nonneg])
      (by norm_num [abs_of_nonneg]) (by norm_num) (by norm_num)]
    norm_num
  · rw [binary32_of_near _ 0 10066330 (by norm_num) (by norm_num [abs_of_nonneg])
      (by norm_num [abs_of_nonneg]) (by norm_num) (by norm_num)]
    norm_num
  · rw [binary32_of_tie _ (-1) 13421773 (by norm_num) (by norm_num [abs_of_nonneg])
      (by norm_num [abs_of_nonneg]) (by norm_num)]
    norm_num
  · rw [binary32_of_near _ (-2) 13421775 (by norm_num) (by norm_num [abs_of_nonneg])
      (by norm_num [abs_of_nonneg]) (by norm_num) (by norm_num)]
    norm_num
  · rw [binary32_of_near _ (-24) 8388608 (by norm_num) (by norm_num [abs_of_nonneg])
      (by norm_num [abs_of_nonneg]) (by norm_num) (by norm_num)]
    norm_num
  · rw [binary32_of_near _ (-2) (-13421771) (by norm_num) (by norm_num [abs_of_neg])
      (by norm_num [abs_of_neg]) (by norm_num) (by norm_num)]
    norm_num

/-! ## The countdown of the camera in float arithmetic -/

/-- With exact arithmetic the tick in float arithmetic is `Camera.update`. -/
theorem Camera.updateF_exact (f : Frame) (cam : Controller) :
    Camera.updateF exactOps f cam = Camera.update f cam := rfl

/-- The countdown block in float arithmetic, case by case. -/
theorem Camera.updateTimerF_cases (F : FloatOps) (f : Frame) (cam : Controller) :
    (cam.timer ≤ 0 → Camera.updateTimerF F f cam = cam) ∧
    (0 < cam.timer → 0 < F.rnd (cam.timer - f.deltaTime) →
      Camera.updateTimerF F f cam = { cam with timer := F.rnd (cam.timer - f.deltaTime) }) ∧
    (0 < cam.timer → F.rnd (cam.timer - f.deltaTime) ≤ 0 →
      (Camera.updateTimerF F f cam).timer = 0 ∧ (Camera.updateTimerF F f cam).actCamera = -1 ∧
      (Camera.updateTimerF F f cam).actTargetEntity = -1 ∧
      (Camera.updateTimerF F f cam).target = f.owner.viewPoint) := by
  refine ⟨?_, ?_, ?_⟩
  · intro h
    have hno : ¬ cam.timer > 0 := not_lt.mpr h
    simp [Camera.updateTimerF, hno]
  · intro hpos hno
    have hno' : ¬ F.rnd (cam.timer - f.deltaTime) ≤ 0 := not_le.mpr hno
    simp [Camera.updateTimerF, hpos, hno']
  · intro hpos hex
    unfold Camera.updateTimerF
    simp only [gt_iff_lt, hpos, if_true, hex]
    split_ifs <;> refine ⟨?_, ?_, ?_, ?_⟩ <;> first | rfl | trivial

/-- The countdown, the two overrides and (with no level camera active) the look
point after a tick in float arithmetic, in terms of the countdown block. -/
theorem Camera.updateF_fields (F : FloatOps) (f : Frame) (cam : Controller) :
    (Camera.updateF F f cam).1.timer = (Camera.updateTimerF F f cam).timer ∧
    (Camera.updateF F f cam).1.actCamera = (Camera.updateTimerF F f cam).actCamera ∧
    (Camera.updateF F f cam).1.actTargetEntity = (Camera.updateTimerF F f cam).actTargetEntity ∧
    (¬ (Camera.updateTimerF F f cam).actCamera > -1 → (Camera.updateF F f cam).1.target =
      f.scene.lerp (Camera.updateTimerF F f cam).target f.owner.viewPoint
        ((if Camera.lookAt f.owner cam = -1 then 6 else 10) * f.deltaTime)) := by
  obtain ⟨a1, a2, a3, a4⟩ := Camera.updateAngle_fields f (Camera.updateTimerF F f cam)
  obtain ⟨d1, d2, d3, d4⟩ := Camera.updateDest_fields f (Camera.lookAt f.owner cam)
    (Camera.updateAngle f (Camera.updateTimerF F f cam)).1
  obtain ⟨e1, e2, e3, e4⟩ := Camera.updateEye_fields f (Camera.lookAt f.owner cam)
    (Camera.updateDest f (Camera.lookAt f.owner cam)
      (Camera.updateAngle f (Camera.updateTimerF F f cam)).1)
  refine ⟨?_, ?_, ?_, ?_⟩
  · show (Camera.updateEye f _ _).timer = _
    rw [e1, d1, a1]
  · show (Camera.updateEye f _ _).actCamera = _
    rw [e2, d2, a2]
  · show (Camera.updateEye f _ _).actTargetEntity = _
    rw [e3, d3, a3]
  · intro h
    show (Camera.updateEye f _ _).target = _
    rw [e4, d4 (by rw [a2]; exact h), a4]

/-- A tick whose rounded decrement stays positive only replaces the countdown by
it. -/
theorem Camera.updateF_running (F : FloatOps) (f : Frame) (cam : Controller)
    (hpos : 0 < cam.timer) (h : 0 < F.rnd (cam.timer - f.deltaTime)) :
    (Camera.updateF F f cam).1.timer = F.rnd (cam.timer - f.deltaTime) ∧
    (Camera.updateF F f cam).1.actCamera = cam.actCamera ∧
    (Camera.updateF F f cam).1.actTargetEntity = cam.actTargetEntity := by
  obtain ⟨u1, u2, u3, _⟩ := Camera.updateF_fields F f cam
  rw [u1, u2, u3, (Camera.updateTimerF_cases F f cam).2.1 hpos h]
  exact ⟨rfl, rfl, rfl⟩

/-- A tick whose rounded decrement is not positive releases both overrides and
recentres the look point. -/
theorem Camera.updateF_expiry (F : FloatOps) (f : Frame) (cam : Controller)
    (hpos : 0 < cam.timer) (h : F.rnd (cam.timer - f.deltaTime) ≤ 0)
    (hlerp : ∀ a t, f.scene.lerp a a t = a) :
    (Camera.updateF F f cam).1.timer = 0 ∧
    (Camera.updateF F f cam).1.actCamera = -1 ∧
    (Camera.updateF F f cam).1.actTargetEntity = -1 ∧
    (Camera.updateF F f cam).1.target = f.owner.viewPoint := by
  obtain ⟨u1, u2, u3, u4⟩ := Camera.updateF_fields F f cam
  obtain ⟨t1, t2, t3, t4⟩ := (Camera.updateTimerF_cases F f cam).2.2 hpos h
  refine ⟨by rw [u1, t1], by rw [u2, t2], by rw [u3, t3], ?_⟩
  rw [u4 (by rw [t2]; decide), t4, hlerp]

theorem Camera.updateF_timer_nonneg (F : FloatOps) (f : Frame) (cam : Controller)
    (h : 0 ≤ cam.timer) : 0 ≤ (Camera.updateF F f cam).1.timer := by
  rw [(Camera.updateF_fields F f cam).1]
  obtain ⟨c1, c2, c3⟩ := Camera.updateTimerF_cases F f cam
  by_cases hpos : 0 < cam.timer
  · by_cases hex : F.rnd (cam.timer - f.deltaTime) ≤ 0
    · rw [(c3 hpos hex).1]
    · rw [c2 hpos (not_le.mp hex)]
      exact le_of_lt (not_le.mp hex)
  · rw [c1 (not_lt.mp hpos)]; exact h

theorem Camera.runF_cons (F : FloatOps) (cam : Controller) (g : Frame) (frames : List Frame) :
    Camera.runF F cam (g :: frames) = Camera.runF F (Camera.updateF F g cam).1 frames := rfl

theorem Camera.runF_append (F : FloatOps) (cam : Controller) (pre suf : List Frame) :
    Camera.runF F cam (pre ++ suf) = Camera.runF F (Camera.runF F cam pre) suf := by
  simp [Camera.runF, List.foldl_append]

theorem countdown_cons (F : FloatOps) (t : ℚ) (g : Frame) (frames : List Frame) :
    countdown F t (g :: frames) = countdown F (F.rnd (t - g.deltaTime)) frames := rfl

theorem countdown_append (F : FloatOps) (t : ℚ) (pre suf : List Frame) :
    countdown F t (pre ++ suf) = countdown F (countdown F t pre) suf := by
  simp [countdown, List.foldl_append]

/-- In exact arithmetic the running countdown is the start minus the time elapsed. -/
theorem countdown_exact : ∀ (frames : List Frame) (t : ℚ),
    countdown exactOps t frames = t - elapsed frames := by
  intro frames
  induction frames with
  | nil => intro t; simp [countdown, elapsed]
  | cons g rest ih =>
    intro t
    rw [countdown_cons, ih, elapsed_cons]
    show t - g.deltaTime - elapsed rest = _
    ring

/-- While the running countdown stays positive, ticking only replaces the
countdown by it. -/
theorem Camera.runF_running (F : FloatOps) :
    ∀ (frames : List Frame) (cam : Controller),
      (∀ pre suf, frames = pre ++ suf → 0 < countdown F cam.timer pre) →
      (Camera.runF F cam frames).timer = countdown F cam.timer frames ∧
      (Camera.runF F cam frames).actCamera = cam.actCamera ∧
      (Camera.runF F cam frames).actTargetEntity = cam.actTargetEntity := by
  intro frames
  induction frames with
  | nil => intro cam _; exact ⟨rfl, rfl, rfl⟩
  | cons g rest ih =>
    intro cam h
    have h0 : 0 < cam.timer := h [] (g :: rest) rfl
    have h1 : 0 < F.rnd (cam.timer - g.deltaTime) := h [g] rest rfl
    obtain ⟨u1, u2, u3⟩ := Camera.updateF_running F g cam h0 h1
    obtain ⟨r1, r2, r3⟩ := ih (Camera.updateF F g cam).1 (by
      intro pre suf hsplit
      rw [u1]
      have := h (g :: pre) suf (by rw [hsplit]; rfl)
      rwa [countdown_cons] at this)
    rw [Camera.runF_cons, countdown_cons, r1, r2, r3, u1, u2, u3]
    exact ⟨rfl, rfl, rfl⟩

/-! ## Countdown expiry -/

/-- The running countdown of the example: from 2 in ticks of `0.4f` it is positive
after each of the first five ticks and not positive after the sixth. -/
theorem countdown_tick04 :
    countdown binary32Ops 2 (List.replicate 5 (demoFrame tick04)) = 1 / 16777216 ∧
    countdown binary32Ops 2 (List.replicate 6 (demoFrame tick04)) ≤ 0 ∧
    ∀ pre suf, List.replicate 5 (demoFrame tick04) = pre ++ suf →
      0 < countdown binary32Ops 2 pre := by
  obtain ⟨c1, c2, c3, c4, c5, c6⟩ := binary32_countdown_steps
  have step : ∀ (t : ℚ) (l : List Frame), countdown binary32Ops t (demoFrame tick04 :: l) =
      countdown binary32Ops (binary32 (t - tick04)) l := fun _ _ => rfl
  have v : ∀ k : Nat, k ≤ 5 →
      0 < countdown binary32Ops 2 (List.replicate k (demoFrame tick04)) := by
    intro k hk
    interval_cases k <;> simp only [List.replicate] <;>
      (try simp only [step, c1, c2, c3, c4, c5]) <;> simp only [countdown, List.foldl] <;>
      norm_num
  refine ⟨?_, ?_, ?_⟩
  · simp only [List.replicate]
    simp only [step, c1, c2, c3, c4, c5]
    simp only [countdown, List.foldl]
  · simp only [List.replicate]
    simp only [step, c1, c2, c3, c4, c5, c6]
    simp only [countdown, List.foldl]
    norm_num
  · intro pre suf h
    obtain ⟨hlen, hpre, _⟩ := List.append_eq_replicate_iff.mp h.symm
    rw [hpre]
    exact v pre.length (by omega)

/-- C10, as stated, fails in the arithmetic of the program.  With the countdown
`T = 2` and ticks of `0.4f` (the `float` nearest to 0.4), the accumulated time
is below `T` after four ticks and exceeds `T` after five, but the countdown,
decremented with rounding, is still `2^(-24) > 0` after the fifth tick and the
camera switch is still active; the overrides are released by the sixth tick. -/
theorem camera_countdown_counterexample :
    binary32 (2 / 5) = tick04 ∧
    demoCamera.timer = 2 ∧ demoCamera.actCamera = 7 ∧
    elapsed (List.replicate 4 (demoFrame tick04)) < demoCamera.timer ∧
    demoCamera.timer ≤ elapsed (List.replicate 5 (demoFrame tick04)) ∧
    (Camera.runF binary32Ops demoCamera (List.replicate 5 (demoFrame tick04))).timer =
      1 / 16777216 ∧
    (Camera.runF binary32Ops demoCamera (List.replicate 5 (demoFrame tick04))).actCamera = 7 ∧
    (Camera.runF binary32Ops demoCamera (List.replicate 6 (demoFrame tick04))).actCamera = -1 := by
  obtain ⟨k5, k6, kpre⟩ := countdown_tick04
  obtain ⟨r1, r2, _⟩ := Camera.runF_running binary32Ops (List.replicate 5 (demoFrame tick04))
    demoCamera kpre
  have ht : demoCamera.timer = 2 := rfl
  rw [ht] at r1
  refine ⟨binary32_tick04, rfl, rfl, ?_, ?_, by rw [r1, k5], by rw [r2]; rfl, ?_⟩
  · rw [ht]; simp [elapsed, demoFrame, tick04]; norm_num
  · rw [ht]; simp [elapsed, demoFrame, tick04]; norm_num
  · have hsplit : List.replicate 6 (demoFrame tick04) =
        List.replicate 5 (demoFrame tick04) ++ [demoFrame tick04] := by
      simp [List.replicate]
    have key : ∀ c : Controller, c.timer = 1 / 16777216 →
        (Camera.runF binary32Ops c [demoFrame tick04]).actCamera = -1 := by
      intro c hc
      have h6 : binary32Ops.rnd (c.timer - (demoFrame tick04).deltaTime) ≤ 0 := by
        rw [hc]
        show binary32 (1 / 16777216 - tick04) ≤ 0
        rw [binary32_countdown_steps.2.2.2.2.2]
        norm_num
      exact (Camera.updateF_expiry binary32Ops (demoFrame tick04) c (by rw [hc]; norm_num) h6
        (fun a t => by simp [demoFrame, demoScene])).2.1
    rw [hsplit, Camera.runF_append]
    exact key _ (by rw [r1, k5])

/-- C10, amended. Countdown expiry in the arithmetic of the program.  The
countdown after each tick is the rounded difference `timer - deltaTime`.  If
this running countdown, started at `T = cam.timer > 0`, is positive after every
prefix of the ticks `frames` and not positive after the further tick `f`, then
after every prefix of `frames` both overrides are as set and the countdown is
the running one; at the end of `f` the countdown is 0, `actCamera` and
`actTargetEntity` are -1 and the look target is the view point of the owner
(blending a point toward itself giving that point); and an update that starts
with a countdown `≥ 0` never leaves a negative one.  In exact arithmetic the
running countdown is `T` minus the time elapsed, so that with positive steps
the overrides stay while the time elapsed is below `T`; with rounding the
releasing tick can come later than that. -/
theorem camera_countdown_expiry (F : FloatOps) (cam : Controller) (frames : List Frame)
    (f : Frame)
    (hrun : ∀ pre suf, frames = pre ++ suf → 0 < countdown F cam.timer pre)
    (hreach : countdown F cam.timer (frames ++ [f]) ≤ 0)
    (hlerp : ∀ a t, f.scene.lerp a a t = a) :
    (∀ pre suf, frames = pre ++ suf →
      (Camera.runF F cam pre).actCamera = cam.actCamera ∧
      (Camera.runF F cam pre).actTargetEntity = cam.actTargetEntity ∧
      (Camera.runF F cam pre).timer = countdown F cam.timer pre ∧
      0 < (Camera.runF F cam pre).timer) ∧
    ((Camera.runF F cam (frames ++ [f])).timer = 0 ∧
      (Camera.runF F cam (frames ++ [f])).actCamera = -1 ∧
      (Camera.runF F cam (frames ++ [f])).actTargetEntity = -1 ∧
      (Camera.runF F cam (frames ++ [f])).target = f.owner.viewPoint) ∧
    (∀ (g : Frame) (c : Controller), 0 ≤ c.timer → 0 ≤ (Camera.updateF F g c).1.timer) ∧
    (∀ (t : ℚ) (l : List Frame), countdown exactOps t l = t - elapsed l) ∧
    (∀ l : List Frame, (∀ g ∈ l, 0 < g.deltaTime) → elapsed l < cam.timer →
      ∀ pre suf, l = pre ++ suf → 0 < countdown exactOps cam.timer pre) := by
  have hpre : ∀ pre suf, frames = pre ++ suf →
      ∀ p s, pre = p ++ s → 0 < countdown F cam.timer p := by
    intro pre suf h p s hp
    exact hrun p (s ++ suf) (by rw [h, hp, List.append_assoc])
  refine ⟨?_, ?_, fun g c h => Camera.updateF_timer_nonneg F g c h,
    fun t l => countdown_exact l t, ?_⟩
  · intro pre suf h
    obtain ⟨r1, r2, r3⟩ := Camera.runF_running F pre cam (hpre pre suf h)
    exact ⟨r2, r3, r1, by rw [r1]; exact hrun pre suf h⟩
  · obtain ⟨r1, _, _⟩ := Camera.runF_running F frames cam (hpre frames [] (by simp))
    have hpos : 0 < (Camera.runF F cam frames).timer := by
      rw [r1]; exact hrun frames [] (by simp)
    have hex : F.rnd ((Camera.runF F cam frames).timer - f.deltaTime) ≤ 0 := by
      rw [r1]
      rw [countdown_append] at hreach
      exact hreach
    rw [Camera.runF_append]
    exact Camera.updateF_expiry F f _ hpos hex hlerp
  · intro l hl hlt pre suf h
    rw [countdown_exact]
    have h1 : elapsed l = elapsed pre + elapsed suf := by rw [h, elapsed_append]
    have h2 : 0 ≤ elapsed suf :=
      elapsed_nonneg suf (fun g hg => hl g (by rw [h]; exact List.mem_append_right _ hg))
    linarith

theorem camera_countdown_expiry_witness :
    (Camera.runF binary32Ops demoCamera
      (List.replicate 5 (demoFrame tick04) ++ [demoFrame tick04])).timer = 0 ∧
    (Camera.runF binary32Ops demoCamera
      (List.replicate 5 (demoFrame tick04) ++ [demoFrame tick04])).actCamera = -1 ∧
    (Camera.runF binary32Ops demoCamera
      (List.replicate 5 (demoFrame tick04) ++ [demoFrame tick04])).actTargetEntity = -1 ∧
    (Camera.runF binary32Ops demoCamera
      (List.replicate 5 (demoFrame tick04) ++ [demoFrame tick04])).target =
        (demoFrame tick04).owner.viewPoint :=
  (camera_countdown_expiry binary32Ops demoCamera (List.replicate 5 (demoFrame tick04))
    (demoFrame tick04) countdown_tick04.2.2
    (by
      have h := countdown_tick04.2.1
      have hsplit : List.replicate 6 (demoFrame tick04) =
          List.replicate 5 (demoFrame tick04) ++ [demoFrame tick04] := by
        simp [List.replicate]
      rw [hsplit] at h
      exact h)
    (fun a t => by simp [demoFrame, demoScene])).2.1

/-! ## The ray march in float arithmetic -/

theorem exactOps_toInt (f : ℚ) : exactOps.toInt f = toInt f := by
  simp [FloatOps.toInt, toInt32, exactOps]

theorem marchInitF_exact (sc : Scene) (g : Geometry) (fromRoom : Int) (origin target : vec3) :
    marchInitF exactOps sc g fromRoom origin target = marchInit sc g fromRoom origin target := by
  simp only [marchInitF, marchInit, exactOps_toInt]
  rfl

theorem marchAdvanceF_exact (sc : Scene) (s : March) :
    marchAdvanceF exactOps sc s = marchAdvance sc s := by
  simp only [marchAdvanceF, marchAdvance, exactOps_toInt]
  rfl

theorem marchBodyF_exact (sc : Scene) (g : Geometry) (isCamera : Bool) (origin : vec3)
    (s : March) : marchBodyF exactOps sc g isCamera origin s = marchBody sc g isCamera origin s := by
  have hc : ∀ t, marchCameraF exactOps sc g origin t = marchCamera sc g origin t := fun _ => rfl
  simp only [marchBodyF, marchBody, marchAdvanceF_exact, hc]

theorem marchLoopF_exact (sc : Scene) (g : Geometry) (isCamera : Bool) (origin : vec3) :
    ∀ (fuel : Nat) (s : March),
      marchLoopF exactOps sc g isCamera origin fuel s = marchLoop sc g isCamera origin fuel s := by
  intro fuel
  induction fuel with
  | zero => intro s; rfl
  | succ n ih =>
    intro s
    simp only [marchLoopF, marchLoop, marchBodyF_exact, ih]

/-- With exact arithmetic the march in float arithmetic is `trace`. -/
theorem traceF_exact (sc : Scene) (g : Geometry) (fuel : Nat) (fromRoom : Int)
    (origin target : vec3) (isCamera : Bool) :
    traceF exactOps sc g fuel fromRoom origin target isCamera =
      trace sc g fuel fromRoom origin target isCamera := by
  simp only [traceF, trace, marchLoopF_exact, marchInitF_exact]

theorem marchCameraF_fields (F : FloatOps) (sc : Scene) (g : Geometry) (origin : vec3)
    (s : March) :
    (marchCameraF F sc g origin s).dist = s.dist ∧
    (marchCameraF F sc g origin s).info = s.info ∧
    (marchCameraF F sc g origin s).py = s.py := by
  unfold marchCameraF
  simp only []
  split_ifs <;> exact ⟨rfl, rfl, rfl⟩

theorem marchAdvanceF_fields (F : FloatOps) (sc : Scene) (s : March) :
    (marchAdvanceF F sc s).dist = F.rnd (s.dist - min s.dist 32) ∧
    (marchAdvanceF F sc s).pos = sc.add s.pos (sc.scale s.dir (min s.dist 32)) ∧
    (marchAdvanceF F sc s).dir = s.dir ∧ (marchAdvanceF F sc s).room = s.room ∧
    (marchAdvanceF F sc s).info = s.info ∧
    (marchAdvanceF F sc s).py = F.toInt (marchAdvanceF F sc s).pos.y :=
  ⟨rfl, rfl, rfl, rfl, rfl, rfl⟩

/-- One pass through the loop body in float arithmetic: a pass that ends with
`break` is a pass of the sight branch and moves nothing; any other pass
replaces the remaining distance by the rounded difference with `min(dist, 32)`
and advances by `min(dist, 32)` times the direction it ends with, from the
point the branch left. -/
theorem marchBodyF_spec (F : FloatOps) (sc : Scene) (g : Geometry) (isCamera : Bool)
    (origin : vec3) (s : March) :
    ((marchBodyF F sc g isCamera origin s).2 = true →
      isCamera = false ∧
      (marchBodyF F sc g isCamera origin s).1 = (marchSight (marchQuery sc s)).1 ∧
      (marchSight (marchQuery sc s)).2 = true ∧
      (marchBodyF F sc g isCamera origin s).1.dist = s.dist ∧
      (marchBodyF F sc g isCamera origin s).1.pos = s.pos) ∧
    ((marchBodyF F sc g isCamera origin s).2 = false →
      (marchBodyF F sc g isCamera origin s).1.dist = F.rnd (s.dist - min s.dist 32) ∧
      (isCamera = false →
        (marchBodyF F sc g isCamera origin s).1.dir = s.dir ∧
        (marchBodyF F sc g isCamera origin s).1.pos =
          sc.add s.pos (sc.scale s.dir (min s.dist 32))) ∧
      (isCamera = true →
        (marchBodyF F sc g isCamera origin s).1.pos =
          sc.add (marchCameraF F sc g origin (marchQuery sc s)).pos
            (sc.scale (marchBodyF F sc g isCamera origin s).1.dir (min s.dist 32)))) := by
  obtain ⟨q1, q2, q3, _, _, _⟩ := marchQuery_fields sc s
  obtain ⟨t1, t2, t3, _, _⟩ := marchSight_fields (marchQuery sc s)
  obtain ⟨c1, _, _⟩ := marchCameraF_fields F sc g origin (marchQuery sc s)
  cases isCamera with
  | true =>
    have hbody : marchBodyF F sc g true origin s =
        (marchAdvanceF F sc (marchCameraF F sc g origin (marchQuery sc s)), false) := by
      simp [marchBodyF]
    rw [hbody]
    refine ⟨fun h => (by cases h), fun _ => ⟨?_, fun h => (by cases h), fun _ => ?_⟩⟩
    · rw [(marchAdvanceF_fields F sc _).1, c1, q3]
    · show (marchAdvanceF F sc _).pos = sc.add _ (sc.scale (marchAdvanceF F sc _).dir _)
      rw [(marchAdvanceF_fields F sc _).2.1, (marchAdvanceF_fields F sc _).2.2.1, c1, q3]
  | false =>
    by_cases hb : (marchSight (marchQuery sc s)).2 = true
    · have hbody : marchBodyF F sc g false origin s = marchSight (marchQuery sc s) := by
        simp [marchBodyF, hb]
      rw [hbody]
      refine ⟨fun _ => ⟨rfl, rfl, hb, by rw [t3, q3], by rw [t1, q1]⟩, fun h => ?_⟩
      rw [hb] at h; cases h
    · have hbody : marchBodyF F sc g false origin s =
          (marchAdvanceF F sc (marchSight (marchQuery sc s)).1, false) := by
        simp [marchBodyF, hb]
      rw [hbody]
      refine ⟨fun h => (by cases h), fun _ => ⟨?_, fun _ => ⟨?_, ?_⟩, fun h => (by cases h)⟩⟩
      · rw [(marchAdvanceF_fields F sc _).1, t3, q3]
      · rw [(marchAdvanceF_fields F sc _).2.2.1, t2, q2]
      · rw [(marchAdvanceF_fields F sc _).2.1, t1, q1, t2, q2, t3, q3]

/-- Where the subtractions of the march from the distance `D` are exact, the loop
in float arithmetic finishes within `fuel` passes when at most `32 * fuel`
units are left; the distance left at the end is not negative, not more than at
the start, and at most 1 unless the loop was left by `break`. -/
theorem marchLoopF_returns (F : FloatOps) (sc : Scene) (g : Geometry) (isCamera : Bool)
    (origin : vec3) (D : ℚ)
    (hexact : ∀ k : Nat, 32 * (k : ℚ) < D →
      F.rnd (D - 32 * k - min (D - 32 * k) 32) = D - 32 * k - min (D - 32 * k) 32) :
    ∀ (fuel : Nat) (s : March), ((∃ k : Nat, s.dist = D - 32 * k) ∨ s.dist ≤ 1) →
      s.dist ≤ 32 * (fuel : ℚ) →
      ∃ r, marchLoopF F sc g isCamera origin fuel s = some r ∧
        r.1.dist ≤ s.dist ∧ (0 ≤ s.dist → 0 ≤ r.1.dist) ∧ (r.2 = false → r.1.dist ≤ 1) := by
  intro fuel
  induction fuel with
  | zero =>
    intro s _ hs
    have h1 : ¬ s.dist > 1 := by
      simp only [Nat.cast_zero, mul_zero] at hs
      intro h; linarith
    exact ⟨(s, false), by simp [marchLoopF, h1], le_refl _, fun h => h, fun _ => not_lt.mp h1⟩
  | succ n ih =>
    intro s hinv hs
    by_cases h1 : s.dist > 1
    · obtain ⟨hbrk, hgo⟩ := marchBodyF_spec F sc g isCamera origin s
      by_cases hb : (marchBodyF F sc g isCamera origin s).2 = true
      · obtain ⟨_, _, _, hd, _⟩ := hbrk hb
        refine ⟨marchBodyF F sc g isCamera origin s, by simp [marchLoopF, h1, hb], ?_, ?_, ?_⟩
        · rw [hd]
        · intro h; rw [hd]; exact h
        · intro h; rw [hb] at h; cases h
      · have hb' : (marchBodyF F sc g isCamera origin s).2 = false := by simpa using hb
        obtain ⟨k, hk⟩ : ∃ k : Nat, s.dist = D - 32 * k := by
          rcases hinv with h | h
          · exact h
          · exact absurd h (not_le.mpr h1)
        have hlt : 32 * (k : ℚ) < D := by linarith
        have hex : F.rnd (s.dist - min s.dist 32) = s.dist - min s.dist 32 := by
          rw [hk]; exact hexact k hlt
        obtain ⟨hd, _, _⟩ := hgo hb'
        rw [hex] at hd
        obtain ⟨b1, b2, b3⟩ := min_step_bounds s.dist h1
        have hinv' : (∃ j : Nat, (marchBodyF F sc g isCamera origin s).1.dist = D - 32 * j) ∨
            (marchBodyF F sc g isCamera origin s).1.dist ≤ 1 := by
          rcases le_total s.dist 32 with h32 | h32
          · right
            rw [hd, min_eq_left h32]
            linarith
          · left
            refine ⟨k + 1, ?_⟩
            rw [hd, min_eq_right h32, hk]
            push_cast
            ring
        obtain ⟨r, hr, r1, r2, r3⟩ := ih (marchBodyF F sc g isCamera origin s).1 hinv'
          (by rw [hd]; exact b3 n hs)
        refine ⟨r, by simp [marchLoopF, h1, hb', hr], ?_, ?_, r3⟩
        · rw [hd] at r1; linarith
        · intro _; exact r2 (by rw [hd]; exact b1)
    · exact ⟨(s, false), by simp [marchLoopF, h1], le_refl _, fun h => h, fun _ => not_lt.mp h1⟩

/-- Where the subtraction of a step from the distance `D > 32` rounds back to `D`,
the loop in camera mode is still running after any number of passes. -/
theorem marchLoopF_stall (F : FloatOps) (sc : Scene) (g : Geometry) (origin : vec3) (D : ℚ)
    (hD : 32 < D) (hstall : F.rnd (D - 32) = D) :
    ∀ (fuel : Nat) (s : March), s.dist = D → marchLoopF F sc g true origin fuel s = none := by
  intro fuel
  induction fuel with
  | zero =>
    intro s hs
    have h1 : s.dist > 1 := by rw [hs]; linarith
    simp [marchLoopF, h1]
  | succ n ih =>
    intro s hs
    have h1 : s.dist > 1 := by rw [hs]; linarith
    obtain ⟨hbrk, hgo⟩ := marchBodyF_spec F sc g true origin s
    have hb : (marchBodyF F sc g true origin s).2 = false := by
      cases h : (marchBodyF F sc g true origin s).2 with
      | false => rfl
      | true => exact absurd (hbrk h).1 (by decide)
    have hd : (marchBodyF F sc g true origin s).1.dist = D := by
      rw [(hgo hb).1, hs, min_eq_right (le_of_lt hD), hstall]
    simp only [marchLoopF, h1, if_true, hb]
    exact ih _ hd

/-! ## The distance budget of the ray march -/

/-- Numbers of the examples that binary32 holds exactly, and the one subtraction
that does not stay exact: `10^9 - 32` lies half-way between two neighbours and
rounds back to `10^9`. -/
theorem binary32_values :
    binary32 32 = 32 ∧ binary32 64 = 64 ∧ binary32 41 = 41 ∧ binary32 9 = 9 ∧
    binary32 (10 ^ 9) = 10 ^ 9 ∧ binary32 (10 ^ 9 - 32) = 10 ^ 9 := by
  refine ⟨?_, ?_, ?_, ?_, ?_, ?_⟩
  · rw [binary32_of_near _ 5 8388608 (by norm_num) (by norm_num [abs_of_nonneg])
      (by norm_num [abs_of_nonneg]) (by norm_num) (by norm_num)]
    norm_num
  · rw [binary32_of_near _ 6 8388608 (by norm_num) (by norm_num [abs_of_nonneg])
      (by norm_num [abs_of_nonneg]) (by norm_num) (by norm_num)]
    norm_num
  · rw [binary32_of_near _ 5 10747904 (by norm_num) (by norm_num [abs_of_nonneg])
      (by norm_num [abs_of_nonneg]) (by norm_num) (by norm_num)]
    norm_num
  · rw [binary32_of_near _ 3 9437184 (by norm_num) (by norm_num [abs_of_nonneg])
      (by norm_num [abs_of_nonneg]) (by norm_num) (by norm_num)]
    norm_num
  · rw [binary32_of_near _ 29 15625000 (by norm_num) (by norm_num [abs_of_nonneg])
      (by norm_num [abs_of_nonneg]) (by norm_num) (by norm_num)]
    norm_num
  · rw [binary32_of_tie _ 29 15624999 (by norm_num) (by norm_num [abs_of_nonneg])
      (by norm_num [abs_of_nonneg]) (by norm_num)]
    norm_num

/-- The length of the segment from the origin to a point `(x, 0, 0)` whose `x ≥ 0`
binary32 holds exactly, in the example scene and geometry. -/
theorem length_along_x (x : ℚ) (hx : 0 ≤ x) (hfl : binary32 x = x) :
    demoGeometry.length ((roundedScene binary32Ops).sub ⟨x, 0, 0⟩ ⟨0, 0, 0⟩) = x := by
  simp [demoGeometry, roundedScene, binary32Ops, binary32_zero, hfl, abs_of_nonneg hx]

/-- C16, as stated, fails in the arithmetic of the program.  For the march from the
origin to `(10^9, 0, 0)` the distance is `D = 10^9`, and `D - 32` rounds back
to `D` in binary32: the remaining distance does not decrease, and in camera
mode the loop is still running after any number of passes, not only after
`⌈D / 32⌉ = 31250000`. -/
theorem trace_budget_counterexample :
    demoGeometry.length ((roundedScene binary32Ops).sub ⟨10 ^ 9, 0, 0⟩ ⟨0, 0, 0⟩) = 10 ^ 9 ∧
    binary32Ops.rnd (10 ^ 9 - min (10 ^ 9) 32) = 10 ^ 9 ∧
    (∀ s : March, s.dist = 10 ^ 9 →
      (marchBodyF binary32Ops (roundedScene binary32Ops) demoGeometry true ⟨0, 0, 0⟩ s).1.dist =
        s.dist) ∧
    (∀ fuel : Nat, traceF binary32Ops (roundedScene binary32Ops) demoGeometry fuel 0
      ⟨0, 0, 0⟩ ⟨10 ^ 9, 0, 0⟩ true = none) := by
  obtain ⟨_, _, _, _, v5, v6⟩ := binary32_values
  have hD := length_along_x (10 ^ 9) (by norm_num) v5
  have hstall : binary32Ops.rnd (10 ^ 9 - 32) = 10 ^ 9 := v6
  have hmin : min ((10 : ℚ) ^ 9) 32 = 32 := min_eq_right (by norm_num)
  refine ⟨hD, by rw [hmin]; exact hstall, ?_, ?_⟩
  · intro s hs
    obtain ⟨hbrk, hgo⟩ := marchBodyF_spec binary32Ops (roundedScene binary32Ops) demoGeometry
      true ⟨0, 0, 0⟩ s
    have hb : (marchBodyF binary32Ops (roundedScene binary32Ops) demoGeometry true
        ⟨0, 0, 0⟩ s).2 = false := by
      cases h : (marchBodyF binary32Ops (roundedScene binary32Ops) demoGeometry true
          ⟨0, 0, 0⟩ s).2 with
      | false => rfl
      | true => exact absurd (hbrk h).1 (by decide)
    rw [(hgo hb).1, hs, hmin, hstall]
  · intro fuel
    have h := marchLoopF_stall binary32Ops (roundedScene binary32Ops) demoGeometry ⟨0, 0, 0⟩
      (10 ^ 9) (by norm_num) hstall fuel
      (marchInitF binary32Ops (roundedScene binary32Ops) demoGeometry 0 ⟨0, 0, 0⟩
        ⟨10 ^ 9, 0, 0⟩) hD
    simp only [traceF, h, Option.map_none']

/-- C16, amended. The distance budget of `trace` in the arithmetic of the program,
in both modes.  A pass that does not end with `break` replaces the remaining
distance by the rounded difference `dist - min(dist, 32)` and moves the point
by `min(dist, 32)` times the current direction, starting from the point the
branch left: the point itself in sight mode, and in a wall-slide pass of the
camera mode the relocated point (the point put on its cell plus 256 times the
face normal), which is not charged to the budget.  Where the subtraction is
exact the remaining distance stays non-negative and strictly decreases.  If
the subtractions along the march from `D = |to - from|` are exact (`D`, `D - 32`,
`D - 64`, ... each less its step), the loop finishes within `⌈D / 32⌉` passes
with a remaining distance between 0 and `D`, at most 1 unless it was left by
`break`.  A pass that ends with `break` changes neither distance nor point.  In
binary32 the subtractions are exact, and the loop finishes so, for every `D`
that binary32 holds below `2^29`. -/
theorem trace_distance_budget (F : FloatOps) (sc : Scene) (g : Geometry) (isCamera : Bool)
    (fromRoom : Int) (origin target : vec3)
    (hexact : ∀ k : Nat, 32 * (k : ℚ) < g.length (sc.sub target origin) →
      F.rnd (g.length (sc.sub target origin) - 32 * k -
          min (g.length (sc.sub target origin) - 32 * k) 32) =
        g.length (sc.sub target origin) - 32 * k -
          min (g.length (sc.sub target origin) - 32 * k) 32) :
    (∃ r, marchLoopF F sc g isCamera origin ⌈g.length (sc.sub target origin) / 32⌉₊
        (marchInitF F sc g fromRoom origin target) = some r ∧
      traceF F sc g ⌈g.length (sc.sub target origin) / 32⌉₊ fromRoom origin target isCamera =
        some (r.1.pos, r.1.room) ∧
      r.1.dist ≤ g.length (sc.sub target origin) ∧
      (0 ≤ g.length (sc.sub target origin) → 0 ≤ r.1.dist) ∧
      (r.2 = false → r.1.dist ≤ 1)) ∧
    (∀ s : March, 1 < s.dist → (marchBodyF F sc g isCamera origin s).2 = false →
      (marchBodyF F sc g isCamera origin s).1.dist = F.rnd (s.dist - min s.dist 32) ∧
      (F.rnd (s.dist - min s.dist 32) = s.dist - min s.dist 32 →
        0 ≤ (marchBodyF F sc g isCamera origin s).1.dist ∧
        (marchBodyF F sc g isCamera origin s).1.dist < s.dist) ∧
      (isCamera = false → (marchBodyF F sc g isCamera origin s).1.pos =
        sc.add s.pos (sc.scale (marchBodyF F sc g isCamera origin s).1.dir (min s.dist 32))) ∧
      (isCamera = true → (marchBodyF F sc g isCamera origin s).1.pos =
        sc.add (marchCameraF F sc g origin (marchQuery sc s)).pos
          (sc.scale (marchBodyF F sc g isCamera origin s).1.dir (min s.dist 32)))) ∧
    (∀ s : March, ¬ (s.py > s.info.roomFloor ∧ s.info.roomBelow ≠ 0xFF) →
      ¬ (s.py < s.info.roomCeiling ∧ s.info.roomAbove ≠ 0xFF) →
      (s.py > s.info.floor ∨ s.py < s.info.ceiling) →
      (marchCameraF F sc g origin s).pos =
        sc.add ⟨F.rnd (g.clamp s.px (Int.tdiv s.px 1024 * 1024)
            (Int.tdiv s.px 1024 * 1024 + 1024) : Int), s.pos.y,
          F.rnd (g.clamp s.pz (Int.tdiv s.pz 1024 * 1024)
            (Int.tdiv s.pz 1024 * 1024 + 1024) : Int)⟩
          (sc.scale (g.boxNormal s.px s.pz) 256)) ∧
    (∀ s : March, (marchBodyF F sc g isCamera origin s).2 = true →
      (marchBodyF F sc g isCamera origin s).1.dist = s.dist ∧
      (marchBodyF F sc g isCamera origin s).1.pos = s.pos) ∧
    (IsBinary32 (g.length (sc.sub target origin)) →
      g.length (sc.sub target origin) < 2 ^ 29 →
      ∃ r, marchLoopF binary32Ops sc g isCamera origin
          ⌈g.length (sc.sub target origin) / 32⌉₊
          (marchInitF binary32Ops sc g fromRoom origin target) = some r ∧
        traceF binary32Ops sc g ⌈g.length (sc.sub target origin) / 32⌉₊ fromRoom origin
          target isCamera = some (r.1.pos, r.1.room) ∧
        r.1.dist ≤ g.length (sc.sub target origin) ∧
        (0 ≤ g.length (sc.sub target origin) → 0 ≤ r.1.dist) ∧
        (r.2 = false → r.1.dist ≤ 1)) := by
  refine ⟨?_, ?_, ?_, ?_, ?_⟩
  rotate_right
  · intro hD h29
    have hceil : (marchInitF binary32Ops sc g fromRoom origin target).dist ≤
        32 * ((⌈g.length (sc.sub target origin) / 32⌉₊ : Nat) : ℚ) := by
      have h := Nat.le_ceil (g.length (sc.sub target origin) / 32)
      show g.length (sc.sub target origin) ≤ _
      linarith
    obtain ⟨r, hr, r1, r2, r3⟩ := marchLoopF_returns binary32Ops sc g isCamera origin
      (g.length (sc.sub target origin)) (binary32_march_exact _ hD h29) _
      (marchInitF binary32Ops sc g fromRoom origin target)
      (Or.inl ⟨0, by simp [marchInitF]⟩) hceil
    exact ⟨r, hr, by simp [traceF, hr], r1, r2, r3⟩
  · have hceil : (marchInitF F sc g fromRoom origin target).dist ≤
        32 * ((⌈g.length (sc.sub target origin) / 32⌉₊ : Nat) : ℚ) := by
      have h := Nat.le_ceil (g.length (sc.sub target origin) / 32)
      show g.length (sc.sub target origin) ≤ _
      linarith
    obtain ⟨r, hr, r1, r2, r3⟩ := marchLoopF_returns F sc g isCamera origin
      (g.length (sc.sub target origin)) hexact _ (marchInitF F sc g fromRoom origin target)
      (Or.inl ⟨0, by simp [marchInitF]⟩) hceil
    exact ⟨r, hr, by simp [traceF, hr], r1, r2, r3⟩
  · intro s h1 hb
    obtain ⟨hd, hs, hc⟩ := (marchBodyF_spec F sc g isCamera origin s).2 hb
    obtain ⟨b1, b2, _⟩ := min_step_bounds s.dist h1
    refine ⟨hd, fun hex => ?_, fun h => ?_, hc⟩
    · rw [hd, hex]; exact ⟨b1, b2⟩
    · obtain ⟨e1, e2⟩ := hs h
      rw [e2, e1]
  · intro s h1 h2 h3
    unfold marchCameraF
    rw [if_neg h1, if_neg h2, if_pos h3]
  · intro s hb
    obtain ⟨_, _, _, hd, hp⟩ := (marchBodyF_spec F sc g isCamera origin s).1 hb
    exact ⟨hd, hp⟩

theorem trace_distance_budget_witness :
    ∃ r, marchLoopF binary32Ops (roundedScene binary32Ops) demoGeometry true ⟨0, 0, 0⟩
        ⌈demoGeometry.length ((roundedScene binary32Ops).sub ⟨64, 0, 0⟩ ⟨0, 0, 0⟩) / 32⌉₊
        (marchInitF binary32Ops (roundedScene binary32Ops) demoGeometry 0 ⟨0, 0, 0⟩
          ⟨64, 0, 0⟩) = some r ∧
      traceF binary32Ops (roundedScene binary32Ops) demoGeometry
        ⌈demoGeometry.length ((roundedScene binary32Ops).sub ⟨64, 0, 0⟩ ⟨0, 0, 0⟩) / 32⌉₊
        0 ⟨0, 0, 0⟩ ⟨64, 0, 0⟩ true = some (r.1.pos, r.1.room) ∧
      r.1.dist ≤ demoGeometry.length ((roundedScene binary32Ops).sub ⟨64, 0, 0⟩ ⟨0, 0, 0⟩) ∧
      (0 ≤ demoGeometry.length ((roundedScene binary32Ops).sub ⟨64, 0, 0⟩ ⟨0, 0, 0⟩) →
        0 ≤ r.1.dist) ∧
      (r.2 = false → r.1.dist ≤ 1) :=
  (trace_distance_budget binary32Ops (roundedScene binary32Ops) demoGeometry true 0
    ⟨0, 0, 0⟩ ⟨64, 0, 0⟩ (by
      intro k hk
      rw [length_along_x 64 (by norm_num) binary32_values.2.1] at hk ⊢
      have hk2 : k < 2 := by
        have : (k : ℚ) < 2 := by linarith
        exact_mod_cast this
      interval_cases k
      · have e : (64 : ℚ) - 32 * ((0 : Nat) : ℚ) - min (64 - 32 * ((0 : Nat) : ℚ)) 32 = 32 := by
          norm_num
        rw [e]; exact binary32_values.1
      · have e : (64 : ℚ) - 32 * ((1 : Nat) : ℚ) - min (64 - 32 * ((1 : Nat) : ℚ)) 32 = 0 := by
          norm_num
        rw [e]; exact binary32_zero)).1

/-! ## The ray march in sight mode: where an unobstructed march ends -/

end OpenLara
